import Mathlib

/-!
Verification of osk-iotcore: the keyboard state and event-routing engine.

A shallow embedding of `pkg/keyboard` (layout model, parser, validator, key-state
manager), of the event dispatcher of `internal/wayland/protocol.go`, of the hit test and
input translation of `ui/widget.go`, and of the layout checks of
`schema_validation_test.go`, followed by the properties established about them.

Conventions of the embedding.

* Go `int` is a 64-bit two's-complement integer: values are `Int`, and every `+` and
  `-` of the source goes through `addInt` / `subInt`, which wrap modulo `2^64`.
* A `*Key` is an `Option Key`; `none` is the nil pointer.  Dereferencing nil is the
  outcome `Run.panic`.
* A Go `error` result is an `Option` of a structured error; `none` is the nil error.
* Methods that mutate the receiver return the receiver's new value.
* Function values passed in by clients (key callbacks, event handlers) are non-nil,
  are identified by a tag, and every invocation is recorded.
* The mutex of `Keyboard` and the goroutines around the event channel are not part of
  the embedding: every operation is one atomic step.
* The file system and `encoding/json` are parameters, collected in `Env`.
-/

namespace OskIotcore

/-! ## Machine integers -/

/-- Reduction of an integer to the range of a 64-bit two's-complement `int`. -/
def wrapInt (n : Int) : Int :=
  (n + 9223372036854775808) % 18446744073709551616 - 9223372036854775808

/-- Go `a + b` on `int`. -/
def addInt (a b : Int) : Int := wrapInt (a + b)

/-- Go `a - b` on `int`. -/
def subInt (a b : Int) : Int := wrapInt (a - b)

/-- Go `a / b` on `int`, for `b` other than zero: division truncated toward zero. -/
def divInt (a b : Int) : Int := Int.tdiv a b

/-- Value `n` is in the range of a 64-bit `int`. -/
def IsInt64 (n : Int) : Prop := -9223372036854775808 ≤ n ∧ n < 9223372036854775808

/-- Value `n` is in the range of an `int32`. -/
def IsInt32 (n : Int) : Prop := -2147483648 ≤ n ∧ n < 2147483648

instance IsInt64.decidable (n : Int) : Decidable (IsInt64 n) :=
  inferInstanceAs (Decidable (-9223372036854775808 ≤ n ∧ n < 9223372036854775808))

instance IsInt32.decidable (n : Int) : Decidable (IsInt32 n) :=
  inferInstanceAs (Decidable (-2147483648 ≤ n ∧ n < 2147483648))

/-! ## Outcomes -/

/-- Outcome of running a piece of code: it returns a value, or it panics
(nil-pointer dereference, call of a nil function). -/
inductive Run (α : Type) where
  | ret (a : α) : Run α
  | panic : Run α
deriving DecidableEq, Repr

/-! ## Data model (`keyboard.go`) -/

/-- KeyState represents the state of a key. -/
inductive KeyState where
  | KeyStateReleased
  | KeyStatePressed
  | KeyStateRepeating
deriving DecidableEq, Repr

/-- Key represents a single key on the keyboard. -/
structure Key where
  ID : String
  Label : String
  Code : Int
  X : Int
  Y : Int
  Width : Int
  Height : Int
  State : KeyState := KeyState.KeyStateReleased
  Modifier : Bool := false
deriving DecidableEq, Repr

/-- Layout represents a keyboard layout; `Keys` is a slice of pointers. -/
structure Layout where
  Name : String
  Keys : List (Option Key)
  Width : Int
  Height : Int
  Description : String := ""
deriving DecidableEq, Repr

/-- A 32-bit float, held as its IEEE-754 bit pattern; no arithmetic is done on it. -/
abbrev Float32 := Nat

/-- Theme represents keyboard visual theme; a colour is a `[4]float32`. -/
structure Theme where
  Name : String
  BackgroundColor : Float32 × Float32 × Float32 × Float32
  KeyColor : Float32 × Float32 × Float32 × Float32
  KeyPressedColor : Float32 × Float32 × Float32 × Float32
  TextColor : Float32 × Float32 × Float32 × Float32
  FontSize : Int
  BorderRadius : Int
deriving DecidableEq, Repr

/-- A registered `func(*Key)`.  Its body is client code: the embedding identifies the
function by a tag, records each invocation, and takes it to be non-nil and not to write
to the keyboard or the key it receives. -/
structure Callback where
  tag : Nat
deriving DecidableEq, Repr

/-- One invocation `callback(key)`. -/
structure Call where
  callback : Callback
  key : Key
deriving DecidableEq, Repr

/-- Keyboard manages keyboard state and layout; the two maps are partial functions. -/
structure Keyboard where
  layout : Option Layout
  theme : Option Theme
  keyStates : String → Option KeyState
  callbacks : String → Option Callback

/-- The map assignment `m[k] = v`. -/
def mapSet {β : Type} (m : String → Option β) (k : String) (v : β) : String → Option β :=
  fun q => if q = k then some v else m q

/-! ## Environment: file system and JSON decoding -/

/-- Result of `os.Stat`, as far as the source looks at it. -/
inductive StatResult where
  | ok
  | notExist
  | otherError
deriving DecidableEq, Repr

/-- An entry returned by `ioutil.ReadDir`. -/
structure DirEntry where
  Name : String
  IsDir : Bool
deriving DecidableEq, Repr

/-- The operating system and the standard library, as seen by the package.
`readFile` and `readDir` are `none` on failure; the decoders are `json.Unmarshal`
into a `Layout` and into a `Theme`, `none` on a decoding error; `marshalLayout` is
`json.MarshalIndent` of a `Layout`, `none` on an encoding error; `mkdirAll` and
`writeFile` tell whether `os.MkdirAll` and `ioutil.WriteFile` succeed on a path. -/
structure Env where
  join : String → String → String
  stat : String → StatResult
  readFile : String → Option String
  readDir : String → Option (List DirEntry)
  unmarshalLayout : String → Option Layout
  unmarshalTheme : String → Option Theme
  marshalLayout : Layout → Option String := fun _ => none
  mkdirAll : String → Bool := fun _ => true
  writeFile : String → Bool := fun _ => true

/-! ## Validation (`parser.go`) -/

/-- LayoutParser handles parsing of keyboard layout files. -/
structure LayoutParser where
  layoutDir : String
deriving DecidableEq, Repr

/-- NewLayoutParser creates a new layout parser. -/
def NewLayoutParser (layoutDir : String) : LayoutParser := { layoutDir := layoutDir }

/-- Errors of `validateKey`, one per `fmt.Errorf` of the function. -/
inductive KeyError where
  /-- Message "key ID cannot be empty". -/
  | idEmpty
  /-- Message "key label cannot be empty". -/
  | labelEmpty
  /-- Message "key dimensions must be positive". -/
  | dimensionsNotPositive
  /-- Message "key position must be non-negative". -/
  | positionNegative
deriving DecidableEq, Repr

/-- Errors of `ValidateLayout`, one per `fmt.Errorf` of the function. -/
inductive LayoutError where
  /-- Message "layout name cannot be empty". -/
  | nameEmpty
  /-- Message "layout dimensions must be positive". -/
  | dimensionsNotPositive
  /-- Message "layout must contain at least one key". -/
  | noKeys
  /-- Message "key %d is invalid: %w". -/
  | keyInvalid (index : Nat) (cause : KeyError)
deriving DecidableEq, Repr

/-- validateKey validates a single key structure. -/
def LayoutParser.validateKey (_p : LayoutParser) (key : Option Key) (_index : Nat) :
    Run (Option KeyError) :=
  match key with
  | none => Run.panic
  | some k =>
    if k.ID = "" then Run.ret (some KeyError.idEmpty)
    else if k.Label = "" then Run.ret (some KeyError.labelEmpty)
    else if k.Width ≤ 0 ∨ k.Height ≤ 0 then Run.ret (some KeyError.dimensionsNotPositive)
    else if k.X < 0 ∨ k.Y < 0 then Run.ret (some KeyError.positionNegative)
    else Run.ret none

/-- The loop `for i, key := range layout.Keys` of `ValidateLayout`, entered at index `i`. -/
def LayoutParser.validateKeysFrom (p : LayoutParser) :
    List (Option Key) → Nat → Run (Option LayoutError)
  | [], _ => Run.ret none
  | key :: rest, i =>
    match p.validateKey key i with
    | Run.panic => Run.panic
    | Run.ret (some err) => Run.ret (some (LayoutError.keyInvalid i err))
    | Run.ret none => p.validateKeysFrom rest (i + 1)

/-- ValidateLayout validates a keyboard layout structure. -/
def LayoutParser.ValidateLayout (p : LayoutParser) (layout : Layout) : Run (Option LayoutError) :=
  if layout.Name = "" then Run.ret (some LayoutError.nameEmpty)
  else if layout.Width ≤ 0 ∨ layout.Height ≤ 0 then Run.ret (some LayoutError.dimensionsNotPositive)
  else if layout.Keys.length = 0 then Run.ret (some LayoutError.noKeys)
  else p.validateKeysFrom layout.Keys 0

/-! ## Parsing (`parser.go`) -/

/-- Errors of `ParseLayout`, one per `fmt.Errorf` of the function. -/
inductive ParseError where
  /-- Message "layout file %s does not exist". -/
  | notExist (fullPath : String)
  /-- Message "failed to read layout file %s: %w". -/
  | readFailed (fullPath : String)
  /-- Message "failed to parse layout JSON: %w". -/
  | malformed
deriving DecidableEq, Repr

/-- ParseLayout parses a keyboard layout from a JSON file. -/
def LayoutParser.ParseLayout (p : LayoutParser) (env : Env) (filename : String) :
    Except ParseError Layout :=
  let fullPath := env.join p.layoutDir filename
  if env.stat fullPath = StatResult.notExist then Except.error (ParseError.notExist fullPath)
  else
    match env.readFile fullPath with
    | none => Except.error (ParseError.readFailed fullPath)
    | some data =>
      match env.unmarshalLayout data with
      | none => Except.error ParseError.malformed
      | some layout => Except.ok layout

/-- Errors of `SaveLayout`, one per `fmt.Errorf` of the function. -/
inductive SaveError where
  /-- Message "failed to create layout directory: %w". -/
  | mkdirFailed
  /-- Message "failed to marshal layout to JSON: %w". -/
  | marshalFailed
  /-- Message "failed to write layout file: %w". -/
  | writeFailed
deriving DecidableEq, Repr

/-- SaveLayout saves a keyboard layout to a JSON file.  Returns the environment after
the call and the error result.  A directory that was created exists afterwards, and a
file that was written exists and reads back as the data written; the directory listing
after the write is not part of the embedding. -/
def LayoutParser.SaveLayout (p : LayoutParser) (env : Env) (layout : Layout)
    (filename : String) : Env × Option SaveError :=
  let fullPath := env.join p.layoutDir filename
  -- Create directory if it doesn't exist
  if env.mkdirAll p.layoutDir = false then (env, some SaveError.mkdirFailed)
  else
    let env1 : Env :=
      { env with stat := fun q => if q = p.layoutDir then StatResult.ok else env.stat q }
    -- Marshal layout to JSON
    match env1.marshalLayout layout with
    | none => (env1, some SaveError.marshalFailed)
    | some data =>
      -- Write to file
      if env1.writeFile fullPath = false then (env1, some SaveError.writeFailed)
      else
        ({ env1 with
            stat := fun q => if q = fullPath then StatResult.ok else env1.stat q,
            readFile := fun q => if q = fullPath then some data else env1.readFile q },
          none)

/-- Errors of `ListLayouts`. -/
inductive ListError where
  /-- Message "failed to read layout directory: %w". -/
  | readDirFailed
deriving DecidableEq, Repr

/-- The suffix of `s` from position `i`, the Go slice `s[i:]`.  The source slices by
bytes and the embedding by characters; the two agree wherever the source compares the
slice with the ASCII text ".json". -/
def sliceFrom (s : String) (i : Nat) : String := String.mk (s.data.drop i)

/-- The prefix of `s` up to position `i`, the Go slice `s[:i]`. -/
def sliceTo (s : String) (i : Nat) : String := String.mk (s.data.take i)

/-- Test `filepath.Ext(name) == ".json"`: the extension is the suffix starting at the
last dot, and ".json" has a single dot, so the test holds exactly when the name ends
in ".json". -/
def extIsJSON (name : String) : Bool :=
  decide (sliceFrom name (name.length - 5) = ".json")

/-- ListLayouts returns a list of available layout files. -/
def LayoutParser.ListLayouts (p : LayoutParser) (env : Env) : Except ListError (List String) :=
  if env.stat p.layoutDir = StatResult.notExist then Except.ok []
  else
    match env.readDir p.layoutDir with
    | none => Except.error ListError.readDirFailed
    | some files =>
      Except.ok ((files.filter (fun file => !file.IsDir && extIsJSON file.Name)).map
        (fun file => file.Name))

/-! ## Keyboard state manager (`keyboard.go`) -/

/-- Errors of the `Keyboard` methods and of `New`. -/
inductive KbError where
  /-- Message "layout %s not found: %w". -/
  | layoutNotFound (name : String) (cause : ParseError)
  /-- Message "invalid layout %s: %w". -/
  | layoutInvalid (name : String) (cause : LayoutError)
  /-- Message "no current layout to refresh". -/
  | noCurrentLayout
  /-- Message "failed to load default layout: %w". -/
  | defaultLayoutFailed (cause : KbError)
  /-- Message "failed to load glass theme: %w". -/
  | glassThemeFailed (cause : KbError)
  /-- Message "failed to list layouts: %w". -/
  | listFailed (cause : ListError)
  /-- Message "theme file %s.json not found". -/
  | themeNotFound (name : String)
deriving DecidableEq, Repr

/-- createQWERTYLayout creates a basic QWERTY keyboard layout. -/
def createQWERTYLayout : List (Option Key) :=
  [ -- Top row
    some { ID := "q", Label := "Q", Code := 16, X := 10, Y := 10, Width := 60, Height := 60 },
    some { ID := "w", Label := "W", Code := 17, X := 80, Y := 10, Width := 60, Height := 60 },
    some { ID := "e", Label := "E", Code := 18, X := 150, Y := 10, Width := 60, Height := 60 },
    some { ID := "r", Label := "R", Code := 19, X := 220, Y := 10, Width := 60, Height := 60 },
    some { ID := "t", Label := "T", Code := 20, X := 290, Y := 10, Width := 60, Height := 60 },
    some { ID := "y", Label := "Y", Code := 21, X := 360, Y := 10, Width := 60, Height := 60 },
    some { ID := "u", Label := "U", Code := 22, X := 430, Y := 10, Width := 60, Height := 60 },
    some { ID := "i", Label := "I", Code := 23, X := 500, Y := 10, Width := 60, Height := 60 },
    some { ID := "o", Label := "O", Code := 24, X := 570, Y := 10, Width := 60, Height := 60 },
    some { ID := "p", Label := "P", Code := 25, X := 640, Y := 10, Width := 60, Height := 60 },
    -- Middle row
    some { ID := "a", Label := "A", Code := 30, X := 45, Y := 80, Width := 60, Height := 60 },
    some { ID := "s", Label := "S", Code := 31, X := 115, Y := 80, Width := 60, Height := 60 },
    some { ID := "d", Label := "D", Code := 32, X := 185, Y := 80, Width := 60, Height := 60 },
    some { ID := "f", Label := "F", Code := 33, X := 255, Y := 80, Width := 60, Height := 60 },
    some { ID := "g", Label := "G", Code := 34, X := 325, Y := 80, Width := 60, Height := 60 },
    some { ID := "h", Label := "H", Code := 35, X := 395, Y := 80, Width := 60, Height := 60 },
    some { ID := "j", Label := "J", Code := 36, X := 465, Y := 80, Width := 60, Height := 60 },
    some { ID := "k", Label := "K", Code := 37, X := 535, Y := 80, Width := 60, Height := 60 },
    some { ID := "l", Label := "L", Code := 38, X := 605, Y := 80, Width := 60, Height := 60 },
    -- Bottom row
    some { ID := "z", Label := "Z", Code := 44, X := 80, Y := 150, Width := 60, Height := 60 },
    some { ID := "x", Label := "X", Code := 45, X := 150, Y := 150, Width := 60, Height := 60 },
    some { ID := "c", Label := "C", Code := 46, X := 220, Y := 150, Width := 60, Height := 60 },
    some { ID := "v", Label := "V", Code := 47, X := 290, Y := 150, Width := 60, Height := 60 },
    some { ID := "b", Label := "B", Code := 48, X := 360, Y := 150, Width := 60, Height := 60 },
    some { ID := "n", Label := "N", Code := 49, X := 430, Y := 150, Width := 60, Height := 60 },
    some { ID := "m", Label := "M", Code := 50, X := 500, Y := 150, Width := 60, Height := 60 },
    -- Special keys
    some { ID := "space", Label := "Space", Code := 57, X := 200, Y := 220, Width := 300,
           Height := 60 },
    some { ID := "shift", Label := "Shift", Code := 42, X := 10, Y := 150, Width := 60,
           Height := 60, Modifier := true },
    some { ID := "backspace", Label := "⌫", Code := 14, X := 710, Y := 10, Width := 80,
           Height := 60 },
    some { ID := "enter", Label := "Enter", Code := 28, X := 675, Y := 80, Width := 115,
           Height := 60 } ]

/-- LoadLayout loads a keyboard layout by name from the layout.d directory.
Returns the keyboard after the call and the error result. -/
def Keyboard.LoadLayout (env : Env) (kb : Keyboard) (name : String) :
    Keyboard × Run (Option KbError) :=
  -- Try to load from layout.d directory first
  let parser := NewLayoutParser "assets/layouts"
  let loaded : Except KbError Layout :=
    match parser.ParseLayout env (name ++ ".json") with
    | Except.ok layout => Except.ok layout
    | Except.error err =>
      -- Fallback to built-in layout if file not found
      if name = "qwerty" then
        Except.ok { Name := name, Width := 900, Height := 400, Keys := createQWERTYLayout }
      else Except.error (KbError.layoutNotFound name err)
  match loaded with
  | Except.error e => (kb, Run.ret (some e))
  | Except.ok layout =>
    -- Validate the loaded layout
    match parser.ValidateLayout layout with
    | Run.panic => (kb, Run.panic)
    | Run.ret (some err) => (kb, Run.ret (some (KbError.layoutInvalid name err)))
    | Run.ret none => ({ kb with layout := some layout }, Run.ret none)

/-- The directories searched by `loadThemeFromFile`, in order. -/
def themeDirs : List String := ["assets/themes", "themes", "../assets/themes"]

/-- The loop `for _, themeDir := range themeDirs` of `loadThemeFromFile`. -/
def loadThemeFromDirs (env : Env) (name : String) : List String → Except KbError Theme
  | [] => Except.error (KbError.themeNotFound name)
  | themeDir :: rest =>
    let themePath := env.join themeDir (name ++ ".json")
    if env.stat themePath = StatResult.ok then
      -- File exists, try to load it
      match env.readFile themePath with
      | none => loadThemeFromDirs env name rest
      | some data =>
        match env.unmarshalTheme data with
        | none => loadThemeFromDirs env name rest
        | some theme => Except.ok theme
    else loadThemeFromDirs env name rest

/-- loadThemeFromFile loads a theme from a JSON file. -/
def loadThemeFromFile (env : Env) (name : String) : Except KbError Theme :=
  loadThemeFromDirs env name themeDirs

/-- The theme that `LoadTheme` substitutes when no file loads.  The colour components
are the float32 values of 0.2, 0.8, 0.6, 0.0 and 1.0. -/
def defaultTheme (name : String) : Theme :=
  { Name := name,
    BackgroundColor := (0x3E4CCCCD, 0x3E4CCCCD, 0x3E4CCCCD, 0x3F800000),
    KeyColor := (0x3F4CCCCD, 0x3F4CCCCD, 0x3F4CCCCD, 0x3F800000),
    KeyPressedColor := (0x3F19999A, 0x3F19999A, 0x3F19999A, 0x3F800000),
    TextColor := (0, 0, 0, 0x3F800000),
    FontSize := 16,
    BorderRadius := 4 }

/-- LoadTheme loads a visual theme by name. -/
def Keyboard.LoadTheme (env : Env) (kb : Keyboard) (name : String) :
    Keyboard × Run (Option KbError) :=
  -- Try to load theme from JSON file
  let theme : Theme :=
    match loadThemeFromFile env name with
    | Except.ok theme => theme
    | Except.error _ => defaultTheme name -- Fallback to default theme if file not found
  ({ kb with theme := some theme }, Run.ret none)

/-- New creates a new keyboard instance. -/
def New (env : Env) : Run (Except KbError Keyboard) :=
  let kb : Keyboard :=
    { layout := none, theme := none, keyStates := fun _ => none, callbacks := fun _ => none }
  -- Load default layout
  match Keyboard.LoadLayout env kb "qwerty" with
  | (_, Run.panic) => Run.panic
  | (_, Run.ret (some err)) => Run.ret (Except.error (KbError.defaultLayoutFailed err))
  | (kb1, Run.ret none) =>
    -- Load glass theme
    match Keyboard.LoadTheme env kb1 "glass" with
    | (_, Run.panic) => Run.panic
    | (_, Run.ret (some err)) => Run.ret (Except.error (KbError.glassThemeFailed err))
    | (kb2, Run.ret none) => Run.ret (Except.ok kb2)

/-- GetLayout returns the current keyboard layout. -/
def Keyboard.GetLayout (kb : Keyboard) : Option Layout := kb.layout

/-- GetTheme returns the current keyboard theme. -/
def Keyboard.GetTheme (kb : Keyboard) : Option Theme := kb.theme

/-- Result of a call that may invoke callbacks: the keyboard after the call, the error
result, and the callback invocations made, in order. -/
structure Effect where
  kb : Keyboard
  result : Run (Option KbError)
  calls : List Call

/-- The loop of `PressKey` over `kb.layout.Keys`: the keys after the loop and the
callback invocations; `callback` is the entry `kb.callbacks[keyID]`, if any. -/
def pressKeyIn (callback : Option Callback) (keyID : String) :
    List (Option Key) → List (Option Key) × Run (List Call)
  | [] => ([], Run.ret [])
  | none :: rest => (none :: rest, Run.panic)
  | some key :: rest =>
    if key.ID = keyID then
      let pressed : Key := { key with State := KeyState.KeyStatePressed }
      -- Call callback if registered
      (some pressed :: rest,
        Run.ret (match callback with
          | some cb => [{ callback := cb, key := pressed }]
          | none => []))
    else
      let r := pressKeyIn callback keyID rest
      (some key :: r.1, r.2)

/-- PressKey sets a key to pressed state. -/
def Keyboard.PressKey (kb : Keyboard) (keyID : String) : Effect :=
  let kb1 : Keyboard := { kb with keyStates := mapSet kb.keyStates keyID KeyState.KeyStatePressed }
  -- Find the key and update its state
  match kb1.layout with
  | none => { kb := kb1, result := Run.panic, calls := [] }
  | some layout =>
    match pressKeyIn (kb1.callbacks keyID) keyID layout.Keys with
    | (keys, Run.panic) =>
      { kb := { kb1 with layout := some { layout with Keys := keys } },
        result := Run.panic, calls := [] }
    | (keys, Run.ret calls) =>
      { kb := { kb1 with layout := some { layout with Keys := keys } },
        result := Run.ret none, calls := calls }

/-- The loop of `ReleaseKey` over `kb.layout.Keys`: the keys after the loop. -/
def releaseKeyIn (keyID : String) : List (Option Key) → List (Option Key) × Run Unit
  | [] => ([], Run.ret ())
  | none :: rest => (none :: rest, Run.panic)
  | some key :: rest =>
    if key.ID = keyID then
      (some { key with State := KeyState.KeyStateReleased } :: rest, Run.ret ())
    else
      let r := releaseKeyIn keyID rest
      (some key :: r.1, r.2)

/-- ReleaseKey sets a key to released state. -/
def Keyboard.ReleaseKey (kb : Keyboard) (keyID : String) : Effect :=
  let kb1 : Keyboard :=
    { kb with keyStates := mapSet kb.keyStates keyID KeyState.KeyStateReleased }
  -- Find the key and update its state
  match kb1.layout with
  | none => { kb := kb1, result := Run.panic, calls := [] }
  | some layout =>
    match releaseKeyIn keyID layout.Keys with
    | (keys, Run.panic) =>
      { kb := { kb1 with layout := some { layout with Keys := keys } },
        result := Run.panic, calls := [] }
    | (keys, Run.ret _) =>
      { kb := { kb1 with layout := some { layout with Keys := keys } },
        result := Run.ret none, calls := [] }

/-- GetKeyState returns the state of a specific key. -/
def Keyboard.GetKeyState (kb : Keyboard) (keyID : String) : KeyState :=
  match kb.keyStates keyID with
  | some state => state
  | none => KeyState.KeyStateReleased

/-- RegisterCallback registers a callback for key events. -/
def Keyboard.RegisterCallback (kb : Keyboard) (keyID : String) (callback : Callback) : Keyboard :=
  { kb with callbacks := mapSet kb.callbacks keyID callback }

/-- ListAvailableLayouts returns a list of available keyboard layouts. -/
def Keyboard.ListAvailableLayouts (env : Env) (_kb : Keyboard) : Except KbError (List String) :=
  let parser := NewLayoutParser "assets/layouts"
  match parser.ListLayouts env with
  | Except.error err => Except.error (KbError.listFailed err)
  | Except.ok layouts =>
    -- Remove .json extension from layout names
    let layoutNames : List String :=
      (layouts.filter (fun layout =>
        decide (layout.length > 5) && decide (sliceFrom layout (layout.length - 5) = ".json"))).map
        (fun layout => sliceTo layout (layout.length - 5))
    -- Add built-in layouts
    let builtInLayouts : List String := ["qwerty"]
    Except.ok (builtInLayouts.foldl
      (fun names builtIn =>
        if names.any (fun existing => decide (existing = builtIn)) then names
        else names ++ [builtIn])
      layoutNames)

/-- SwitchLayout switches to a different keyboard layout. -/
def Keyboard.SwitchLayout (env : Env) (kb : Keyboard) (layoutName : String) :
    Keyboard × Run (Option KbError) :=
  Keyboard.LoadLayout env kb layoutName

/-- GetCurrentLayoutName returns the name of the current layout. -/
def Keyboard.GetCurrentLayoutName (kb : Keyboard) : String :=
  match kb.layout with
  | some layout => layout.Name
  | none => ""

/-- RefreshLayout reloads the current layout from disk. -/
def Keyboard.RefreshLayout (env : Env) (kb : Keyboard) : Keyboard × Run (Option KbError) :=
  let currentName := kb.GetCurrentLayoutName
  if currentName = "" then (kb, Run.ret (some KbError.noCurrentLayout))
  else Keyboard.LoadLayout env kb currentName

/-! ## Events and dispatcher (`internal/wayland/protocol.go`) -/

/-- KeyboardEvent contains keyboard event data. -/
structure KeyboardEvent where
  Serial : Nat
  Key : Nat
  State : Nat
  Time : Nat
deriving DecidableEq, Repr

/-- PointerEvent contains pointer event data; `X` and `Y` are `int32`. -/
structure PointerEvent where
  Serial : Nat
  X : Int
  Y : Int
  Button : Nat
  State : Nat
  Time : Nat
deriving DecidableEq, Repr

/-- TouchEvent contains touch event data; `X` and `Y` are `int32`. -/
structure TouchEvent where
  Serial : Nat
  ID : Int
  X : Int
  Y : Int
  Time : Nat
deriving DecidableEq, Repr

/-- The dynamic content of `Event.Data` (an `interface{}`): one of the event payloads
of the package, or any other value, identified by a tag. -/
inductive EventData where
  | keyboard (e : KeyboardEvent)
  | pointer (e : PointerEvent)
  | touch (e : TouchEvent)
  | other (tag : Nat)
deriving DecidableEq, Repr

/-- Event represents a Wayland protocol event; `Typ` is the field `Type`, a `uint32`. -/
structure Event where
  Typ : Nat
  Data : EventData
deriving DecidableEq, Repr

/-- EventHandler defines the interface for handling Wayland events.  An implementation
is client code: it is identified by a tag and gives its error result as a function of
the event; it is taken to be non-nil. -/
structure EventHandler where
  tag : Nat
  HandleEvent : Event → Option String

/-- One invocation `handler.HandleEvent(event)`. -/
structure HandlerCall where
  handler : EventHandler
  event : Event

/-- A buffered channel of events between sends and receives: the pending events,
oldest first, and the capacity given to `make`. -/
structure EventChan where
  pending : List Event
  capacity : Nat
deriving DecidableEq, Repr

/-- EventDispatcher manages event handling for the Wayland client. -/
structure EventDispatcher where
  handlers : Nat → Option EventHandler
  eventCh : EventChan

/-- NewEventDispatcher creates a new event dispatcher. -/
def NewEventDispatcher : EventDispatcher :=
  { handlers := fun _ => none, eventCh := { pending := [], capacity := 100 } }

/-- RegisterHandler registers an event handler for a specific event type. -/
def EventDispatcher.RegisterHandler (ed : EventDispatcher) (eventType : Nat)
    (handler : EventHandler) : EventDispatcher :=
  { ed with handlers := fun t => if t = eventType then some handler else ed.handlers t }

/-- DispatchEvent dispatches an event to the appropriate handler.  Returns the error
result and the handler invocations made. -/
def EventDispatcher.DispatchEvent (ed : EventDispatcher) (event : Event) :
    Option String × List HandlerCall :=
  match ed.handlers event.Typ with
  | some handler => (handler.HandleEvent event, [{ handler := handler, event := event }])
  | none => (none, [])

/-- EventChannel returns the event channel for receiving events. -/
def EventDispatcher.EventChannel (ed : EventDispatcher) : EventChan := ed.eventCh

/-- SendEvent sends an event to the event channel: the `select` takes the send case
when the buffer has room and the `default` case otherwise. -/
def EventDispatcher.SendEvent (ed : EventDispatcher) (event : Event) : EventDispatcher :=
  if ed.eventCh.pending.length < ed.eventCh.capacity then
    { ed with eventCh := { ed.eventCh with pending := ed.eventCh.pending ++ [event] } }
  else
    -- Drop event if channel is full
    ed

/-- A non-blocking receive `case event := <-ed.EventChannel()` with a `default`, as in
`App.processEvents`: the oldest pending event, if any, and the dispatcher after it. -/
def EventDispatcher.receive (ed : EventDispatcher) : Option Event × EventDispatcher :=
  match ed.eventCh.pending with
  | [] => (none, ed)
  | event :: rest => (some event, { ed with eventCh := { ed.eventCh with pending := rest } })

/-- Sending a list of events in order. -/
def EventDispatcher.sendAll (ed : EventDispatcher) (events : List Event) : EventDispatcher :=
  events.foldl EventDispatcher.SendEvent ed

/-- Receiving `n` times in a row: the events delivered, in order of delivery. -/
def EventDispatcher.receiveN : EventDispatcher → Nat → List Event × EventDispatcher
  | ed, 0 => ([], ed)
  | ed, n + 1 =>
    match ed.receive with
    | (none, ed1) => ([], ed1)
    | (some event, ed1) =>
      let r := EventDispatcher.receiveN ed1 n
      (event :: r.1, r.2)

/-! ## Hit testing and input translation (`ui/widget.go`) -/

/-- KeyboardWidget represents the on-screen keyboard widget.  The keyboard is held by
pointer in the source, so its value here is the keyboard's current state; the renderer
is not part of the embedding. -/
structure KeyboardWidget where
  keyboard : Keyboard
  x : Int
  y : Int
  width : Int
  height : Int

/-- NewKeyboardWidget creates a new keyboard widget. -/
def NewKeyboardWidget (kb : Keyboard) : Run KeyboardWidget :=
  match kb.GetLayout with
  | none => Run.panic
  | some layout =>
    Run.ret { keyboard := kb, x := 0, y := 0, width := layout.Width, height := layout.Height }

/-- The loop of `findKeyAtPosition` over `layout.Keys`. -/
def findKeyIn (relX relY : Int) : List (Option Key) → Run (Option Key)
  | [] => Run.ret none
  | none :: _ => Run.panic
  | some key :: rest =>
    if relX ≥ key.X ∧ relX < addInt key.X key.Width ∧
       relY ≥ key.Y ∧ relY < addInt key.Y key.Height then
      Run.ret (some key)
    else findKeyIn relX relY rest

/-- findKeyAtPosition finds the key at the given screen coordinates. -/
def KeyboardWidget.findKeyAtPosition (kw : KeyboardWidget) (x y : Int) : Run (Option Key) :=
  match kw.keyboard.GetLayout with
  | none => Run.panic
  | some layout =>
    -- Adjust coordinates relative to widget position
    let relX := subInt x kw.x
    let relY := subInt y kw.y
    findKeyIn relX relY layout.Keys

/-- Result of a widget event handler: the widget after the call (with the keyboard it
points to), the error result, and the callback invocations made. -/
structure WidgetEffect where
  kw : KeyboardWidget
  result : Run (Option KbError)
  calls : List Call

/-- HandlePointerEvent handles pointer events for the keyboard widget. -/
def KeyboardWidget.HandlePointerEvent (kw : KeyboardWidget) (event : PointerEvent) :
    WidgetEffect :=
  if event.Button = 1 then -- Left mouse button
    -- Find which key was clicked
    match kw.findKeyAtPosition event.X event.Y with
    | Run.panic => { kw := kw, result := Run.panic, calls := [] }
    | Run.ret none => { kw := kw, result := Run.ret none, calls := [] }
    | Run.ret (some key) =>
      if event.State = 1 then -- Button pressed
        let r := kw.keyboard.PressKey key.ID
        { kw := { kw with keyboard := r.kb }, result := r.result, calls := r.calls }
      else -- Button released
        let r := kw.keyboard.ReleaseKey key.ID
        { kw := { kw with keyboard := r.kb }, result := r.result, calls := r.calls }
  else { kw := kw, result := Run.ret none, calls := [] }

/-- HandleTouchEvent handles touch events for the keyboard widget. -/
def KeyboardWidget.HandleTouchEvent (kw : KeyboardWidget) (event : TouchEvent) : WidgetEffect :=
  -- Find which key was touched
  match kw.findKeyAtPosition event.X event.Y with
  | Run.panic => { kw := kw, result := Run.panic, calls := [] }
  | Run.ret none => { kw := kw, result := Run.ret none, calls := [] }
  | Run.ret (some key) =>
    let r := kw.keyboard.PressKey key.ID
    { kw := { kw with keyboard := r.kb }, result := r.result, calls := r.calls }

/-- SetPosition sets the position of the keyboard widget. -/
def KeyboardWidget.SetPosition (kw : KeyboardWidget) (x y : Int) : KeyboardWidget :=
  { kw with x := x, y := y }

/-! ## Geometric checks of `schema_validation_test.go` -/

/-- keysOverlap checks if two keys overlap. -/
def keysOverlap (key1 key2 : Option Key) : Run Bool :=
  match key1, key2 with
  | some k1, some k2 =>
    Run.ret (!(decide (addInt k1.X k1.Width ≤ k2.X) ||
      decide (addInt k2.X k2.Width ≤ k1.X) ||
      decide (addInt k1.Y k1.Height ≤ k2.Y) ||
      decide (addInt k2.Y k2.Height ≤ k1.Y)))
  | _, _ => Run.panic

/-- The checks made on each key by the per-key loop of `validateLayoutFile`, one per
`t.Errorf` of the loop. -/
inductive FileCheck where
  | idEmpty
  | labelEmpty
  | widthNotPositive
  | heightNotPositive
  | xNegative
  | yNegative
  | beyondWidth
  | beyondHeight
deriving DecidableEq, Repr

/-- The body of the per-key loop of `validateLayoutFile` for the key at index `i`: the
failures it reports, in order. -/
def keyFileReports (layout : Layout) (i : Nat) (key : Key) : List (Nat × FileCheck) :=
  (if key.ID = "" then [(i, FileCheck.idEmpty)] else []) ++
  (if key.Label = "" then [(i, FileCheck.labelEmpty)] else []) ++
  (if key.Width ≤ 0 then [(i, FileCheck.widthNotPositive)] else []) ++
  (if key.Height ≤ 0 then [(i, FileCheck.heightNotPositive)] else []) ++
  (if key.X < 0 then [(i, FileCheck.xNegative)] else []) ++
  (if key.Y < 0 then [(i, FileCheck.yNegative)] else []) ++
  -- Validate key doesn't exceed layout bounds
  (if addInt key.X key.Width > layout.Width then [(i, FileCheck.beyondWidth)] else []) ++
  (if addInt key.Y key.Height > layout.Height then [(i, FileCheck.beyondHeight)] else [])

/-- The per-key loop `for i, key := range layout.Keys` of `validateLayoutFile`, entered
at index `i`: all the failures reported. -/
def fileKeyReportsFrom (layout : Layout) : List (Option Key) → Nat → Run (List (Nat × FileCheck))
  | [], _ => Run.ret []
  | none :: _, _ => Run.panic
  | some key :: rest, i =>
    match fileKeyReportsFrom layout rest (i + 1) with
    | Run.panic => Run.panic
    | Run.ret r => Run.ret (keyFileReports layout i key ++ r)

/-- The inner loop `for j, key2 := range layout.Keys` of the overlap check of
`validateLayoutFile`, entered at index `j`: the pairs reported for the outer index `i`. -/
def overlapInner (i : Nat) (key1 : Option Key) : List (Option Key) → Nat → Run (List (Nat × Nat))
  | [], _ => Run.ret []
  | key2 :: rest, j =>
    if i ≥ j then overlapInner i key1 rest (j + 1)
    else
      match keysOverlap key1 key2 with
      | Run.panic => Run.panic
      | Run.ret b =>
        match overlapInner i key1 rest (j + 1) with
        | Run.panic => Run.panic
        | Run.ret r => Run.ret (if b then (i, j) :: r else r)

/-- The outer loop `for i, key1 := range layout.Keys` of the overlap check, entered at
index `i`; `all` is the whole key list. -/
def overlapOuter (all : List (Option Key)) : List (Option Key) → Nat → Run (List (Nat × Nat))
  | [], _ => Run.ret []
  | key1 :: rest, i =>
    match overlapInner i key1 all 0 with
    | Run.panic => Run.panic
    | Run.ret r1 =>
      match overlapOuter all rest (i + 1) with
      | Run.panic => Run.panic
      | Run.ret r2 => Run.ret (r1 ++ r2)

/-- The overlap check of `validateLayoutFile` ("Check for overlapping keys"): the index
pairs reported by `t.Errorf`, in the order they are reported. -/
def overlapReports (keys : List (Option Key)) : Run (List (Nat × Nat)) :=
  overlapOuter keys keys 0

/-! ## Predicates used to state the properties -/

/-- The per-key field conditions: the key is present, its id and label are non-empty,
its dimensions are positive and its position is non-negative. -/
def KeyFieldsOk : Option Key → Prop
  | none => False
  | some k => k.ID ≠ "" ∧ k.Label ≠ "" ∧ 0 < k.Width ∧ 0 < k.Height ∧ 0 ≤ k.X ∧ 0 ≤ k.Y

instance KeyFieldsOk.decidable : (key : Option Key) → Decidable (KeyFieldsOk key)
  | none => isFalse (fun h => h)
  | some k =>
    inferInstanceAs (Decidable
      (k.ID ≠ "" ∧ k.Label ≠ "" ∧ 0 < k.Width ∧ 0 < k.Height ∧ 0 ≤ k.X ∧ 0 ≤ k.Y))

/-- The field conditions on a layout: non-empty name, positive dimensions, at least one
key, and every key passing the per-key field conditions. -/
def FieldChecksPass (layout : Layout) : Prop :=
  layout.Name ≠ "" ∧ 0 < layout.Width ∧ 0 < layout.Height ∧ layout.Keys ≠ [] ∧
    ∀ key ∈ layout.Keys, KeyFieldsOk key

instance FieldChecksPass.decidable (layout : Layout) : Decidable (FieldChecksPass layout) :=
  inferInstanceAs (Decidable
    (layout.Name ≠ "" ∧ 0 < layout.Width ∧ 0 < layout.Height ∧ layout.Keys ≠ [] ∧
      ∀ key ∈ layout.Keys, KeyFieldsOk key))

/-- The bounding box of the key lies inside the layout's bounds. -/
def InBounds (layout : Layout) : Option Key → Prop
  | none => False
  | some k => addInt k.X k.Width ≤ layout.Width ∧ addInt k.Y k.Height ≤ layout.Height

/-- The half-open bounding box of key `k` contains the point `(px, py)`. -/
def InBox (px py : Int) (k : Key) : Prop :=
  k.X ≤ px ∧ px < addInt k.X k.Width ∧ k.Y ≤ py ∧ py < addInt k.Y k.Height

instance InBox.decidable (px py : Int) (k : Key) : Decidable (InBox px py k) :=
  inferInstanceAs (Decidable
    (k.X ≤ px ∧ px < addInt k.X k.Width ∧ k.Y ≤ py ∧ py < addInt k.Y k.Height))

/-- The keys of the list are pairwise non-overlapping: `keysOverlap` is false for every
pair of positions `i < j`. -/
def NoOverlap (keys : List (Option Key)) : Prop :=
  ∀ i j : Nat, i < j → ∀ k1 k2 : Option Key,
    keys[i]? = some k1 → keys[j]? = some k2 → keysOverlap k1 k2 = Run.ret false

/-- A conforming layout: the field conditions hold, every key lies inside the layout's
bounds, and no two keys overlap. -/
def Conforming (layout : Layout) : Prop :=
  FieldChecksPass layout ∧ (∀ key ∈ layout.Keys, InBounds layout key) ∧ NoOverlap layout.Keys

/-- The order in which the overlap check visits index pairs: first index ascending, then
second index ascending. -/
def pairBefore (a b : Nat × Nat) : Prop := a.1 < b.1 ∨ (a.1 = b.1 ∧ a.2 < b.2)

/-- The first rule of `validateKey` that key `k` breaks, in the order empty id, empty
label, non-positive dimensions, negative position, is the rule reported as `e`. -/
def FirstViolation (k : Key) : KeyError → Prop
  | KeyError.idEmpty => k.ID = ""
  | KeyError.labelEmpty => k.ID ≠ "" ∧ k.Label = ""
  | KeyError.dimensionsNotPositive => k.ID ≠ "" ∧ k.Label ≠ "" ∧ (k.Width ≤ 0 ∨ k.Height ≤ 0)
  | KeyError.positionNegative =>
    k.ID ≠ "" ∧ k.Label ≠ "" ∧ 0 < k.Width ∧ 0 < k.Height ∧ (k.X < 0 ∨ k.Y < 0)

/-- Every key pointer of the list is non-nil. -/
def KeysPresent (keys : List (Option Key)) : Prop := ∀ key ∈ keys, ∃ k, key = some k

/-- Key `k` at position `i` is the first key of the list whose ID is `id`. -/
def FirstWithID (keys : List (Option Key)) (id : String) (i : Nat) (k : Key) : Prop :=
  keys[i]? = some (some k) ∧ k.ID = id ∧
    ∀ j : Nat, j < i → ∀ kj, keys[j]? = some (some kj) → kj.ID ≠ id

/-- A call of `PressKey` or of `ReleaseKey`. -/
inductive KeyOp where
  | press (keyID : String)
  | release (keyID : String)
deriving DecidableEq, Repr

/-- The key id that the call names. -/
def KeyOp.keyID : KeyOp → String
  | KeyOp.press keyID => keyID
  | KeyOp.release keyID => keyID

/-- Making one call on the keyboard. -/
def Keyboard.applyOp (kb : Keyboard) : KeyOp → Effect
  | KeyOp.press keyID => kb.PressKey keyID
  | KeyOp.release keyID => kb.ReleaseKey keyID

/-- Making a sequence of calls, each on the keyboard left by the one before: the final
keyboard and the result of every call, in order. -/
def Keyboard.runOps (kb : Keyboard) : List KeyOp → Keyboard × List (Run (Option KbError))
  | [] => (kb, [])
  | op :: rest =>
    let e := kb.applyOp op
    let r := Keyboard.runOps e.kb rest
    (r.1, e.result :: r.2)

/-- The last call of the sequence that names `id`, if there is one. -/
def lastNaming (id : String) : List KeyOp → Option KeyOp
  | [] => none
  | op :: rest =>
    match lastNaming id rest with
    | some later => some later
    | none => if op.keyID = id then some op else none

instance InBounds.decidable (layout : Layout) : (key : Option Key) → Decidable (InBounds layout key)
  | none => isFalse (fun h => h)
  | some k =>
    inferInstanceAs (Decidable
      (addInt k.X k.Width ≤ layout.Width ∧ addInt k.Y k.Height ≤ layout.Height))

/-- The key is present and its box lies in the rectangle `[0,w] x [0,h]`, in exact
integer arithmetic: `x >= 0`, `y >= 0`, `x + width <= w`, `y + height <= h`. -/
def KeyInside (w h : Int) : Option Key → Prop
  | none => False
  | some k => 0 ≤ k.X ∧ 0 ≤ k.Y ∧ k.X + k.Width ≤ w ∧ k.Y + k.Height ≤ h

instance KeyInside.decidable (w h : Int) : (key : Option Key) → Decidable (KeyInside w h key)
  | none => isFalse (fun h => h)
  | some k =>
    inferInstanceAs (Decidable (0 ≤ k.X ∧ 0 ≤ k.Y ∧ k.X + k.Width ≤ w ∧ k.Y + k.Height ≤ h))

/-- The theme file of `name` in directory `dir` cannot be loaded: it does not stat, or
it does not read, or its content does not decode. -/
def ThemeFileFails (env : Env) (name dir : String) : Prop :=
  env.stat (env.join dir (name ++ ".json")) ≠ StatResult.ok ∨
  env.readFile (env.join dir (name ++ ".json")) = none ∨
  ∃ data, env.readFile (env.join dir (name ++ ".json")) = some data ∧
    env.unmarshalTheme data = none

/-- The theme file of `name` in directory `dir` loads as `theme`. -/
def ThemeFileLoads (env : Env) (name dir : String) (theme : Theme) : Prop :=
  env.stat (env.join dir (name ++ ".json")) = StatResult.ok ∧
  ∃ data, env.readFile (env.join dir (name ++ ".json")) = some data ∧
    env.unmarshalTheme data = some theme

/-- The layout name given by a file name: the name without its ".json" suffix, for a
file name longer than five characters that ends in ".json"; no name otherwise. -/
def jsonStem (name : String) : Option String :=
  if 5 < name.length ∧ sliceFrom name (name.length - 5) = ".json" then
    some (sliceTo name (name.length - 5))
  else none

/-- The layout names given by the files of a directory listing, in directory order. -/
def stemsOf (files : List DirEntry) : List String :=
  ((files.filter (fun file => !file.IsDir)).map (fun file => file.Name)).filterMap jsonStem

/-! ## Wire format of a layout -/

/-- Modelled from the spec: the standard library's `encoding/json` is not part of the
repository.  This is the tree that a key is serialized to and parsed from, with the
field names of the spec (section 4.1) and of the struct tags: `id`, `label`, `code`,
`x`, `y`, `width`, `height`, and `modifier`, which is optional.  There is no field for
the runtime state. -/
structure KeyJSON where
  id : String
  label : String
  code : Int
  x : Int
  y : Int
  width : Int
  height : Int
  modifier : Option Bool
deriving DecidableEq, Repr

/-- Modelled from the spec: the standard library's `encoding/json` is not part of the
repository.  This is the tree that a layout is serialized to and parsed from: `name`,
`keys` (an array whose entries are key objects or null), `width`, `height`, and
`description`, which is optional. -/
structure LayoutJSON where
  name : String
  keys : List (Option KeyJSON)
  width : Int
  height : Int
  description : Option String
deriving DecidableEq, Repr

/-- Modelled from the spec: the serialization of a key, missing from the repository
because it is done by `encoding/json` from the struct tags.  `State` has the tag "-"
and is not written; `modifier` has `omitempty` and is left out when false. -/
def Key.toJSON (k : Key) : KeyJSON :=
  { id := k.ID, label := k.Label, code := k.Code, x := k.X, y := k.Y, width := k.Width,
    height := k.Height, modifier := if k.Modifier then some true else none }

/-- Modelled from the spec: the serialization of a layout, missing from the repository
because it is done by `encoding/json` from the struct tags.  The keys are written in
list order, a nil key as null; `description` has `omitempty` and is left out when
empty. -/
def Layout.toJSON (layout : Layout) : LayoutJSON :=
  { name := layout.Name, keys := layout.Keys.map (fun key => key.map Key.toJSON),
    width := layout.Width, height := layout.Height,
    description := if layout.Description = "" then none else some layout.Description }

/-- Modelled from the spec: the parsing of a key object into a fresh `Key`, missing from
the repository because it is done by `encoding/json`.  An absent `modifier` leaves the
default false; `State` is never read and keeps its zero value, released. -/
def KeyJSON.toKey (j : KeyJSON) : Key :=
  { ID := j.id, Label := j.label, Code := j.code, X := j.x, Y := j.y, Width := j.width,
    Height := j.height, State := KeyState.KeyStateReleased, Modifier := j.modifier.getD false }

/-- Modelled from the spec: the parsing of a layout object into a fresh `Layout`,
missing from the repository because it is done by `encoding/json`.  An absent
`description` leaves the empty string; a null entry of `keys` is a nil key. -/
def LayoutJSON.toLayout (j : LayoutJSON) : Layout :=
  { Name := j.name, Keys := j.keys.map (fun key => key.map KeyJSON.toKey),
    Width := j.width, Height := j.height, Description := j.description.getD "" }

/-- Modelled from the spec: `encoding/json` round-trips the wire tree of `layout`
through text: `json.MarshalIndent` renders the tree of the layout as some text, and
`json.Unmarshal` of that text yields the layout parsed from the same tree. -/
def JSONTextRoundTrips (env : Env) (layout : Layout) : Prop :=
  ∃ data, env.marshalLayout layout = some data ∧
    env.unmarshalLayout data = some (Layout.toJSON layout).toLayout

/-- The layout with the `State` of every key set to released. -/
def Layout.withStatesReleased (layout : Layout) : Layout :=
  { layout with
    Keys := layout.Keys.map
      (fun key => key.map (fun k => { k with State := KeyState.KeyStateReleased })) }

/-- A call of one of the mutating methods of `Keyboard`. -/
inductive KbOp where
  | loadLayout (name : String)
  | switchLayout (layoutName : String)
  | refreshLayout
  | loadTheme (name : String)
  | pressKey (keyID : String)
  | releaseKey (keyID : String)
  | registerCallback (keyID : String) (callback : Callback)
deriving DecidableEq, Repr

/-- Making one call on the keyboard, in the environment found at the time of the call:
the keyboard after the call, the result, and the callback invocations. -/
def Keyboard.step (env : Env) (kb : Keyboard) : KbOp → Effect
  | KbOp.loadLayout name =>
    { kb := (Keyboard.LoadLayout env kb name).1, result := (Keyboard.LoadLayout env kb name).2,
      calls := [] }
  | KbOp.switchLayout layoutName =>
    { kb := (Keyboard.SwitchLayout env kb layoutName).1,
      result := (Keyboard.SwitchLayout env kb layoutName).2, calls := [] }
  | KbOp.refreshLayout =>
    { kb := (Keyboard.RefreshLayout env kb).1, result := (Keyboard.RefreshLayout env kb).2,
      calls := [] }
  | KbOp.loadTheme name =>
    { kb := (Keyboard.LoadTheme env kb name).1, result := (Keyboard.LoadTheme env kb name).2,
      calls := [] }
  | KbOp.pressKey keyID => kb.PressKey keyID
  | KbOp.releaseKey keyID => kb.ReleaseKey keyID
  | KbOp.registerCallback keyID callback =>
    { kb := kb.RegisterCallback keyID callback, result := Run.ret none, calls := [] }

/-- The keyboards reachable from a successful `New` by any sequence of calls, whatever
each call returns and whatever the files hold at the time of each call. -/
inductive Reachable : Keyboard → Prop where
  | new (env : Env) (kb : Keyboard) : New env = Run.ret (Except.ok kb) → Reachable kb
  | step (env : Env) (kb : Keyboard) (op : KbOp) : Reachable kb → Reachable (kb.step env op).kb

/-- The active layout and the active theme are present, and the active layout is
accepted by `ValidateLayout` and has a non-empty name. -/
def ActiveValid (kb : Keyboard) : Prop :=
  (∃ layout, kb.layout = some layout ∧
    (NewLayoutParser "assets/layouts").ValidateLayout layout = Run.ret none ∧
    layout.Name ≠ "") ∧
  ∃ theme, kb.theme = some theme

/-- Assumption on `json.Unmarshal` into a `Layout`: the field `State` has the tag "-"
and is never written, so every key of a decoded layout has the zero State, released. -/
def DecoderLeavesState (env : Env) : Prop :=
  ∀ data layout, env.unmarshalLayout data = some layout →
    ∀ k, some k ∈ layout.Keys → k.State = KeyState.KeyStateReleased

/-- Keyboard `kb2` differs from `kb` in its layout only: key states, callbacks and
theme are the same, and every key of the layout of `kb2` has State released. -/
def OnlyLayoutReplaced (kb kb2 : Keyboard) : Prop :=
  (∀ id, kb2.GetKeyState id = kb.GetKeyState id ∧ kb2.callbacks id = kb.callbacks id) ∧
  kb2.theme = kb.theme ∧
  ∃ layout, kb2.layout = some layout ∧
    ∀ k, some k ∈ layout.Keys → k.State = KeyState.KeyStateReleased

/-! ## Concrete inputs -/

/-- The parser used by the keyboard. -/
def theParser : LayoutParser := NewLayoutParser "assets/layouts"

/-- A layout whose two keys both span `x:[0,50), y:[0,50)`. -/
def overlapLayout : Layout :=
  { Name := "overlap", Width := 100, Height := 100,
    Keys := [some { ID := "a", Label := "A", Code := 30, X := 0, Y := 0, Width := 50, Height := 50 },
             some { ID := "b", Label := "B", Code := 48, X := 0, Y := 0, Width := 50, Height := 50 }] }

/-- A layout of width 100 whose only key spans `x:[90,110)`. -/
def outOfBoundsLayout : Layout :=
  { Name := "wide", Width := 100, Height := 100,
    Keys := [some { ID := "a", Label := "A", Code := 30, X := 90, Y := 0, Width := 20, Height := 50 }] }

/-- A conforming layout with two keys side by side. -/
def twoKeyLayout : Layout :=
  { Name := "two", Width := 100, Height := 50,
    Keys := [some { ID := "a", Label := "A", Code := 30, X := 0, Y := 0, Width := 50, Height := 50 },
             some { ID := "b", Label := "B", Code := 48, X := 50, Y := 0, Width := 50, Height := 50 }] }

/-- The built-in default layout, as `LoadLayout` builds it. -/
def builtinQwerty : Layout :=
  { Name := "qwerty", Width := 900, Height := 400, Keys := createQWERTYLayout }

/-- An environment with no files at all. -/
def emptyEnv : Env :=
  { join := fun dir file => dir ++ "/" ++ file,
    stat := fun _ => StatResult.notExist,
    readFile := fun _ => none,
    readDir := fun _ => none,
    unmarshalLayout := fun _ => none,
    unmarshalTheme := fun _ => none }

/-- A keyboard with no layout, no theme and empty maps, as `New` allocates it. -/
def blankKeyboard : Keyboard :=
  { layout := none, theme := none, keyStates := fun _ => none, callbacks := fun _ => none }

/-- The keyboard that `New` returns when no layout or theme file exists. -/
def defaultKeyboard : Keyboard :=
  { layout := some builtinQwerty, theme := some (defaultTheme "glass"),
    keyStates := fun _ => none, callbacks := fun _ => none }

/-- A layout whose second key has an empty label and a negative position. -/
def badSecondKeyLayout : Layout :=
  { Name := "bad", Width := 100, Height := 50,
    Keys := [some { ID := "a", Label := "A", Code := 30, X := 0, Y := 0, Width := 50, Height := 50 },
             some { ID := "b", Label := "", Code := 48, X := -5, Y := 0, Width := 50, Height := 50 }] }

/-- The widget that `NewKeyboardWidget` creates on the default keyboard: origin (0,0)
and the size of the built-in layout. -/
def defaultWidget : KeyboardWidget :=
  { keyboard := defaultKeyboard, x := 0, y := 0, width := 900, height := 400 }

/-- A widget at origin (0,0) on a keyboard whose active layout is the two-key layout. -/
def twoKeyWidget : KeyboardWidget :=
  { keyboard := { layout := some twoKeyLayout, theme := some (defaultTheme "glass"),
                  keyStates := fun _ => none, callbacks := fun _ => none },
    x := 0, y := 0, width := 100, height := 50 }

/-- An environment in which every path exists and reads, but no content decodes: the
layout file "assets/layouts/qwerty.json" is present and malformed. -/
def malformedEnv : Env :=
  { join := fun dir file => dir ++ "/" ++ file,
    stat := fun _ => StatResult.ok,
    readFile := fun _ => some "not json",
    readDir := fun _ => none,
    unmarshalLayout := fun _ => none,
    unmarshalTheme := fun _ => none }

/-- An environment in which every path exists but cannot be read. -/
def unreadableEnv : Env :=
  { join := fun dir file => dir ++ "/" ++ file,
    stat := fun _ => StatResult.ok,
    readFile := fun _ => none,
    readDir := fun _ => none,
    unmarshalLayout := fun _ => none,
    unmarshalTheme := fun _ => none }

/-- An environment in which every layout file decodes to the two-key layout. -/
def twoKeyEnv : Env :=
  { join := fun dir file => dir ++ "/" ++ file,
    stat := fun _ => StatResult.ok,
    readFile := fun _ => some "two",
    readDir := fun _ => none,
    unmarshalLayout := fun _ => some twoKeyLayout,
    unmarshalTheme := fun _ => none }

/-- A keyboard whose active layout is the two-key layout. -/
def twoKeyKeyboard : Keyboard :=
  { layout := some twoKeyLayout, theme := some (defaultTheme "glass"),
    keyStates := fun _ => none, callbacks := fun _ => none }

/-- A layout, accepted by `ValidateLayout`, in which two keys share the id "a". -/
def duplicateIdLayout : Layout :=
  { Name := "dup", Width := 100, Height := 50,
    Keys := [some { ID := "a", Label := "A", Code := 30, X := 0, Y := 0, Width := 50, Height := 50 },
             some { ID := "a", Label := "B", Code := 48, X := 50, Y := 0, Width := 50, Height := 50 }] }

/-- A keyboard whose active layout is the layout with the duplicated id. -/
def duplicateIdKeyboard : Keyboard :=
  { layout := some duplicateIdLayout, theme := some (defaultTheme "glass"),
    keyStates := fun _ => none, callbacks := fun _ => none }

/-- The two-key keyboard with callback 7 registered for "b". -/
def callbackKeyboard : Keyboard :=
  { layout := some twoKeyLayout, theme := some (defaultTheme "glass"),
    keyStates := fun _ => none,
    callbacks := fun q => if q = "b" then some { tag := 7 } else none }

/-- A theme as decoded from a theme file with `font_size: -1`. -/
def negativeFontTheme : Theme :=
  { Name := "neg",
    BackgroundColor := (0, 0, 0, 0x3F800000),
    KeyColor := (0x3F800000, 0x3F800000, 0x3F800000, 0x3F800000),
    KeyPressedColor := (0x3F000000, 0x3F000000, 0x3F000000, 0x3F800000),
    TextColor := (0, 0, 0, 0x3F800000),
    FontSize := -1,
    BorderRadius := 4 }

/-- An environment in which every theme file exists, reads and decodes to the theme
with font size -1. -/
def negativeFontEnv : Env :=
  { join := fun dir file => dir ++ "/" ++ file,
    stat := fun _ => StatResult.ok,
    readFile := fun _ => some "font_size: -1",
    readDir := fun _ => none,
    unmarshalLayout := fun _ => none,
    unmarshalTheme := fun _ => some negativeFontTheme }

/-- The event number `n`: a pointer event type with an opaque payload `n`. -/
def numberedEvent (n : Nat) : Event := { Typ := 6, Data := EventData.other n }

/-- A handler that fails on every event. -/
def failingHandler : EventHandler := { tag := 1, HandleEvent := fun _ => some "failed" }

/-- An environment whose layout directory holds "dvorak.json", a directory
"old.json", "notes.txt", ".json" and "azerty.json". -/
def listingEnv : Env :=
  { join := fun dir file => dir ++ "/" ++ file,
    stat := fun _ => StatResult.ok,
    readFile := fun _ => none,
    readDir := fun _ => some
      [{ Name := "dvorak.json", IsDir := false }, { Name := "old.json", IsDir := true },
       { Name := "notes.txt", IsDir := false }, { Name := ".json", IsDir := false },
       { Name := "azerty.json", IsDir := false }],
    unmarshalLayout := fun _ => none,
    unmarshalTheme := fun _ => none }

/-- The two-key layout with its second key pressed and marked as a modifier, and with
a description. -/
def pressedLayout : Layout :=
  { Name := "two", Width := 100, Height := 50, Description := "two keys",
    Keys := [some { ID := "a", Label := "A", Code := 30, X := 0, Y := 0, Width := 50, Height := 50 },
             some { ID := "b", Label := "B", Code := -48, X := 50, Y := 0, Width := 50, Height := 50,
                    State := KeyState.KeyStatePressed, Modifier := true }] }

/-- An environment without files in which the layout codec writes the text "two" for
every layout and reads every text back as the parsed tree of `pressedLayout`. -/
def codecEnv : Env :=
  { join := fun dir file => dir ++ "/" ++ file,
    stat := fun _ => StatResult.notExist,
    readFile := fun _ => none,
    readDir := fun _ => none,
    unmarshalLayout := fun _ => some (Layout.toJSON pressedLayout).toLayout,
    unmarshalTheme := fun _ => none,
    marshalLayout := fun _ => some "two" }

/-- The layout that the document with `"keys": [null]`, name "nil", width 100 and
height 50 is parsed to: its key list holds one nil pointer. -/
def nilKeyLayout : Layout :=
  { Name := "nil", Width := 100, Height := 50, Keys := [none] }

/-- An environment in which every layout file decodes to the layout with a nil key. -/
def nilKeyEnv : Env :=
  { join := fun dir file => dir ++ "/" ++ file,
    stat := fun _ => StatResult.ok,
    readFile := fun _ => some "keys: [null]",
    readDir := fun _ => none,
    unmarshalLayout := fun _ => some nilKeyLayout,
    unmarshalTheme := fun _ => none }

/-- An environment with no theme file in "assets/themes", the file "themes/neg.json"
with content "A", which decodes to the theme with font size -1, and the file
"../assets/themes/neg.json" with content "B", which decodes to the default theme. -/
def secondDirEnv : Env :=
  { join := fun dir file => dir ++ "/" ++ file,
    stat := fun q =>
      if q = "themes/neg.json" ∨ q = "../assets/themes/neg.json" then StatResult.ok
      else StatResult.notExist,
    readFile := fun q =>
      if q = "themes/neg.json" then some "A"
      else if q = "../assets/themes/neg.json" then some "B" else none,
    readDir := fun _ => none,
    unmarshalLayout := fun _ => none,
    unmarshalTheme := fun data =>
      if data = "A" then some negativeFontTheme
      else if data = "B" then some (defaultTheme "neg") else none }

/-! # Properties -/

/-! ## Validation -/

theorem validateKey_ret_none_iff (p : LayoutParser) (key : Option Key) (i : Nat) :
    p.validateKey key i = Run.ret none ↔ KeyFieldsOk key := by
  cases key with
  | none => simp [LayoutParser.validateKey, KeyFieldsOk]
  | some k =>
    simp only [LayoutParser.validateKey, KeyFieldsOk]
    by_cases h1 : k.ID = "" <;> by_cases h2 : k.Label = "" <;>
      by_cases h3 : k.Width ≤ 0 ∨ k.Height ≤ 0 <;> by_cases h4 : k.X < 0 ∨ k.Y < 0 <;>
      simp [h1, h2, h3, h4] <;> omega

theorem validateKeysFrom_ret_none_iff (p : LayoutParser) (keys : List (Option Key)) (i : Nat) :
    p.validateKeysFrom keys i = Run.ret none ↔ ∀ key ∈ keys, KeyFieldsOk key := by
  induction keys generalizing i with
  | nil => simp [LayoutParser.validateKeysFrom]
  | cons key rest ih =>
    simp only [LayoutParser.validateKeysFrom, List.mem_cons, forall_eq_or_imp]
    rw [← validateKey_ret_none_iff p key i, ← ih (i + 1)]
    cases h : p.validateKey key i with
    | panic => simp
    | ret r => cases r <;> simp

theorem validateLayout_ret_none_iff (p : LayoutParser) (layout : Layout) :
    p.ValidateLayout layout = Run.ret none ↔ FieldChecksPass layout := by
  unfold LayoutParser.ValidateLayout FieldChecksPass
  by_cases h1 : layout.Name = ""
  · simp [h1]
  by_cases h2 : layout.Width ≤ 0 ∨ layout.Height ≤ 0
  · simp only [h1, h2, if_true, if_false]
    constructor
    · intro h; cases h
    · rintro ⟨_, hw, hh, _⟩; omega
  by_cases h3 : layout.Keys.length = 0
  · simp only [h1, h2, h3, if_true, if_false]
    constructor
    · intro h; cases h
    · rintro ⟨_, _, _, hk, _⟩
      exact absurd (List.length_eq_zero.mp h3) hk
  · simp only [h1, h2, h3, if_false, validateKeysFrom_ret_none_iff]
    have hk : layout.Keys ≠ [] := fun h => h3 (by simp [h])
    have hw : 0 < layout.Width ∧ 0 < layout.Height := by omega
    simp [h1, hk, hw.1, hw.2]


theorem keyFieldsOk_ne_none {key : Option Key} (h : KeyFieldsOk key) : ∃ k, key = some k := by
  cases key with
  | none => exact absurd h (by simp [KeyFieldsOk])
  | some k => exact ⟨k, rfl⟩

theorem overlapInner_spec (i : Nat) (k1 : Key) (rest : List (Option Key))
    (hrest : ∀ k ∈ rest, ∃ v, k = some v) (j0 : Nat) :
    ∃ L, overlapInner i (some k1) rest j0 = Run.ret L ∧
      (∀ q, q ∈ L ↔ ∃ d k2, q = (i, j0 + d) ∧ i < j0 + d ∧ rest[d]? = some (some k2) ∧
        keysOverlap (some k1) (some k2) = Run.ret true) ∧
      L.Pairwise (fun a b => a.2 < b.2) ∧ ∀ q ∈ L, j0 ≤ q.2 := by
  induction rest generalizing j0 with
  | nil => exact ⟨[], by simp [overlapInner]⟩
  | cons key2 rest ih =>
    obtain ⟨k2, rfl⟩ := hrest key2 (List.mem_cons_self _ _)
    obtain ⟨L, hL, hmem, hpw, hlow⟩ := ih (fun k hk => hrest k (List.mem_cons_of_mem _ hk)) (j0 + 1)
    have hshift : ∀ q, q ∈ L ↔ ∃ d k3, q = (i, j0 + (d + 1)) ∧ i < j0 + (d + 1) ∧
        rest[d]? = some (some k3) ∧ keysOverlap (some k1) (some k3) = Run.ret true := by
      intro q
      rw [hmem q]
      constructor
      · rintro ⟨d, k3, h1, h2, h3, h4⟩
        exact ⟨d, k3, by rw [h1]; congr 1; omega, by omega, h3, h4⟩
      · rintro ⟨d, k3, h1, h2, h3, h4⟩
        exact ⟨d, k3, by rw [h1]; congr 1; omega, by omega, h3, h4⟩
    by_cases hi : i ≥ j0
    · refine ⟨L, by simp [overlapInner, hi, hL], ?_, hpw, fun q hq => by have := hlow q hq; omega⟩
      intro q
      rw [hshift q]
      constructor
      · rintro ⟨d, k3, h1, h2, h3, h4⟩
        exact ⟨d + 1, k3, h1, h2, by simpa using h3, h4⟩
      · rintro ⟨d, k3, h1, h2, h3, h4⟩
        cases d with
        | zero => omega
        | succ d => exact ⟨d, k3, h1, h2, by simpa using h3, h4⟩
    · obtain ⟨b, hb⟩ : ∃ b, keysOverlap (some k1) (some k2) = Run.ret b := ⟨_, rfl⟩
      cases b with
      | false =>
        refine ⟨L, by simp [overlapInner, hi, hL, hb], ?_, hpw,
          fun q hq => by have := hlow q hq; omega⟩
        intro q
        rw [hshift q]
        constructor
        · rintro ⟨d, k3, h1, h2, h3, h4⟩
          exact ⟨d + 1, k3, h1, h2, by simpa using h3, h4⟩
        · rintro ⟨d, k3, h1, h2, h3, h4⟩
          cases d with
          | zero =>
            simp only [List.getElem?_cons_zero, Option.some.injEq] at h3
            subst h3
            rw [hb] at h4
            cases h4
          | succ d => exact ⟨d, k3, h1, h2, by simpa using h3, h4⟩
      | true =>
        refine ⟨(i, j0) :: L, by simp [overlapInner, hi, hL, hb], ?_, ?_, ?_⟩
        · intro q
          rw [List.mem_cons, hshift q]
          constructor
          · rintro (h | ⟨d, k3, h1, h2, h3, h4⟩)
            · exact ⟨0, k2, by simpa using h, by omega, by simp, hb⟩
            · exact ⟨d + 1, k3, h1, h2, by simpa using h3, h4⟩
          · rintro ⟨d, k3, h1, h2, h3, h4⟩
            cases d with
            | zero => left; simpa using h1
            | succ d => right; exact ⟨d, k3, h1, h2, by simpa using h3, h4⟩
        · rw [List.pairwise_cons]
          exact ⟨fun q hq => by have := hlow q hq; simp only; omega, hpw⟩
        · intro q hq
          rw [List.mem_cons] at hq
          rcases hq with h | h
          · rw [h]
          · have := hlow q h; omega

theorem overlapOuter_spec (all : List (Option Key)) (hall : ∀ k ∈ all, ∃ v, k = some v)
    (rest : List (Option Key)) (hrest : ∀ k ∈ rest, ∃ v, k = some v) (i0 : Nat) :
    ∃ L, overlapOuter all rest i0 = Run.ret L ∧
      (∀ q, q ∈ L ↔ ∃ d k1 j k2, q = (i0 + d, j) ∧ i0 + d < j ∧ rest[d]? = some (some k1) ∧
        all[j]? = some (some k2) ∧ keysOverlap (some k1) (some k2) = Run.ret true) ∧
      L.Pairwise pairBefore ∧ ∀ q ∈ L, i0 ≤ q.1 := by
  induction rest generalizing i0 with
  | nil => exact ⟨[], by simp [overlapOuter]⟩
  | cons key1 rest ih =>
    obtain ⟨k1, rfl⟩ := hrest key1 (List.mem_cons_self _ _)
    obtain ⟨L2, hL2, hmem2, hpw2, hlow2⟩ :=
      ih (fun k hk => hrest k (List.mem_cons_of_mem _ hk)) (i0 + 1)
    obtain ⟨L1, hL1, hmem1, hpw1, _⟩ := overlapInner_spec i0 k1 all hall 0
    refine ⟨L1 ++ L2, by simp [overlapOuter, hL1, hL2], ?_, ?_, ?_⟩
    · intro q
      rw [List.mem_append, hmem1 q, hmem2 q]
      constructor
      · rintro (⟨d, k2, h1, h2, h3, h4⟩ | ⟨d, k3, j, k2, h1, h2, h3, h4, h5⟩)
        · exact ⟨0, k1, d, k2, by simpa using h1, by omega, by simp, h3, h4⟩
        · exact ⟨d + 1, k3, j, k2, by rw [h1]; congr 1; omega, by omega, by simpa using h3, h4, h5⟩
      · rintro ⟨d, k3, j, k2, h1, h2, h3, h4, h5⟩
        cases d with
        | zero =>
          left
          simp only [List.getElem?_cons_zero, Option.some.injEq] at h3
          subst h3
          exact ⟨j, k2, by simpa using h1, by omega, h4, h5⟩
        | succ d =>
          right
          exact ⟨d, k3, j, k2, by rw [h1]; congr 1; omega, by omega, by simpa using h3, h4, h5⟩
    · rw [List.pairwise_append]
      refine ⟨?_, hpw2, ?_⟩
      · have hfst : ∀ q ∈ L1, q.1 = i0 := by
          intro q hq
          obtain ⟨d, k2, h1, _⟩ := (hmem1 q).mp hq
          rw [h1]
        refine List.Pairwise.imp_of_mem ?_ hpw1
        intro a b ha hb hab
        exact Or.inr ⟨by rw [hfst a ha, hfst b hb], hab⟩
      · intro a ha b hb
        obtain ⟨d, k2, h1, _⟩ := (hmem1 a).mp ha
        have := hlow2 b hb
        left
        rw [h1]
        simp only
        omega
    · intro q hq
      rw [List.mem_append] at hq
      rcases hq with h | h
      · obtain ⟨d, k2, h1, _⟩ := (hmem1 q).mp h
        rw [h1]
      · have := hlow2 q h; omega

theorem overlapReports_spec (keys : List (Option Key)) (hkeys : ∀ k ∈ keys, ∃ v, k = some v) :
    ∃ L, overlapReports keys = Run.ret L ∧
      (∀ i j, (i, j) ∈ L ↔ i < j ∧ ∃ k1 k2, keys[i]? = some (some k1) ∧
        keys[j]? = some (some k2) ∧ keysOverlap (some k1) (some k2) = Run.ret true) ∧
      L.Pairwise pairBefore := by
  obtain ⟨L, hL, hmem, hpw, _⟩ := overlapOuter_spec keys hkeys keys hkeys 0
  refine ⟨L, hL, ?_, hpw⟩
  intro i j
  rw [hmem (i, j)]
  constructor
  · rintro ⟨d, k1, j2, k2, h1, h2, h3, h4, h5⟩
    simp only [Prod.mk.injEq, Nat.zero_add] at h1
    obtain ⟨rfl, rfl⟩ := h1
    exact ⟨by omega, k1, k2, h3, h4, h5⟩
  · rintro ⟨h1, k1, k2, h3, h4, h5⟩
    exact ⟨i, k1, j, k2, by simp, by omega, h3, h4, h5⟩


theorem fileKeyReportsFrom_spec (layout : Layout) (rest : List (Option Key))
    (hrest : ∀ k ∈ rest, ∃ v, k = some v) (i0 : Nat) :
    ∃ reports, fileKeyReportsFrom layout rest i0 = Run.ret reports ∧
      ∀ d k, rest[d]? = some (some k) → ∀ r ∈ keyFileReports layout (i0 + d) k, r ∈ reports := by
  induction rest generalizing i0 with
  | nil => exact ⟨[], by simp [fileKeyReportsFrom]⟩
  | cons key rest ih =>
    obtain ⟨k, rfl⟩ := hrest key (List.mem_cons_self _ _)
    obtain ⟨R, hR, hmem⟩ := ih (fun k hk => hrest k (List.mem_cons_of_mem _ hk)) (i0 + 1)
    refine ⟨keyFileReports layout i0 k ++ R, by simp [fileKeyReportsFrom, hR], ?_⟩
    intro d k3 hd r hr
    rw [List.mem_append]
    cases d with
    | zero =>
      simp only [List.getElem?_cons_zero, Option.some.injEq] at hd
      subst hd
      left; simpa using hr
    | succ d =>
      right
      refine hmem d k3 (by simpa using hd) r ?_
      have : i0 + 1 + d = i0 + (d + 1) := by omega
      rw [this]; exact hr

/-- C1 (counterexample): the layout whose two keys both span x:[0,50), y:[0,50) passes
every field check and its keys overlap, yet ValidateLayout returns no error. -/
theorem validateLayout_overlap_counterexample :
    FieldChecksPass overlapLayout ∧
    (∃ k1 k2, overlapLayout.Keys[0]? = some (some k1) ∧ overlapLayout.Keys[1]? = some (some k2) ∧
      keysOverlap (some k1) (some k2) = Run.ret true) ∧
    theParser.ValidateLayout overlapLayout = Run.ret none := by
  refine ⟨by decide, ⟨_, _, rfl, rfl, by decide⟩, by decide⟩

/-- C1 (amended): ValidateLayout has no overlap check.  A layout that passes all field
checks is accepted even when two of its keys overlap; the overlap is found only by the
overlap check of validateLayoutFile in the schema test, which reports the overlapping
pairs and reports first the first overlapping pair in index order (i ascending, then j
ascending). -/
theorem validateLayout_accepts_overlap (p : LayoutParser) (layout : Layout)
    (hfields : FieldChecksPass layout) (i j : Nat) (hij : i < j) (k1 k2 : Key)
    (h1 : layout.Keys[i]? = some (some k1)) (h2 : layout.Keys[j]? = some (some k2))
    (hov : keysOverlap (some k1) (some k2) = Run.ret true) :
    p.ValidateLayout layout = Run.ret none ∧
    ∃ i0 j0 rest, overlapReports layout.Keys = Run.ret ((i0, j0) :: rest) ∧
      (i0 < j0 ∧ ∃ a b, layout.Keys[i0]? = some (some a) ∧ layout.Keys[j0]? = some (some b) ∧
        keysOverlap (some a) (some b) = Run.ret true) ∧
      ∀ i1 j1 a b, i1 < j1 → layout.Keys[i1]? = some (some a) →
        layout.Keys[j1]? = some (some b) → keysOverlap (some a) (some b) = Run.ret true →
        i0 < i1 ∨ (i0 = i1 ∧ j0 ≤ j1) := by
  refine ⟨(validateLayout_ret_none_iff p layout).mpr hfields, ?_⟩
  have hkeys : ∀ k ∈ layout.Keys, ∃ v, k = some v :=
    fun k hk => keyFieldsOk_ne_none (hfields.2.2.2.2 k hk)
  obtain ⟨L, hL, hmem, hpw⟩ := overlapReports_spec layout.Keys hkeys
  have hin : (i, j) ∈ L := (hmem i j).mpr ⟨hij, k1, k2, h1, h2, hov⟩
  cases L with
  | nil => cases hin
  | cons q rest =>
    obtain ⟨i0, j0⟩ := q
    refine ⟨i0, j0, rest, hL, (hmem i0 j0).mp (List.mem_cons_self _ _), ?_⟩
    intro i1 j1 a b hlt ha hb hab
    have hin1 : (i1, j1) ∈ (i0, j0) :: rest := (hmem i1 j1).mpr ⟨hlt, a, b, ha, hb, hab⟩
    rw [List.mem_cons] at hin1
    rcases hin1 with h | h
    · simp only [Prod.mk.injEq] at h
      right; omega
    · have hb4 := (List.pairwise_cons.mp hpw).1 (i1, j1) h
      rcases hb4 with h3 | ⟨h3, h4⟩
      · left; exact h3
      · right; simp only at h3 h4; omega

/-- C1 (witness): the amended statement applied to the layout with two keys both
spanning x:[0,50), y:[0,50). -/
theorem validateLayout_accepts_overlap_witness :
    theParser.ValidateLayout overlapLayout = Run.ret none ∧
    ∃ i0 j0 rest, overlapReports overlapLayout.Keys = Run.ret ((i0, j0) :: rest) ∧
      (i0 < j0 ∧ ∃ a b, overlapLayout.Keys[i0]? = some (some a) ∧
        overlapLayout.Keys[j0]? = some (some b) ∧
        keysOverlap (some a) (some b) = Run.ret true) ∧
      ∀ i1 j1 a b, i1 < j1 → overlapLayout.Keys[i1]? = some (some a) →
        overlapLayout.Keys[j1]? = some (some b) →
        keysOverlap (some a) (some b) = Run.ret true →
        i0 < i1 ∨ (i0 = i1 ∧ j0 ≤ j1) :=
  validateLayout_accepts_overlap theParser overlapLayout (by decide) 0 1 (by decide)
    { ID := "a", Label := "A", Code := 30, X := 0, Y := 0, Width := 50, Height := 50 }
    { ID := "b", Label := "B", Code := 48, X := 0, Y := 0, Width := 50, Height := 50 }
    rfl rfl (by decide)

/-- C2 (counterexample): a layout of width 100 whose only key spans x:[90,110) passes
every field check and its key extends beyond the layout's width, yet ValidateLayout
returns no error. -/
theorem validateLayout_bounds_counterexample :
    (∃ k, outOfBoundsLayout.Keys[0]? = some (some k) ∧
      addInt k.X k.Width > outOfBoundsLayout.Width) ∧
    theParser.ValidateLayout outOfBoundsLayout = Run.ret none := by
  refine ⟨⟨_, rfl, by decide⟩, by decide⟩

/-- C2 (amended): ValidateLayout does not compare keys with the layout's bounds.  A
layout that passes all field checks is accepted even when a key's bounding box extends
beyond the layout's width or height; that key is reported only by the per-key loop of
validateLayoutFile in the schema test. -/
theorem validateLayout_accepts_out_of_bounds (p : LayoutParser) (layout : Layout)
    (hfields : FieldChecksPass layout) (i : Nat) (k : Key)
    (hk : layout.Keys[i]? = some (some k))
    (hout : addInt k.X k.Width > layout.Width ∨ addInt k.Y k.Height > layout.Height) :
    p.ValidateLayout layout = Run.ret none ∧
    ∃ reports, fileKeyReportsFrom layout layout.Keys 0 = Run.ret reports ∧
      ((i, FileCheck.beyondWidth) ∈ reports ∨ (i, FileCheck.beyondHeight) ∈ reports) := by
  refine ⟨(validateLayout_ret_none_iff p layout).mpr hfields, ?_⟩
  have hkeys : ∀ k ∈ layout.Keys, ∃ v, k = some v :=
    fun k hk => keyFieldsOk_ne_none (hfields.2.2.2.2 k hk)
  obtain ⟨R, hR, hmem⟩ := fileKeyReportsFrom_spec layout layout.Keys hkeys 0
  refine ⟨R, hR, ?_⟩
  rcases hout with h | h
  · left
    refine hmem i k hk _ ?_
    simp [keyFileReports, h]
  · right
    refine hmem i k hk _ ?_
    simp [keyFileReports, h]

/-- C2 (witness): the amended statement applied to the layout of width 100 whose key
spans x:[90,110). -/
theorem validateLayout_accepts_out_of_bounds_witness :
    theParser.ValidateLayout outOfBoundsLayout = Run.ret none ∧
    ∃ reports, fileKeyReportsFrom outOfBoundsLayout outOfBoundsLayout.Keys 0 = Run.ret reports ∧
      ((0, FileCheck.beyondWidth) ∈ reports ∨ (0, FileCheck.beyondHeight) ∈ reports) :=
  validateLayout_accepts_out_of_bounds theParser outOfBoundsLayout (by decide) 0
    { ID := "a", Label := "A", Code := 30, X := 90, Y := 0, Width := 20, Height := 50 }
    rfl (Or.inl (by decide))


theorem noOverlap_iff_pairwise (keys : List (Option Key)) :
    NoOverlap keys ↔ keys.Pairwise (fun a b => keysOverlap a b = Run.ret false) := by
  rw [List.pairwise_iff_getElem]
  constructor
  · intro h i j hi hj hij
    exact h i j hij _ _ (List.getElem?_eq_getElem hi) (List.getElem?_eq_getElem hj)
  · intro h i j hij k1 k2 h1 h2
    obtain ⟨hi, rfl⟩ := List.getElem?_eq_some.mp h1
    obtain ⟨hj, rfl⟩ := List.getElem?_eq_some.mp h2
    exact h i j hi hj hij

theorem conforming_twoKeyLayout : Conforming twoKeyLayout := by
  refine ⟨by decide, ?_, ?_⟩
  · intro key hkey
    simp only [twoKeyLayout, List.mem_cons, List.mem_singleton, List.not_mem_nil, or_false] at hkey
    rcases hkey with rfl | rfl <;> exact ⟨by decide, by decide⟩
  · rw [noOverlap_iff_pairwise]
    decide

/-- C3: ValidateLayout accepts every conforming layout: a layout with a non-empty name,
positive width and height, at least one key, every key with non-empty id and label,
positive dimensions, non-negative position, a bounding box inside the layout's bounds
and no overlap with another key is validated without error. -/
theorem validateLayout_accepts_conforming (p : LayoutParser) (layout : Layout)
    (h : Conforming layout) : p.ValidateLayout layout = Run.ret none :=
  (validateLayout_ret_none_iff p layout).mpr h.1

/-- C3 (witness): the layout with two keys side by side is conforming and accepted. -/
theorem validateLayout_accepts_conforming_witness :
    Conforming twoKeyLayout ∧ theParser.ValidateLayout twoKeyLayout = Run.ret none :=
  ⟨conforming_twoKeyLayout,
    validateLayout_accepts_conforming theParser twoKeyLayout conforming_twoKeyLayout⟩

theorem validateKey_of_firstViolation (p : LayoutParser) (k : Key) (i : Nat) (e : KeyError)
    (h : FirstViolation k e) : p.validateKey (some k) i = Run.ret (some e) := by
  cases e with
  | idEmpty => simp only [FirstViolation] at h; simp [LayoutParser.validateKey, h]
  | labelEmpty => simp only [FirstViolation] at h; simp [LayoutParser.validateKey, h.1, h.2]
  | dimensionsNotPositive =>
    simp only [FirstViolation] at h
    simp [LayoutParser.validateKey, h.1, h.2.1, h.2.2]
  | positionNegative =>
    simp only [FirstViolation] at h
    have hd : ¬ (k.Width ≤ 0 ∨ k.Height ≤ 0) := by omega
    simp [LayoutParser.validateKey, h.1, h.2.1, hd, h.2.2.2.2]

theorem validateKeysFrom_first_violation (p : LayoutParser) (keys : List (Option Key))
    (i0 d : Nat) (k : Key) (e : KeyError) (hk : keys[d]? = some (some k))
    (he : FirstViolation k e) (hbefore : ∀ j, j < d → ∃ kj, keys[j]? = some kj ∧ KeyFieldsOk kj) :
    p.validateKeysFrom keys i0 = Run.ret (some (LayoutError.keyInvalid (i0 + d) e)) := by
  induction keys generalizing i0 d with
  | nil => simp at hk
  | cons key rest ih =>
    cases d with
    | zero =>
      simp only [List.getElem?_cons_zero, Option.some.injEq] at hk
      subst hk
      simp [LayoutParser.validateKeysFrom, validateKey_of_firstViolation p k i0 e he]
    | succ d =>
      obtain ⟨k0, hk0, hok⟩ := hbefore 0 (by omega)
      simp only [List.getElem?_cons_zero, Option.some.injEq] at hk0
      subst hk0
      have hv := (validateKey_ret_none_iff p key i0).mpr hok
      have hrec := ih (i0 + 1) d (by simpa using hk)
        (fun j hj => by simpa using hbefore (j + 1) (by omega))
      simp only [LayoutParser.validateKeysFrom, hv, hrec]
      congr 3; omega

/-- C19: ValidateLayout reports the first violated rule in the order of the checks: an
empty name before non-positive layout dimensions, these before an empty key list, and
all of these before any key failure; when the layout-level checks pass and a key breaks
a per-key rule, the error names the smallest index of a violating key and the first
rule that key breaks in the order empty id, empty label, non-positive dimensions,
negative position. -/
theorem validateLayout_reports_first_violation (p : LayoutParser) (layout : Layout) :
    (layout.Name = "" → p.ValidateLayout layout = Run.ret (some LayoutError.nameEmpty)) ∧
    (layout.Name ≠ "" → (layout.Width ≤ 0 ∨ layout.Height ≤ 0) →
      p.ValidateLayout layout = Run.ret (some LayoutError.dimensionsNotPositive)) ∧
    (layout.Name ≠ "" → 0 < layout.Width → 0 < layout.Height → layout.Keys = [] →
      p.ValidateLayout layout = Run.ret (some LayoutError.noKeys)) ∧
    (∀ (i : Nat) (k : Key) (e : KeyError),
      layout.Name ≠ "" → 0 < layout.Width → 0 < layout.Height →
      layout.Keys[i]? = some (some k) → FirstViolation k e →
      (∀ j, j < i → ∃ kj, layout.Keys[j]? = some kj ∧ KeyFieldsOk kj) →
      p.ValidateLayout layout = Run.ret (some (LayoutError.keyInvalid i e))) := by
  refine ⟨?_, ?_, ?_, ?_⟩
  · intro h; simp [LayoutParser.ValidateLayout, h]
  · intro h1 h2; simp [LayoutParser.ValidateLayout, h1, h2]
  · intro h1 h2 h3 h4
    have hd : ¬ (layout.Width ≤ 0 ∨ layout.Height ≤ 0) := by omega
    simp [LayoutParser.ValidateLayout, h1, hd, h4]
  · intro i k e h1 h2 h3 hk he hbefore
    have hd : ¬ (layout.Width ≤ 0 ∨ layout.Height ≤ 0) := by omega
    have hne : ¬ layout.Keys.length = 0 := by
      intro h
      rw [List.length_eq_zero] at h
      simp [h] at hk
    have := validateKeysFrom_first_violation p layout.Keys 0 i k e hk he hbefore
    simp only [LayoutParser.ValidateLayout, h1, hd, hne, if_false, this]
    simp

/-- C19 (witness): the four parts applied to concrete layouts: an unnamed layout with
no dimensions and no keys reports the name; a named one reports the dimensions; a named
and sized one reports the missing keys; and a layout whose second key has an empty label
and a negative position reports index 1 and the empty label. -/
theorem validateLayout_reports_first_violation_witness :
    theParser.ValidateLayout { Name := "", Width := 0, Height := 0, Keys := [] } =
      Run.ret (some LayoutError.nameEmpty) ∧
    theParser.ValidateLayout { Name := "n", Width := 0, Height := 0, Keys := [] } =
      Run.ret (some LayoutError.dimensionsNotPositive) ∧
    theParser.ValidateLayout { Name := "n", Width := 10, Height := 10, Keys := [] } =
      Run.ret (some LayoutError.noKeys) ∧
    theParser.ValidateLayout badSecondKeyLayout =
      Run.ret (some (LayoutError.keyInvalid 1 KeyError.labelEmpty)) :=
  ⟨(validateLayout_reports_first_violation theParser
      { Name := "", Width := 0, Height := 0, Keys := [] }).1 rfl,
   (validateLayout_reports_first_violation theParser
      { Name := "n", Width := 0, Height := 0, Keys := [] }).2.1 (by decide) (Or.inl (by decide)),
   (validateLayout_reports_first_violation theParser
      { Name := "n", Width := 10, Height := 10, Keys := [] }).2.2.1
      (by decide) (by decide) (by decide) rfl,
   (validateLayout_reports_first_violation theParser badSecondKeyLayout).2.2.2 1
      { ID := "b", Label := "", Code := 48, X := -5, Y := 0, Width := 50, Height := 50 }
      KeyError.labelEmpty (by decide) (by decide) (by decide) rfl
      ⟨by decide, rfl⟩
      (fun j hj => by
        have hj0 : j = 0 := by omega
        subst hj0
        exact ⟨_, rfl, by decide⟩)⟩


/-! ## Hit testing -/

theorem findKeyIn_spec (px py : Int) (keys : List (Option Key))
    (hkeys : ∀ key ∈ keys, ∃ k, key = some k) :
    ∃ r, findKeyIn px py keys = Run.ret r ∧
      (∀ k, r = some k ↔ ∃ i, keys[i]? = some (some k) ∧ InBox px py k ∧
        ∀ j : Nat, j < i → ∀ kj, keys[j]? = some (some kj) → ¬ InBox px py kj) ∧
      (r = none ↔ ∀ k, some k ∈ keys → ¬ InBox px py k) := by
  induction keys with
  | nil => exact ⟨none, by simp [findKeyIn]⟩
  | cons key rest ih =>
    obtain ⟨h, rfl⟩ := hkeys key (List.mem_cons_self _ _)
    obtain ⟨r, hr, hsome, hnone⟩ := ih (fun k hk => hkeys k (List.mem_cons_of_mem _ hk))
    by_cases hbox : InBox px py h
    · have hcond : px ≥ h.X ∧ px < addInt h.X h.Width ∧ py ≥ h.Y ∧ py < addInt h.Y h.Height := hbox
      refine ⟨some h, by simp only [findKeyIn, hcond, and_self, if_true], ?_, ?_⟩
      · intro k
        constructor
        · intro hk
          cases hk
          exact ⟨0, by simp, hbox, fun j hj => by omega⟩
        · rintro ⟨i, hi, _, hfirst⟩
          cases i with
          | zero => simpa using hi
          | succ i => exact absurd hbox (hfirst 0 (by omega) h (by simp))
      · simp only [false_iff, reduceCtorEq]
        intro hall
        exact hall h (List.mem_cons_self _ _) hbox
    · have hcond : ¬ (px ≥ h.X ∧ px < addInt h.X h.Width ∧ py ≥ h.Y ∧ py < addInt h.Y h.Height) :=
        hbox
      refine ⟨r, by simp only [findKeyIn, hcond, if_false, hr], ?_, ?_⟩
      · intro k
        rw [hsome k]
        constructor
        · rintro ⟨i, hi, hb, hfirst⟩
          refine ⟨i + 1, by simpa using hi, hb, ?_⟩
          intro j hj kj hkj
          cases j with
          | zero =>
            simp only [List.getElem?_cons_zero, Option.some.injEq] at hkj
            subst hkj; exact hbox
          | succ j => exact hfirst j (by omega) kj (by simpa using hkj)
        · rintro ⟨i, hi, hb, hfirst⟩
          cases i with
          | zero =>
            simp only [List.getElem?_cons_zero, Option.some.injEq] at hi
            subst hi; exact absurd hb hbox
          | succ i =>
            exact ⟨i, by simpa using hi, hb,
              fun j hj kj hkj => hfirst (j + 1) (by omega) kj (by simpa using hkj)⟩
      · rw [hnone]
        constructor
        · intro hall k hk
          rw [List.mem_cons] at hk
          rcases hk with hk | hk
          · cases hk; exact hbox
          · exact hall k hk
        · intro hall k hk
          exact hall k (List.mem_cons_of_mem _ hk)

/-- C4: findKeyAtPosition subtracts the widget origin and returns the first key in list
order whose half-open bounding box contains the translated point, and returns no key
exactly when no key's box contains it (for an active layout, whose keys are all
present).  On the built-in qwerty layout with the widget at origin (0,0), the key at
(15,15) is the key with id "q" and there is no key at (500,500). -/
theorem findKeyAtPosition_first_match :
    (∀ (kw : KeyboardWidget) (layout : Layout) (x y : Int),
      kw.keyboard.layout = some layout → (∀ key ∈ layout.Keys, ∃ k, key = some k) →
      ∃ r, kw.findKeyAtPosition x y = Run.ret r ∧
        (∀ k, r = some k ↔ ∃ i, layout.Keys[i]? = some (some k) ∧
          InBox (subInt x kw.x) (subInt y kw.y) k ∧
          ∀ j : Nat, j < i → ∀ kj, layout.Keys[j]? = some (some kj) →
            ¬ InBox (subInt x kw.x) (subInt y kw.y) kj) ∧
        (r = none ↔ ∀ k, some k ∈ layout.Keys → ¬ InBox (subInt x kw.x) (subInt y kw.y) k)) ∧
    defaultWidget.findKeyAtPosition 15 15 =
      Run.ret (some { ID := "q", Label := "Q", Code := 16, X := 10, Y := 10,
                      Width := 60, Height := 60 }) ∧
    defaultWidget.findKeyAtPosition 500 500 = Run.ret none := by
  refine ⟨?_, by decide, by decide⟩
  intro kw layout x y hlayout hkeys
  obtain ⟨r, hr, h1, h2⟩ := findKeyIn_spec (subInt x kw.x) (subInt y kw.y) layout.Keys hkeys
  exact ⟨r, by simp [KeyboardWidget.findKeyAtPosition, Keyboard.GetLayout, hlayout, hr], h1, h2⟩

/-- C4 (witness): on the two-key layout with the widget at the origin, the point
(60,10) lies in no box before the second key's, and the second key is returned. -/
theorem findKeyAtPosition_first_match_witness :
    ∃ r, twoKeyWidget.findKeyAtPosition 60 10 = Run.ret r ∧
      (∀ k, r = some k ↔ ∃ i, twoKeyLayout.Keys[i]? = some (some k) ∧
        InBox (subInt 60 twoKeyWidget.x) (subInt 10 twoKeyWidget.y) k ∧
        ∀ j : Nat, j < i → ∀ kj, twoKeyLayout.Keys[j]? = some (some kj) →
          ¬ InBox (subInt 60 twoKeyWidget.x) (subInt 10 twoKeyWidget.y) kj) ∧
      (r = none ↔ ∀ k, some k ∈ twoKeyLayout.Keys →
        ¬ InBox (subInt 60 twoKeyWidget.x) (subInt 10 twoKeyWidget.y) k) :=
  findKeyAtPosition_first_match.1 twoKeyWidget twoKeyLayout 60 10 rfl
    (fun key hkey => by
      simp only [twoKeyLayout, List.mem_cons, List.mem_singleton, List.not_mem_nil,
        or_false] at hkey
      rcases hkey with rfl | rfl <;> exact ⟨_, rfl⟩)


theorem keysOverlap_of_inBox (px py : Int) (a b : Key) (ha : InBox px py a)
    (hb : InBox px py b) : keysOverlap (some a) (some b) = Run.ret true := by
  obtain ⟨a1, a2, a3, a4⟩ := ha
  obtain ⟨b1, b2, b3, b4⟩ := hb
  simp only [keysOverlap, Run.ret.injEq, Bool.not_eq_true', Bool.or_eq_false_iff,
    decide_eq_false_iff_not, not_le]
  generalize addInt a.X a.Width = ax at *
  generalize addInt a.Y a.Height = ay at *
  generalize addInt b.X b.Width = bx at *
  generalize addInt b.Y b.Height = bY at *
  omega

theorem keysOverlap_symm (a b : Option Key) (v : Bool) (h : keysOverlap a b = Run.ret v) :
    keysOverlap b a = Run.ret v := by
  cases a with
  | none => simp [keysOverlap] at h
  | some a =>
    cases b with
    | none => simp [keysOverlap] at h
    | some b =>
      simp only [keysOverlap, Run.ret.injEq] at h ⊢
      rw [← h]
      cases decide (addInt a.X a.Width ≤ b.X) <;> cases decide (addInt b.X b.Width ≤ a.X) <;>
        cases decide (addInt a.Y a.Height ≤ b.Y) <;> cases decide (addInt b.Y b.Height ≤ a.Y) <;>
        rfl

theorem findKeyIn_of_mem (px py : Int) (keys : List (Option Key))
    (hkeys : ∀ key ∈ keys, ∃ k, key = some k)
    (hpw : keys.Pairwise (fun a b => keysOverlap a b = Run.ret false))
    (k : Key) (hk : some k ∈ keys) (hbox : InBox px py k) :
    findKeyIn px py keys = Run.ret (some k) := by
  induction keys with
  | nil => cases hk
  | cons key rest ih =>
    obtain ⟨h, rfl⟩ := hkeys key (List.mem_cons_self _ _)
    rw [List.pairwise_cons] at hpw
    by_cases hh : InBox px py h
    · have hcond : px ≥ h.X ∧ px < addInt h.X h.Width ∧ py ≥ h.Y ∧ py < addInt h.Y h.Height := hh
      simp only [findKeyIn, hcond, and_self, if_true]
      rw [List.mem_cons] at hk
      rcases hk with hk | hk
      · cases hk; rfl
      · have h1 := hpw.1 (some k) hk
        rw [keysOverlap_of_inBox px py h k hh hbox] at h1
        cases h1
    · have hcond : ¬ (px ≥ h.X ∧ px < addInt h.X h.Width ∧ py ≥ h.Y ∧ py < addInt h.Y h.Height) :=
        hh
      simp only [findKeyIn, hcond, if_false]
      rw [List.mem_cons] at hk
      rcases hk with hk | hk
      · cases hk; exact absurd hbox hh
      · exact ih (fun k hk => hkeys k (List.mem_cons_of_mem _ hk)) hpw.2 hk

theorem findKeyIn_none (px py : Int) (keys : List (Option Key))
    (hkeys : ∀ key ∈ keys, ∃ k, key = some k)
    (hall : ∀ k, some k ∈ keys → ¬ InBox px py k) : findKeyIn px py keys = Run.ret none := by
  obtain ⟨r, hr, _, hnone⟩ := findKeyIn_spec px py keys hkeys
  rw [hr, hnone.mpr hall]

theorem findKeyIn_perm (px py : Int) (keys keys2 : List (Option Key))
    (hkeys : ∀ key ∈ keys, ∃ k, key = some k)
    (hpw : keys.Pairwise (fun a b => keysOverlap a b = Run.ret false))
    (hperm : keys2.Perm keys) : findKeyIn px py keys2 = findKeyIn px py keys := by
  have hkeys2 : ∀ key ∈ keys2, ∃ k, key = some k := fun key hkey => hkeys key (hperm.mem_iff.mp hkey)
  have hpw2 : keys2.Pairwise (fun a b => keysOverlap a b = Run.ret false) :=
    (hperm.pairwise_iff (fun {a b} h => keysOverlap_symm a b false h)).mpr hpw
  by_cases hex : ∃ k, some k ∈ keys ∧ InBox px py k
  · obtain ⟨k, hk, hbox⟩ := hex
    rw [findKeyIn_of_mem px py keys hkeys hpw k hk hbox,
      findKeyIn_of_mem px py keys2 hkeys2 hpw2 k (hperm.mem_iff.mpr hk) hbox]
  · have hall : ∀ k, some k ∈ keys → ¬ InBox px py k := fun k hk hb => hex ⟨k, hk, hb⟩
    rw [findKeyIn_none px py keys hkeys hall,
      findKeyIn_none px py keys2 hkeys2 (fun k hk => hall k (hperm.mem_iff.mp hk))]

theorem validated_keys_present (p : LayoutParser) (layout : Layout)
    (h : p.ValidateLayout layout = Run.ret none) : ∀ key ∈ layout.Keys, ∃ k, key = some k :=
  fun key hkey =>
    keyFieldsOk_ne_none (((validateLayout_ret_none_iff p layout).mp h).2.2.2.2 key hkey)

/-- C5: in a validated layout whose keys are pairwise non-overlapping, at most one
key's half-open bounding box contains a given point; so findKeyAtPosition returns the
same result for every reordering of the key list, returns the key whose box contains
the point when there is one, and returns no key when the point is outside all boxes. -/
theorem findKeyAtPosition_order_independent (p : LayoutParser) (kw : KeyboardWidget)
    (layout : Layout) (x y : Int) (hlayout : kw.keyboard.layout = some layout)
    (hvalid : p.ValidateLayout layout = Run.ret none) (hno : NoOverlap layout.Keys) :
    (∀ (i j : Nat) (ki kj : Key), layout.Keys[i]? = some (some ki) →
      layout.Keys[j]? = some (some kj) → InBox (subInt x kw.x) (subInt y kw.y) ki →
      InBox (subInt x kw.x) (subInt y kw.y) kj → i = j) ∧
    (∀ keys2 : List (Option Key), keys2.Perm layout.Keys →
      KeyboardWidget.findKeyAtPosition
        { kw with keyboard := { kw.keyboard with layout := some { layout with Keys := keys2 } } }
        x y = kw.findKeyAtPosition x y) ∧
    (∀ k : Key, some k ∈ layout.Keys → InBox (subInt x kw.x) (subInt y kw.y) k →
      kw.findKeyAtPosition x y = Run.ret (some k)) ∧
    ((∀ k : Key, some k ∈ layout.Keys → ¬ InBox (subInt x kw.x) (subInt y kw.y) k) →
      kw.findKeyAtPosition x y = Run.ret none) := by
  have hkeys := validated_keys_present p layout hvalid
  have hpw := (noOverlap_iff_pairwise layout.Keys).mp hno
  have hfind : kw.findKeyAtPosition x y =
      findKeyIn (subInt x kw.x) (subInt y kw.y) layout.Keys := by
    simp [KeyboardWidget.findKeyAtPosition, Keyboard.GetLayout, hlayout]
  refine ⟨?_, ?_, ?_, ?_⟩
  · intro i j ki kj hi hj hbi hbj
    rcases Nat.lt_trichotomy i j with h | h | h
    · have h1 := hno i j h _ _ hi hj
      rw [keysOverlap_of_inBox _ _ ki kj hbi hbj] at h1
      cases h1
    · exact h
    · have h1 := hno j i h _ _ hj hi
      rw [keysOverlap_of_inBox _ _ kj ki hbj hbi] at h1
      cases h1
  · intro keys2 hperm
    rw [hfind]
    simp only [KeyboardWidget.findKeyAtPosition, Keyboard.GetLayout]
    exact findKeyIn_perm _ _ layout.Keys keys2 hkeys hpw hperm
  · intro k hk hbox
    rw [hfind]
    exact findKeyIn_of_mem _ _ layout.Keys hkeys hpw k hk hbox
  · intro hall
    rw [hfind]
    exact findKeyIn_none _ _ layout.Keys hkeys hall

/-- C5 (witness): the statement applied to the two-key layout, widget at the origin, at
the point (60,10). -/
theorem findKeyAtPosition_order_independent_witness :
    (∀ (i j : Nat) (ki kj : Key), twoKeyLayout.Keys[i]? = some (some ki) →
      twoKeyLayout.Keys[j]? = some (some kj) →
      InBox (subInt 60 twoKeyWidget.x) (subInt 10 twoKeyWidget.y) ki →
      InBox (subInt 60 twoKeyWidget.x) (subInt 10 twoKeyWidget.y) kj → i = j) ∧
    (∀ keys2 : List (Option Key), keys2.Perm twoKeyLayout.Keys →
      KeyboardWidget.findKeyAtPosition
        { twoKeyWidget with
          keyboard := { twoKeyWidget.keyboard with
                        layout := some { twoKeyLayout with Keys := keys2 } } }
        60 10 = twoKeyWidget.findKeyAtPosition 60 10) ∧
    (∀ k : Key, some k ∈ twoKeyLayout.Keys →
      InBox (subInt 60 twoKeyWidget.x) (subInt 10 twoKeyWidget.y) k →
      twoKeyWidget.findKeyAtPosition 60 10 = Run.ret (some k)) ∧
    ((∀ k : Key, some k ∈ twoKeyLayout.Keys →
      ¬ InBox (subInt 60 twoKeyWidget.x) (subInt 10 twoKeyWidget.y) k) →
      twoKeyWidget.findKeyAtPosition 60 10 = Run.ret none) :=
  findKeyAtPosition_order_independent theParser twoKeyWidget twoKeyLayout 60 10 rfl
    (by decide) conforming_twoKeyLayout.2.2


/-! ## Layout loading -/

theorem loadLayout_spec (env : Env) (kb : Keyboard) (name : String) :
    ((Keyboard.LoadLayout env kb name).2 = Run.ret none ∧
      ∃ layout, (Keyboard.LoadLayout env kb name).1 = { kb with layout := some layout } ∧
        (NewLayoutParser "assets/layouts").ValidateLayout layout = Run.ret none ∧
        ((NewLayoutParser "assets/layouts").ParseLayout env (name ++ ".json") = Except.ok layout ∨
          (∃ err, (NewLayoutParser "assets/layouts").ParseLayout env (name ++ ".json") =
              Except.error err) ∧ name = "qwerty" ∧
            layout = { Name := name, Width := 900, Height := 400, Keys := createQWERTYLayout })) ∨
    ((Keyboard.LoadLayout env kb name).2 ≠ Run.ret none ∧
      (Keyboard.LoadLayout env kb name).1 = kb) := by
  dsimp only [Keyboard.LoadLayout]
  cases hp : (NewLayoutParser "assets/layouts").ParseLayout env (name ++ ".json") with
  | ok layout =>
    simp only
    cases hv : (NewLayoutParser "assets/layouts").ValidateLayout layout with
    | panic => right; simp
    | ret r =>
      cases r with
      | some e => right; simp
      | none => left; exact ⟨rfl, layout, rfl, hv, Or.inl rfl⟩
  | error err =>
    simp only
    by_cases hq : name = "qwerty"
    · rw [if_pos hq]
      dsimp only
      cases hv : (NewLayoutParser "assets/layouts").ValidateLayout
          { Name := name, Width := 900, Height := 400, Keys := createQWERTYLayout } with
      | panic => right; simp
      | ret r =>
        cases r with
        | some e => right; simp
        | none => left; exact ⟨rfl, _, rfl, hv, Or.inr ⟨⟨err, rfl⟩, hq, rfl⟩⟩
    · simp only [hq, if_false]
      right; simp

/-- C9: layout switching is all-or-nothing.  If LoadLayout (equivalently SwitchLayout)
returns an error, from parsing or from validation, the active layout, the theme, the
recorded key states and the callbacks are what they were before the call; if it returns
no error, the active layout is the newly parsed (or built-in) layout, which passed
ValidateLayout, and theme, key states and callbacks are unchanged. -/
theorem loadLayout_all_or_nothing (env : Env) (kb : Keyboard) (name : String) :
    Keyboard.SwitchLayout env kb name = Keyboard.LoadLayout env kb name ∧
    (∀ e, (Keyboard.LoadLayout env kb name).2 = Run.ret (some e) →
      (Keyboard.LoadLayout env kb name).1.layout = kb.layout ∧
      (Keyboard.LoadLayout env kb name).1.theme = kb.theme ∧
      (Keyboard.LoadLayout env kb name).1.keyStates = kb.keyStates ∧
      (Keyboard.LoadLayout env kb name).1.callbacks = kb.callbacks) ∧
    ((Keyboard.LoadLayout env kb name).2 = Run.ret none →
      ∃ layout, (Keyboard.LoadLayout env kb name).1.layout = some layout ∧
        (NewLayoutParser "assets/layouts").ValidateLayout layout = Run.ret none ∧
        ((NewLayoutParser "assets/layouts").ParseLayout env (name ++ ".json") = Except.ok layout ∨
          (∃ err, (NewLayoutParser "assets/layouts").ParseLayout env (name ++ ".json") =
              Except.error err) ∧ name = "qwerty" ∧
            layout = { Name := name, Width := 900, Height := 400, Keys := createQWERTYLayout }) ∧
        (Keyboard.LoadLayout env kb name).1.theme = kb.theme ∧
        (Keyboard.LoadLayout env kb name).1.keyStates = kb.keyStates ∧
        (Keyboard.LoadLayout env kb name).1.callbacks = kb.callbacks) := by
  refine ⟨rfl, ?_, ?_⟩
  · intro e he
    rcases loadLayout_spec env kb name with ⟨h, _⟩ | ⟨_, h⟩
    · rw [h] at he; cases he
    · rw [h]; exact ⟨rfl, rfl, rfl, rfl⟩
  · intro hok
    rcases loadLayout_spec env kb name with ⟨_, layout, h1, h2, h3⟩ | ⟨h, _⟩
    · exact ⟨layout, by rw [h1], h2, h3, by rw [h1], by rw [h1], by rw [h1]⟩
    · exact absurd hok h

/-- C9 (witness): on a keyboard whose layout is the two-key layout, loading the absent
layout "dvorak" fails and leaves the keyboard as it was, and loading "qwerty" with no
file present succeeds and installs a validated layout. -/
theorem loadLayout_all_or_nothing_witness :
    ((Keyboard.LoadLayout emptyEnv twoKeyKeyboard "dvorak").1.layout = twoKeyKeyboard.layout ∧
      (Keyboard.LoadLayout emptyEnv twoKeyKeyboard "dvorak").1.theme = twoKeyKeyboard.theme ∧
      (Keyboard.LoadLayout emptyEnv twoKeyKeyboard "dvorak").1.keyStates =
        twoKeyKeyboard.keyStates ∧
      (Keyboard.LoadLayout emptyEnv twoKeyKeyboard "dvorak").1.callbacks =
        twoKeyKeyboard.callbacks) ∧
    (∃ layout, (Keyboard.LoadLayout emptyEnv twoKeyKeyboard "qwerty").1.layout = some layout ∧
        (NewLayoutParser "assets/layouts").ValidateLayout layout = Run.ret none ∧
        ((NewLayoutParser "assets/layouts").ParseLayout emptyEnv ("qwerty" ++ ".json") =
            Except.ok layout ∨
          (∃ err, (NewLayoutParser "assets/layouts").ParseLayout emptyEnv ("qwerty" ++ ".json") =
              Except.error err) ∧ "qwerty" = "qwerty" ∧
            layout =
              { Name := "qwerty", Width := 900, Height := 400, Keys := createQWERTYLayout }) ∧
        (Keyboard.LoadLayout emptyEnv twoKeyKeyboard "qwerty").1.theme = twoKeyKeyboard.theme ∧
        (Keyboard.LoadLayout emptyEnv twoKeyKeyboard "qwerty").1.keyStates =
          twoKeyKeyboard.keyStates ∧
        (Keyboard.LoadLayout emptyEnv twoKeyKeyboard "qwerty").1.callbacks =
          twoKeyKeyboard.callbacks) :=
  ⟨(loadLayout_all_or_nothing emptyEnv twoKeyKeyboard "dvorak").2.1
      (KbError.layoutNotFound "dvorak" (ParseError.notExist "assets/layouts/dvorak.json"))
      (by decide),
   (loadLayout_all_or_nothing emptyEnv twoKeyKeyboard "qwerty").2.2 (by decide)⟩

/-- C10 (code at the failing input): when the file "assets/layouts/qwerty.json" exists
but is malformed, and likewise when it exists but cannot be read, ParseLayout fails with
an error other than not-found, and LoadLayout("qwerty") nevertheless returns no error
and replaces the active two-key layout by the built-in layout. -/
theorem loadLayout_qwerty_fallback_on_any_parse_error :
    (NewLayoutParser "assets/layouts").ParseLayout malformedEnv "qwerty.json" =
      Except.error ParseError.malformed ∧
    (Keyboard.LoadLayout malformedEnv twoKeyKeyboard "qwerty").2 = Run.ret none ∧
    (Keyboard.LoadLayout malformedEnv twoKeyKeyboard "qwerty").1.layout = some builtinQwerty ∧
    (NewLayoutParser "assets/layouts").ParseLayout unreadableEnv "qwerty.json" =
      Except.error (ParseError.readFailed "assets/layouts/qwerty.json") ∧
    (Keyboard.LoadLayout unreadableEnv twoKeyKeyboard "qwerty").2 = Run.ret none ∧
    (Keyboard.LoadLayout unreadableEnv twoKeyKeyboard "qwerty").1.layout = some builtinQwerty := by
  refine ⟨rfl, by decide, by decide, rfl, by decide, by decide⟩


/-! ## Key state -/

theorem pressKeyIn_no_match (cb : Option Callback) (id : String) (keys : List (Option Key))
    (h : ∀ key ∈ keys, ∃ v, key = some v ∧ v.ID ≠ id) :
    pressKeyIn cb id keys = (keys, Run.ret []) := by
  induction keys with
  | nil => rfl
  | cons key rest ih =>
    obtain ⟨v, rfl, hv⟩ := h key (List.mem_cons_self _ _)
    simp [pressKeyIn, hv, ih (fun k hk => h k (List.mem_cons_of_mem _ hk))]

theorem releaseKeyIn_no_match (id : String) (keys : List (Option Key))
    (h : ∀ key ∈ keys, ∃ v, key = some v ∧ v.ID ≠ id) :
    releaseKeyIn id keys = (keys, Run.ret ()) := by
  induction keys with
  | nil => rfl
  | cons key rest ih =>
    obtain ⟨v, rfl, hv⟩ := h key (List.mem_cons_self _ _)
    simp [releaseKeyIn, hv, ih (fun k hk => h k (List.mem_cons_of_mem _ hk))]

theorem pressKeyIn_first (cb : Option Callback) (id : String) (keys : List (Option Key))
    (hkeys : KeysPresent keys) (i : Nat) (k : Key) (h : FirstWithID keys id i k) :
    pressKeyIn cb id keys =
      (keys.set i (some { k with State := KeyState.KeyStatePressed }),
        Run.ret (match cb with
          | some c => [{ callback := c, key := { k with State := KeyState.KeyStatePressed } }]
          | none => [])) := by
  induction keys generalizing i with
  | nil => simp [FirstWithID] at h
  | cons key rest ih =>
    obtain ⟨hk, hid, hfirst⟩ := h
    obtain ⟨v, rfl⟩ := hkeys key (List.mem_cons_self _ _)
    cases i with
    | zero =>
      simp only [List.getElem?_cons_zero, Option.some.injEq] at hk
      subst hk
      simp [pressKeyIn, hid]
    | succ i =>
      have hv : v.ID ≠ id := hfirst 0 (by omega) v (by simp)
      have hrec := ih (fun k hk => hkeys k (List.mem_cons_of_mem _ hk)) i
        ⟨by simpa using hk, hid, fun j hj kj hkj => hfirst (j + 1) (by omega) kj (by simpa using hkj)⟩
      simp [pressKeyIn, hv, hrec]

theorem releaseKeyIn_first (id : String) (keys : List (Option Key))
    (hkeys : KeysPresent keys) (i : Nat) (k : Key) (h : FirstWithID keys id i k) :
    releaseKeyIn id keys =
      (keys.set i (some { k with State := KeyState.KeyStateReleased }), Run.ret ()) := by
  induction keys generalizing i with
  | nil => simp [FirstWithID] at h
  | cons key rest ih =>
    obtain ⟨hk, hid, hfirst⟩ := h
    obtain ⟨v, rfl⟩ := hkeys key (List.mem_cons_self _ _)
    cases i with
    | zero =>
      simp only [List.getElem?_cons_zero, Option.some.injEq] at hk
      subst hk
      simp [releaseKeyIn, hid]
    | succ i =>
      have hv : v.ID ≠ id := hfirst 0 (by omega) v (by simp)
      have hrec := ih (fun k hk => hkeys k (List.mem_cons_of_mem _ hk)) i
        ⟨by simpa using hk, hid, fun j hj kj hkj => hfirst (j + 1) (by omega) kj (by simpa using hkj)⟩
      simp [releaseKeyIn, hv, hrec]

theorem exists_firstWithID (keys : List (Option Key)) (hkeys : KeysPresent keys) (id : String)
    (h : ∃ k, some k ∈ keys ∧ k.ID = id) : ∃ i k, FirstWithID keys id i k := by
  induction keys with
  | nil => obtain ⟨k, hk, _⟩ := h; cases hk
  | cons key rest ih =>
    obtain ⟨v, rfl⟩ := hkeys key (List.mem_cons_self _ _)
    by_cases hv : v.ID = id
    · exact ⟨0, v, by simp, hv, fun j hj => by omega⟩
    · obtain ⟨k, hk, hid⟩ := h
      rw [List.mem_cons] at hk
      rcases hk with hk | hk
      · cases hk; exact absurd hid hv
      · obtain ⟨i, k2, h1, h2, h3⟩ :=
          ih (fun k hk => hkeys k (List.mem_cons_of_mem _ hk)) ⟨k, hk, hid⟩
        refine ⟨i + 1, k2, by simpa using h1, h2, ?_⟩
        intro j hj kj hkj
        cases j with
        | zero =>
          simp only [List.getElem?_cons_zero, Option.some.injEq] at hkj
          subst hkj; exact hv
        | succ j => exact h3 j (by omega) kj (by simpa using hkj)

theorem no_match_of_not_exists (keys : List (Option Key)) (hkeys : KeysPresent keys)
    (id : String) (h : ¬ ∃ k, some k ∈ keys ∧ k.ID = id) :
    ∀ key ∈ keys, ∃ v, key = some v ∧ v.ID ≠ id := by
  intro key hkey
  obtain ⟨v, rfl⟩ := hkeys key hkey
  exact ⟨v, rfl, fun hv => h ⟨v, hkey, hv⟩⟩

theorem pressKey_first (kb : Keyboard) (layout : Layout) (id : String)
    (hlayout : kb.layout = some layout) (hkeys : KeysPresent layout.Keys) (i : Nat) (k : Key)
    (h : FirstWithID layout.Keys id i k) :
    kb.PressKey id =
      { kb := { kb with
                keyStates := mapSet kb.keyStates id KeyState.KeyStatePressed,
                layout := some { layout with
                  Keys := layout.Keys.set i (some { k with State := KeyState.KeyStatePressed }) } },
        result := Run.ret none,
        calls := match kb.callbacks id with
          | some c => [{ callback := c, key := { k with State := KeyState.KeyStatePressed } }]
          | none => [] } := by
  simp only [Keyboard.PressKey, hlayout, pressKeyIn_first _ id layout.Keys hkeys i k h]

theorem pressKey_no_match (kb : Keyboard) (layout : Layout) (id : String)
    (hlayout : kb.layout = some layout) (hkeys : KeysPresent layout.Keys)
    (h : ¬ ∃ k, some k ∈ layout.Keys ∧ k.ID = id) :
    kb.PressKey id =
      { kb := { kb with
                keyStates := mapSet kb.keyStates id KeyState.KeyStatePressed,
                layout := some layout },
        result := Run.ret none, calls := [] } := by
  simp only [Keyboard.PressKey, hlayout,
    pressKeyIn_no_match _ id layout.Keys (no_match_of_not_exists _ hkeys id h)]

theorem releaseKey_first (kb : Keyboard) (layout : Layout) (id : String)
    (hlayout : kb.layout = some layout) (hkeys : KeysPresent layout.Keys) (i : Nat) (k : Key)
    (h : FirstWithID layout.Keys id i k) :
    kb.ReleaseKey id =
      { kb := { kb with
                keyStates := mapSet kb.keyStates id KeyState.KeyStateReleased,
                layout := some { layout with
                  Keys := layout.Keys.set i (some { k with State := KeyState.KeyStateReleased }) } },
        result := Run.ret none, calls := [] } := by
  simp only [Keyboard.ReleaseKey, hlayout, releaseKeyIn_first id layout.Keys hkeys i k h]

theorem releaseKey_no_match (kb : Keyboard) (layout : Layout) (id : String)
    (hlayout : kb.layout = some layout) (hkeys : KeysPresent layout.Keys)
    (h : ¬ ∃ k, some k ∈ layout.Keys ∧ k.ID = id) :
    kb.ReleaseKey id =
      { kb := { kb with
                keyStates := mapSet kb.keyStates id KeyState.KeyStateReleased,
                layout := some layout },
        result := Run.ret none, calls := [] } := by
  simp only [Keyboard.ReleaseKey, hlayout,
    releaseKeyIn_no_match id layout.Keys (no_match_of_not_exists _ hkeys id h)]


theorem getKeyState_mapSet_same (kb : Keyboard) (layout : Option Layout) (id : String)
    (v : KeyState) :
    Keyboard.GetKeyState { kb with keyStates := mapSet kb.keyStates id v, layout := layout } id
      = v := by
  simp [Keyboard.GetKeyState, mapSet]

/-- C7 (counterexample): the layout with two keys of id "a" is accepted by
ValidateLayout; after PressKey("a") GetKeyState("a") is pressed and the first key is
pressed, but the second key with id "a" still has State released. -/
theorem pressKey_duplicate_id_counterexample :
    theParser.ValidateLayout duplicateIdLayout = Run.ret none ∧
    (duplicateIdKeyboard.PressKey "a").kb.GetKeyState "a" = KeyState.KeyStatePressed ∧
    (duplicateIdKeyboard.PressKey "a").kb.layout = some
      { Name := "dup", Width := 100, Height := 50,
        Keys := [some { ID := "a", Label := "A", Code := 30, X := 0, Y := 0, Width := 50,
                        Height := 50, State := KeyState.KeyStatePressed },
                 some { ID := "a", Label := "B", Code := 48, X := 50, Y := 0, Width := 50,
                        Height := 50, State := KeyState.KeyStateReleased }] } := by
  refine ⟨by decide, by decide, by decide⟩

/-- C7 (amended): for a keyboard whose active layout was accepted by ValidateLayout and
an id present in it, PressKey(id) (respectively ReleaseKey(id)) sets GetKeyState(id) to
pressed (released) and gives the same State to the first key in list order whose ID is
id, leaving every other key of the layout as it was; so the two views agree on that
first key, and on every key with that ID when no other key shares the id
(ValidateLayout does not reject duplicate ids). -/
theorem press_release_views_agree (p : LayoutParser) (kb : Keyboard) (layout : Layout)
    (id : String) (hlayout : kb.layout = some layout)
    (hvalid : p.ValidateLayout layout = Run.ret none)
    (hid : ∃ k, some k ∈ layout.Keys ∧ k.ID = id) :
    ∃ i k, FirstWithID layout.Keys id i k ∧
      (kb.PressKey id).kb.GetKeyState id = KeyState.KeyStatePressed ∧
      (kb.PressKey id).kb.layout = some { layout with
        Keys := layout.Keys.set i (some { k with State := KeyState.KeyStatePressed }) } ∧
      (kb.ReleaseKey id).kb.GetKeyState id = KeyState.KeyStateReleased ∧
      (kb.ReleaseKey id).kb.layout = some { layout with
        Keys := layout.Keys.set i (some { k with State := KeyState.KeyStateReleased }) } ∧
      ((∀ (j : Nat) (kj : Key), layout.Keys[j]? = some (some kj) → kj.ID = id → j = i) →
        (∀ l2 k2, (kb.PressKey id).kb.layout = some l2 → some k2 ∈ l2.Keys → k2.ID = id →
          k2.State = (kb.PressKey id).kb.GetKeyState id) ∧
        (∀ l2 k2, (kb.ReleaseKey id).kb.layout = some l2 → some k2 ∈ l2.Keys → k2.ID = id →
          k2.State = (kb.ReleaseKey id).kb.GetKeyState id)) := by
  have hkeys : KeysPresent layout.Keys := validated_keys_present p layout hvalid
  obtain ⟨i, k, hfirst⟩ := exists_firstWithID layout.Keys hkeys id hid
  have hp := pressKey_first kb layout id hlayout hkeys i k hfirst
  have hr := releaseKey_first kb layout id hlayout hkeys i k hfirst
  have hg1 : (kb.PressKey id).kb.GetKeyState id = KeyState.KeyStatePressed := by
    rw [hp]; exact getKeyState_mapSet_same kb _ id _
  have hg2 : (kb.ReleaseKey id).kb.GetKeyState id = KeyState.KeyStateReleased := by
    rw [hr]; exact getKeyState_mapSet_same kb _ id _
  have hi : i < layout.Keys.length := (List.getElem?_eq_some.mp hfirst.1).1
  have hunique : ∀ (v : KeyState),
      (∀ (j : Nat) (kj : Key), layout.Keys[j]? = some (some kj) → kj.ID = id → j = i) →
      ∀ k2, some k2 ∈ layout.Keys.set i (some { k with State := v }) → k2.ID = id →
        k2.State = v := by
    intro v huniq k2 hk2 hid2
    obtain ⟨j, hj, hjk⟩ := List.getElem_of_mem hk2
    rw [List.length_set] at hj
    by_cases hji : j = i
    · subst hji
      rw [List.getElem_set_self] at hjk
      cases hjk; rfl
    · rw [List.getElem_set_ne (Ne.symm hji)] at hjk
      exact absurd (huniq j k2 (by rw [List.getElem?_eq_getElem hj, hjk]) hid2) hji
  refine ⟨i, k, hfirst, hg1, by rw [hp], hg2, by rw [hr], ?_⟩
  intro huniq
  constructor
  · intro l2 k2 hl2 hk2 hid2
    rw [hg1]
    rw [hp] at hl2
    simp only [Option.some.injEq] at hl2
    subst hl2
    exact hunique _ huniq k2 hk2 hid2
  · intro l2 k2 hl2 hk2 hid2
    rw [hg2]
    rw [hr] at hl2
    simp only [Option.some.injEq] at hl2
    subst hl2
    exact hunique _ huniq k2 hk2 hid2

/-- C7 (witness): the amended statement applied to the two-key keyboard and the id
"b". -/
theorem press_release_views_agree_witness :
    ∃ i k, FirstWithID twoKeyLayout.Keys "b" i k ∧
      (twoKeyKeyboard.PressKey "b").kb.GetKeyState "b" = KeyState.KeyStatePressed ∧
      (twoKeyKeyboard.PressKey "b").kb.layout = some { twoKeyLayout with
        Keys := twoKeyLayout.Keys.set i (some { k with State := KeyState.KeyStatePressed }) } ∧
      (twoKeyKeyboard.ReleaseKey "b").kb.GetKeyState "b" = KeyState.KeyStateReleased ∧
      (twoKeyKeyboard.ReleaseKey "b").kb.layout = some { twoKeyLayout with
        Keys := twoKeyLayout.Keys.set i (some { k with State := KeyState.KeyStateReleased }) } ∧
      ((∀ (j : Nat) (kj : Key), twoKeyLayout.Keys[j]? = some (some kj) → kj.ID = "b" → j = i) →
        (∀ l2 k2, (twoKeyKeyboard.PressKey "b").kb.layout = some l2 → some k2 ∈ l2.Keys →
          k2.ID = "b" → k2.State = (twoKeyKeyboard.PressKey "b").kb.GetKeyState "b") ∧
        (∀ l2 k2, (twoKeyKeyboard.ReleaseKey "b").kb.layout = some l2 → some k2 ∈ l2.Keys →
          k2.ID = "b" → k2.State = (twoKeyKeyboard.ReleaseKey "b").kb.GetKeyState "b")) :=
  press_release_views_agree theParser twoKeyKeyboard twoKeyLayout "b" rfl (by decide)
    ⟨{ ID := "b", Label := "B", Code := 48, X := 50, Y := 0, Width := 50, Height := 50 },
      by decide, rfl⟩


/-- C8: PressKey(id) invokes a callback exactly once if and only if the active layout
contains a key with that id and a callback is registered for id; the callback invoked
is the one most recently registered for id and it receives the layout key, already in
state pressed.  For an id not in the layout, or with no registered callback, PressKey
invokes nothing; ReleaseKey never invokes a callback. -/
theorem pressKey_callback (kb : Keyboard) (layout : Layout) (id : String)
    (hlayout : kb.layout = some layout) (hkeys : KeysPresent layout.Keys) :
    ((kb.PressKey id).calls.length = 1 ↔
      (∃ k, some k ∈ layout.Keys ∧ k.ID = id) ∧ ∃ cb, kb.callbacks id = some cb) ∧
    (∀ cb i k, kb.callbacks id = some cb → FirstWithID layout.Keys id i k →
      (kb.PressKey id).calls =
        [{ callback := cb, key := { k with State := KeyState.KeyStatePressed } }] ∧
      ∃ l2, (kb.PressKey id).kb.layout = some l2 ∧
        l2.Keys[i]? = some (some { k with State := KeyState.KeyStatePressed })) ∧
    ((¬ ∃ k, some k ∈ layout.Keys ∧ k.ID = id) ∨ kb.callbacks id = none →
      (kb.PressKey id).calls = []) ∧
    (kb.ReleaseKey id).calls = [] ∧
    (∀ f g, ((kb.RegisterCallback id f).RegisterCallback id g).callbacks id = some g) ∧
    (∀ id2 f, id2 ≠ id → (kb.RegisterCallback id2 f).callbacks id = kb.callbacks id) := by
  have hnone : (¬ ∃ k, some k ∈ layout.Keys ∧ k.ID = id) ∨ kb.callbacks id = none →
      (kb.PressKey id).calls = [] := by
    intro h
    by_cases hex : ∃ k, some k ∈ layout.Keys ∧ k.ID = id
    · obtain ⟨i, k, hfirst⟩ := exists_firstWithID layout.Keys hkeys id hex
      rcases h with h | h
      · exact absurd hex h
      · rw [pressKey_first kb layout id hlayout hkeys i k hfirst]
        simp only [h]
    · rw [pressKey_no_match kb layout id hlayout hkeys hex]
  have hsome : ∀ cb i k, kb.callbacks id = some cb → FirstWithID layout.Keys id i k →
      (kb.PressKey id).calls =
        [{ callback := cb, key := { k with State := KeyState.KeyStatePressed } }] ∧
      ∃ l2, (kb.PressKey id).kb.layout = some l2 ∧
        l2.Keys[i]? = some (some { k with State := KeyState.KeyStatePressed }) := by
    intro cb i k hcb hfirst
    rw [pressKey_first kb layout id hlayout hkeys i k hfirst]
    refine ⟨by simp only [hcb], _, rfl, ?_⟩
    have hi : i < layout.Keys.length := (List.getElem?_eq_some.mp hfirst.1).1
    simp [List.getElem?_set_self hi]
  refine ⟨?_, hsome, hnone, ?_, ?_, ?_⟩
  · constructor
    · intro hlen
      by_contra hcon
      have : (kb.PressKey id).calls = [] := by
        apply hnone
        by_cases hex : ∃ k, some k ∈ layout.Keys ∧ k.ID = id
        · right
          cases hcb : kb.callbacks id with
          | none => rfl
          | some cb => exact absurd ⟨hex, cb, hcb⟩ hcon
        · left; exact hex
      rw [this] at hlen
      cases hlen
    · rintro ⟨hex, cb, hcb⟩
      obtain ⟨i, k, hfirst⟩ := exists_firstWithID layout.Keys hkeys id hex
      rw [(hsome cb i k hcb hfirst).1]
      rfl
  · by_cases hex : ∃ k, some k ∈ layout.Keys ∧ k.ID = id
    · obtain ⟨i, k, hfirst⟩ := exists_firstWithID layout.Keys hkeys id hex
      rw [releaseKey_first kb layout id hlayout hkeys i k hfirst]
    · rw [releaseKey_no_match kb layout id hlayout hkeys hex]
  · intro f g
    simp [Keyboard.RegisterCallback, mapSet]
  · intro id2 f hne
    simp [Keyboard.RegisterCallback, mapSet, Ne.symm hne]

/-- C8 (witness): on the two-key keyboard with callback 7 registered for "b",
PressKey("b") invokes callback 7 once on the pressed key "b", PressKey("a") and
ReleaseKey("b") invoke nothing. -/
theorem pressKey_callback_witness :
    ((callbackKeyboard.PressKey "b").calls =
        [{ callback := { tag := 7 },
           key := { ID := "b", Label := "B", Code := 48, X := 50, Y := 0, Width := 50,
                    Height := 50, State := KeyState.KeyStatePressed } }] ∧
      ∃ l2, (callbackKeyboard.PressKey "b").kb.layout = some l2 ∧
        l2.Keys[1]? = some (some
          { ID := "b", Label := "B", Code := 48, X := 50, Y := 0, Width := 50,
            Height := 50, State := KeyState.KeyStatePressed })) ∧
    (callbackKeyboard.PressKey "a").calls = [] ∧
    (callbackKeyboard.ReleaseKey "b").calls = [] :=
  have hk : KeysPresent twoKeyLayout.Keys := fun key hkey => by
    simp only [twoKeyLayout, List.mem_cons, List.mem_singleton, List.not_mem_nil,
      or_false] at hkey
    rcases hkey with rfl | rfl <;> exact ⟨_, rfl⟩
  ⟨(pressKey_callback callbackKeyboard twoKeyLayout "b" rfl hk).2.1 { tag := 7 } 1
      { ID := "b", Label := "B", Code := 48, X := 50, Y := 0, Width := 50, Height := 50 }
      rfl
      ⟨rfl, rfl, fun j hj kj hkj => by
        have hj0 : j = 0 := by omega
        subst hj0
        simp only [twoKeyLayout, List.getElem?_cons_zero, Option.some.injEq] at hkj
        subst hkj
        decide⟩,
    (pressKey_callback callbackKeyboard twoKeyLayout "a" rfl hk).2.2.1 (Or.inr rfl),
    (pressKey_callback callbackKeyboard twoKeyLayout "b" rfl hk).2.2.2.1⟩


theorem keysPresent_set (keys : List (Option Key)) (hkeys : KeysPresent keys) (i : Nat)
    (k : Key) : KeysPresent (keys.set i (some k)) := by
  intro key hkey
  rcases List.mem_or_eq_of_mem_set hkey with h | h
  · exact hkeys key h
  · exact ⟨k, h⟩

theorem applyOp_spec (kb : Keyboard) (layout : Layout) (hlayout : kb.layout = some layout)
    (hkeys : KeysPresent layout.Keys) (op : KeyOp) :
    (kb.applyOp op).result = Run.ret none ∧
    (∃ l2, (kb.applyOp op).kb.layout = some l2 ∧ KeysPresent l2.Keys) ∧
    (kb.applyOp op).kb.keyStates = mapSet kb.keyStates op.keyID
      (match op with
        | KeyOp.press _ => KeyState.KeyStatePressed
        | KeyOp.release _ => KeyState.KeyStateReleased) ∧
    (kb.applyOp op).kb.callbacks = kb.callbacks ∧ (kb.applyOp op).kb.theme = kb.theme := by
  cases op with
  | press id =>
    simp only [Keyboard.applyOp, KeyOp.keyID]
    by_cases hex : ∃ k, some k ∈ layout.Keys ∧ k.ID = id
    · obtain ⟨i, k, hfirst⟩ := exists_firstWithID layout.Keys hkeys id hex
      rw [pressKey_first kb layout id hlayout hkeys i k hfirst]
      exact ⟨rfl, ⟨_, rfl, keysPresent_set _ hkeys i _⟩, rfl, rfl, rfl⟩
    · rw [pressKey_no_match kb layout id hlayout hkeys hex]
      exact ⟨rfl, ⟨_, rfl, hkeys⟩, rfl, rfl, rfl⟩
  | release id =>
    simp only [Keyboard.applyOp, KeyOp.keyID]
    by_cases hex : ∃ k, some k ∈ layout.Keys ∧ k.ID = id
    · obtain ⟨i, k, hfirst⟩ := exists_firstWithID layout.Keys hkeys id hex
      rw [releaseKey_first kb layout id hlayout hkeys i k hfirst]
      exact ⟨rfl, ⟨_, rfl, keysPresent_set _ hkeys i _⟩, rfl, rfl, rfl⟩
    · rw [releaseKey_no_match kb layout id hlayout hkeys hex]
      exact ⟨rfl, ⟨_, rfl, hkeys⟩, rfl, rfl, rfl⟩

theorem runOps_spec (id : String) (ops : List KeyOp) :
    ∀ (kb : Keyboard) (layout : Layout), kb.layout = some layout → KeysPresent layout.Keys →
      (kb.runOps ops).2 = ops.map (fun _ => Run.ret none) ∧
      (kb.runOps ops).1.keyStates id =
        (match lastNaming id ops with
          | some (KeyOp.press _) => some KeyState.KeyStatePressed
          | some (KeyOp.release _) => some KeyState.KeyStateReleased
          | none => kb.keyStates id) := by
  induction ops with
  | nil => intro kb layout _ _; exact ⟨rfl, rfl⟩
  | cons op rest ih =>
    intro kb layout hlayout hkeys
    obtain ⟨hres, ⟨l2, hl2, hk2⟩, hstates, _, _⟩ := applyOp_spec kb layout hlayout hkeys op
    obtain ⟨ih1, ih2⟩ := ih (kb.applyOp op).kb l2 hl2 hk2
    refine ⟨by simp [Keyboard.runOps, hres, ih1], ?_⟩
    simp only [Keyboard.runOps, lastNaming, ih2]
    cases hlast : lastNaming id rest with
    | some later => cases later <;> rfl
    | none =>
      simp only [hstates]
      by_cases hop : op.keyID = id
      · simp only [hop, if_true, mapSet]
        cases op <;> rfl
      · have hne : ¬ id = op.keyID := fun h => hop h.symm
        simp [hop, mapSet, hne]

theorem new_spec (env : Env) (kb : Keyboard) (h : New env = Run.ret (Except.ok kb)) :
    kb.keyStates = (fun _ => none) ∧ kb.callbacks = (fun _ => none) ∧
    (∃ layout, kb.layout = some layout ∧
      (NewLayoutParser "assets/layouts").ValidateLayout layout = Run.ret none) ∧
    ∃ theme, kb.theme = some theme := by
  unfold New at h
  dsimp only at h
  rcases loadLayout_spec env
    { layout := none, theme := none, keyStates := fun _ => none, callbacks := fun _ => none }
    "qwerty" with ⟨h2, layout, h1, hv, _⟩ | ⟨h2, h1⟩
  · generalize Keyboard.LoadLayout env
      { layout := none, theme := none, keyStates := fun _ => none, callbacks := fun _ => none }
      "qwerty" = r at h h1 h2
    obtain ⟨r1, r2⟩ := r
    simp only at h1 h2
    subst h1 h2
    simp only [Keyboard.LoadTheme, Run.ret.injEq, Except.ok.injEq] at h
    subst h
    exact ⟨rfl, rfl, ⟨layout, rfl, hv⟩, _, rfl⟩
  · generalize Keyboard.LoadLayout env
      { layout := none, theme := none, keyStates := fun _ => none, callbacks := fun _ => none }
      "qwerty" = r at h h1 h2
    obtain ⟨r1, r2⟩ := r
    simp only at h1 h2
    cases r2 with
    | panic => simp at h
    | ret e =>
      cases e with
      | none => exact absurd rfl h2
      | some e => simp at h

theorem pressKey_keyStates (kb : Keyboard) (id : String) :
    (kb.PressKey id).kb.keyStates = mapSet kb.keyStates id KeyState.KeyStatePressed := by
  unfold Keyboard.PressKey
  dsimp only
  split
  · rfl
  · split <;> rfl

theorem releaseKey_keyStates (kb : Keyboard) (id : String) :
    (kb.ReleaseKey id).kb.keyStates = mapSet kb.keyStates id KeyState.KeyStateReleased := by
  unfold Keyboard.ReleaseKey
  dsimp only
  split
  · rfl
  · split <;> rfl

/-- C6: for a keyboard created by New, every finite sequence of PressKey/ReleaseKey
calls and every key id, present in the active layout or not: each call returns no
error, and afterwards GetKeyState(id) is pressed if the last call naming id was PressKey
and released otherwise, also when id was never pressed.  In particular PressKey(id)
alone gives pressed, PressKey(id) then ReleaseKey(id) gives released, and a call on
another id never changes the state of id. -/
theorem press_release_sequence (env : Env) (kb : Keyboard)
    (hnew : New env = Run.ret (Except.ok kb)) (ops : List KeyOp) (id : String) :
    (kb.runOps ops).2 = ops.map (fun _ => Run.ret none) ∧
    (kb.runOps ops).1.GetKeyState id =
      (match lastNaming id ops with
        | some (KeyOp.press _) => KeyState.KeyStatePressed
        | _ => KeyState.KeyStateReleased) ∧
    (kb.PressKey id).kb.GetKeyState id = KeyState.KeyStatePressed ∧
    ((kb.PressKey id).kb.ReleaseKey id).kb.GetKeyState id = KeyState.KeyStateReleased ∧
    (∀ (kb2 : Keyboard) (op : KeyOp), op.keyID ≠ id →
      (kb2.applyOp op).kb.GetKeyState id = kb2.GetKeyState id) := by
  obtain ⟨hstates, _, ⟨layout, hlayout, hvalid⟩, _⟩ := new_spec env kb hnew
  have hkeys : KeysPresent layout.Keys := validated_keys_present _ layout hvalid
  obtain ⟨h1, h2⟩ := runOps_spec id ops kb layout hlayout hkeys
  refine ⟨h1, ?_, ?_, ?_, ?_⟩
  · simp only [Keyboard.GetKeyState, h2, hstates]
    cases hlast : lastNaming id ops with
    | none => rfl
    | some op => cases op <;> rfl
  · have := (runOps_spec id [KeyOp.press id] kb layout hlayout hkeys).2
    simp only [Keyboard.runOps, Keyboard.applyOp, lastNaming, KeyOp.keyID, if_true] at this
    simp only [Keyboard.GetKeyState, this]
  · have := (runOps_spec id [KeyOp.press id, KeyOp.release id] kb layout hlayout hkeys).2
    simp only [Keyboard.runOps, Keyboard.applyOp, lastNaming, KeyOp.keyID, if_true] at this
    simp only [Keyboard.GetKeyState, this]
  · intro kb2 op hne
    have hne2 : ¬ id = op.keyID := fun h => hne h.symm
    cases op with
    | press id2 =>
      simp only [KeyOp.keyID] at hne2
      simp [Keyboard.applyOp, Keyboard.GetKeyState, pressKey_keyStates, mapSet, hne2]
    | release id2 =>
      simp only [KeyOp.keyID] at hne2
      simp [Keyboard.applyOp, Keyboard.GetKeyState, releaseKey_keyStates, mapSet, hne2]

/-- C6 (witness): with no layout or theme file, New returns the default keyboard; after
press "a", press "nokey", release "a", press "space" every call has returned no error
and the state of "nokey", which is not in the layout, is pressed. -/
theorem press_release_sequence_witness :
    New emptyEnv = Run.ret (Except.ok defaultKeyboard) ∧
    (defaultKeyboard.runOps
        [KeyOp.press "a", KeyOp.press "nokey", KeyOp.release "a", KeyOp.press "space"]).2 =
      [Run.ret none, Run.ret none, Run.ret none, Run.ret none] ∧
    (defaultKeyboard.runOps
        [KeyOp.press "a", KeyOp.press "nokey", KeyOp.release "a",
          KeyOp.press "space"]).1.GetKeyState "nokey" = KeyState.KeyStatePressed :=
  have hnew : New emptyEnv = Run.ret (Except.ok defaultKeyboard) := by
    simp only [New, Keyboard.LoadLayout, Keyboard.LoadTheme]
    rfl
  ⟨hnew,
   (press_release_sequence emptyEnv defaultKeyboard hnew
      [KeyOp.press "a", KeyOp.press "nokey", KeyOp.release "a", KeyOp.press "space"]
      "nokey").1,
   (press_release_sequence emptyEnv defaultKeyboard hnew
      [KeyOp.press "a", KeyOp.press "nokey", KeyOp.release "a", KeyOp.press "space"]
      "nokey").2.1⟩


/-! ## The built-in layout -/

set_option maxRecDepth 100000 in
/-- C11: the built-in default layout (name "qwerty", width 900, height 400, the 30
keys of createQWERTYLayout) is accepted by ValidateLayout, its key ids are distinct,
every key has x >= 0, y >= 0, x+width <= 900 and y+height <= 400, and no two keys
overlap; hence LoadLayout("qwerty") succeeds and installs it whenever the qwerty layout
file does not exist. -/
theorem builtin_qwerty_valid :
    theParser.ValidateLayout builtinQwerty = Run.ret none ∧
    createQWERTYLayout.length = 30 ∧
    (createQWERTYLayout.map (fun key => key.map (fun k => k.ID))).Nodup ∧
    (∀ key ∈ createQWERTYLayout, KeyInside 900 400 key ∧ InBounds builtinQwerty key) ∧
    NoOverlap createQWERTYLayout ∧
    (∀ (env : Env) (kb : Keyboard),
      env.stat (env.join "assets/layouts" ("qwerty" ++ ".json")) = StatResult.notExist →
      Keyboard.LoadLayout env kb "qwerty" =
        ({ kb with layout := some builtinQwerty }, Run.ret none)) := by
  have hvalid : theParser.ValidateLayout builtinQwerty = Run.ret none := by decide
  refine ⟨hvalid, by decide, by decide, by decide, ?_, ?_⟩
  · rw [noOverlap_iff_pairwise]
    decide
  · intro env kb hstat
    have hparse : (NewLayoutParser "assets/layouts").ParseLayout env ("qwerty" ++ ".json") =
        Except.error (ParseError.notExist (env.join "assets/layouts" ("qwerty" ++ ".json"))) := by
      simp only [LayoutParser.ParseLayout, NewLayoutParser, hstat, if_true]
    have hvalid2 : (NewLayoutParser "assets/layouts").ValidateLayout
        { Name := "qwerty", Width := 900, Height := 400, Keys := createQWERTYLayout } =
        Run.ret none := hvalid
    simp only [Keyboard.LoadLayout, hparse, if_true, hvalid2]
    rfl

/-- C11 (witness): with no file at all, LoadLayout("qwerty") on the two-key keyboard
installs the built-in layout and returns no error. -/
theorem builtin_qwerty_valid_witness :
    Keyboard.LoadLayout emptyEnv twoKeyKeyboard "qwerty" =
      ({ twoKeyKeyboard with layout := some builtinQwerty }, Run.ret none) :=
  builtin_qwerty_valid.2.2.2.2.2 emptyEnv twoKeyKeyboard rfl

/-! ## Theme loading -/

theorem loadThemeFromDirs_error (env : Env) (name : String) (dirs : List String)
    (h : ∀ dir ∈ dirs, ThemeFileFails env name dir) :
    loadThemeFromDirs env name dirs = Except.error (KbError.themeNotFound name) := by
  induction dirs with
  | nil => rfl
  | cons dir rest ih =>
    have ihr := ih (fun d hd => h d (List.mem_cons_of_mem _ hd))
    rcases h dir (List.mem_cons_self _ _) with h1 | h1 | ⟨data, h1, h2⟩
    · simp only [loadThemeFromDirs, h1, if_false, ihr]
    · by_cases hs : env.stat (env.join dir (name ++ ".json")) = StatResult.ok
      · simp only [loadThemeFromDirs, hs, if_true, h1, ihr]
      · simp only [loadThemeFromDirs, hs, if_false, ihr]
    · by_cases hs : env.stat (env.join dir (name ++ ".json")) = StatResult.ok
      · simp only [loadThemeFromDirs, hs, if_true, h1, h2, ihr]
      · simp only [loadThemeFromDirs, hs, if_false, ihr]

theorem loadThemeFromDirs_ok (env : Env) (name : String) (dirs : List String) (theme : Theme)
    (h : loadThemeFromDirs env name dirs = Except.ok theme) :
    ∃ dir ∈ dirs, ThemeFileLoads env name dir theme := by
  induction dirs with
  | nil => cases h
  | cons dir rest ih =>
    simp only [loadThemeFromDirs] at h
    by_cases hs : env.stat (env.join dir (name ++ ".json")) = StatResult.ok
    · simp only [hs, if_true] at h
      cases hr : env.readFile (env.join dir (name ++ ".json")) with
      | none =>
        simp only [hr] at h
        obtain ⟨d, hd, hl⟩ := ih h
        exact ⟨d, List.mem_cons_of_mem _ hd, hl⟩
      | some data =>
        simp only [hr] at h
        cases hu : env.unmarshalTheme data with
        | none =>
          simp only [hu] at h
          obtain ⟨d, hd, hl⟩ := ih h
          exact ⟨d, List.mem_cons_of_mem _ hd, hl⟩
        | some t =>
          simp only [hu, Except.ok.injEq] at h
          subst h
          exact ⟨dir, List.mem_cons_self _ _, hs, data, hr, hu⟩
    · simp only [hs, if_false] at h
      obtain ⟨d, hd, hl⟩ := ih h
      exact ⟨d, List.mem_cons_of_mem _ hd, hl⟩

/-- C12: LoadTheme never fails the caller: for every name and every storage content it
returns no error and leaves an active theme; whenever the theme file cannot be loaded
(absent, unreadable or malformed) in every searched directory, the active theme is the
fixed default theme (font size 16, border radius 4, the four default colours) carrying
the requested name.  Layout, key states and callbacks are not touched. -/
theorem loadTheme_never_fails (env : Env) (kb : Keyboard) (name : String) :
    (Keyboard.LoadTheme env kb name).2 = Run.ret none ∧
    (∃ theme, (Keyboard.LoadTheme env kb name).1.theme = some theme) ∧
    ((∀ dir ∈ ["assets/themes", "themes", "../assets/themes"], ThemeFileFails env name dir) →
      (Keyboard.LoadTheme env kb name).1.theme = some
        { Name := name,
          BackgroundColor := (0x3E4CCCCD, 0x3E4CCCCD, 0x3E4CCCCD, 0x3F800000),
          KeyColor := (0x3F4CCCCD, 0x3F4CCCCD, 0x3F4CCCCD, 0x3F800000),
          KeyPressedColor := (0x3F19999A, 0x3F19999A, 0x3F19999A, 0x3F800000),
          TextColor := (0, 0, 0, 0x3F800000),
          FontSize := 16,
          BorderRadius := 4 }) ∧
    (Keyboard.LoadTheme env kb name).1.layout = kb.layout ∧
    (Keyboard.LoadTheme env kb name).1.keyStates = kb.keyStates ∧
    (Keyboard.LoadTheme env kb name).1.callbacks = kb.callbacks := by
  refine ⟨rfl, ⟨_, rfl⟩, ?_, rfl, rfl, rfl⟩
  intro h
  simp only [Keyboard.LoadTheme, loadThemeFromFile, themeDirs,
    loadThemeFromDirs_error env name _ h]
  rfl

/-- C12 (witness): with no theme file at all, LoadTheme("glass") installs the default
theme named "glass". -/
theorem loadTheme_never_fails_witness :
    (Keyboard.LoadTheme emptyEnv twoKeyKeyboard "glass").1.theme = some
      { Name := "glass",
        BackgroundColor := (0x3E4CCCCD, 0x3E4CCCCD, 0x3E4CCCCD, 0x3F800000),
        KeyColor := (0x3F4CCCCD, 0x3F4CCCCD, 0x3F4CCCCD, 0x3F800000),
        KeyPressedColor := (0x3F19999A, 0x3F19999A, 0x3F19999A, 0x3F800000),
        TextColor := (0, 0, 0, 0x3F800000),
        FontSize := 16,
        BorderRadius := 4 } :=
  (loadTheme_never_fails emptyEnv twoKeyKeyboard "glass").2.2.1
    (fun _ _ => Or.inl (by simp [emptyEnv]))

/-- C13 (counterexample): when the theme file decodes to a theme with font size -1,
LoadTheme accepts it: the active theme after the call has font size -1. -/
theorem loadTheme_negative_font_counterexample :
    (Keyboard.LoadTheme negativeFontEnv twoKeyKeyboard "neg").2 = Run.ret none ∧
    (Keyboard.LoadTheme negativeFontEnv twoKeyKeyboard "neg").1.theme = some negativeFontTheme ∧
    negativeFontTheme.FontSize = -1 := by
  refine ⟨rfl, by decide, rfl⟩

theorem loadThemeFromDirs_first (env : Env) (name : String) (dirs : List String) (i : Nat)
    (dir : String) (theme : Theme) (hdir : dirs[i]? = some dir)
    (hloads : ThemeFileLoads env name dir theme)
    (hbefore : ∀ j : Nat, j < i → ∀ d, dirs[j]? = some d → ThemeFileFails env name d) :
    loadThemeFromDirs env name dirs = Except.ok theme := by
  induction dirs generalizing i with
  | nil => simp at hdir
  | cons first rest ih =>
    cases i with
    | zero =>
      simp only [List.getElem?_cons_zero, Option.some.injEq] at hdir
      subst hdir
      obtain ⟨hstat, data, hread, hdec⟩ := hloads
      simp only [loadThemeFromDirs, hstat, if_true, hread, hdec]
    | succ i =>
      have hrest := ih i (by simpa using hdir)
        (fun j hj d hd => hbefore (j + 1) (by omega) d (by simpa using hd))
      rcases hbefore 0 (by omega) first (by simp) with h1 | h1 | ⟨data, h1, h2⟩
      · simp only [loadThemeFromDirs, h1, if_false, hrest]
      · by_cases hs : env.stat (env.join first (name ++ ".json")) = StatResult.ok
        · simp only [loadThemeFromDirs, hs, if_true, h1, hrest]
        · simp only [loadThemeFromDirs, hs, if_false, hrest]
      · by_cases hs : env.stat (env.join first (name ++ ".json")) = StatResult.ok
        · simp only [loadThemeFromDirs, hs, if_true, h1, h2, hrest]
        · simp only [loadThemeFromDirs, hs, if_false, hrest]

theorem themeFile_loads_or_fails (env : Env) (name dir : String) :
    (∃ theme, ThemeFileLoads env name dir theme) ∨ ThemeFileFails env name dir := by
  by_cases hs : env.stat (env.join dir (name ++ ".json")) = StatResult.ok
  · cases hr : env.readFile (env.join dir (name ++ ".json")) with
    | none => exact Or.inr (Or.inr (Or.inl hr))
    | some data =>
      cases hu : env.unmarshalTheme data with
      | none => exact Or.inr (Or.inr (Or.inr ⟨data, hr, hu⟩))
      | some theme => exact Or.inl ⟨theme, hs, data, hr, hu⟩
  · exact Or.inr (Or.inl hs)

theorem first_loading_dir_or_none (env : Env) (name : String) (dirs : List String) :
    (∃ (i : Nat) (dir : String) (theme : Theme), dirs[i]? = some dir ∧
      ThemeFileLoads env name dir theme ∧
      ∀ j : Nat, j < i → ∀ d, dirs[j]? = some d → ThemeFileFails env name d) ∨
    (∀ dir ∈ dirs, ThemeFileFails env name dir) := by
  induction dirs with
  | nil => exact Or.inr (fun d hd => by cases hd)
  | cons first rest ih =>
    rcases themeFile_loads_or_fails env name first with ⟨theme, hl⟩ | hf
    · exact Or.inl ⟨0, first, theme, by simp, hl, fun j hj => by omega⟩
    · rcases ih with ⟨i, dir, theme, h1, h2, h3⟩ | hall
      · refine Or.inl ⟨i + 1, dir, theme, by simpa using h1, h2, ?_⟩
        intro j hj d hd
        cases j with
        | zero =>
          simp only [List.getElem?_cons_zero, Option.some.injEq] at hd
          subst hd; exact hf
        | succ j => exact h3 j (by omega) d (by simpa using hd)
      · refine Or.inr ?_
        intro d hd
        rw [List.mem_cons] at hd
        rcases hd with rfl | hd
        · exact hf
        · exact hall d hd

/-- C13 (amended): LoadTheme does not validate a decoded theme.  After LoadTheme the
active theme is the theme decoded from the first searched directory, in the order
"assets/themes", "themes", "../assets/themes", whose file exists, reads and decodes
(every directory before it failing), taken as it is, whatever its font size and border
radius; when the file fails in every directory it is the default theme, whose font
size is 16 > 0 and whose border radius is 4 >= 0.  One of the two cases always holds. -/
theorem loadTheme_accepts_decoded_theme (env : Env) (kb : Keyboard) (name : String) :
    (∀ (i : Nat) (dir : String) (theme : Theme),
      ["assets/themes", "themes", "../assets/themes"][i]? = some dir →
      ThemeFileLoads env name dir theme →
      (∀ j : Nat, j < i → ∀ d, ["assets/themes", "themes", "../assets/themes"][j]? = some d →
        ThemeFileFails env name d) →
      loadThemeFromFile env name = Except.ok theme ∧
      (Keyboard.LoadTheme env kb name).1.theme = some theme) ∧
    ((∀ dir ∈ ["assets/themes", "themes", "../assets/themes"], ThemeFileFails env name dir) →
      ∃ theme, (Keyboard.LoadTheme env kb name).1.theme = some theme ∧
        theme = defaultTheme name ∧ 0 < theme.FontSize ∧ 0 ≤ theme.BorderRadius) ∧
    ((∃ (i : Nat) (dir : String) (theme : Theme),
        ["assets/themes", "themes", "../assets/themes"][i]? = some dir ∧
        ThemeFileLoads env name dir theme ∧
        ∀ j : Nat, j < i → ∀ d, ["assets/themes", "themes", "../assets/themes"][j]? = some d →
          ThemeFileFails env name d) ∨
      (∀ dir ∈ ["assets/themes", "themes", "../assets/themes"], ThemeFileFails env name dir)) := by
  refine ⟨?_, ?_, first_loading_dir_or_none env name _⟩
  · intro i dir theme hdir hloads hbefore
    have h : loadThemeFromFile env name = Except.ok theme :=
      loadThemeFromDirs_first env name _ i dir theme hdir hloads hbefore
    exact ⟨h, by simp only [Keyboard.LoadTheme, h]⟩
  · intro hall
    have h : loadThemeFromFile env name = Except.error (KbError.themeNotFound name) :=
      loadThemeFromDirs_error env name _ hall
    refine ⟨defaultTheme name, by simp only [Keyboard.LoadTheme, h], rfl, ?_, ?_⟩ <;>
      simp [defaultTheme]

/-- C13 (witness): with no file in "assets/themes", a file in "themes" that decodes to
font size -1 and a different file in "../assets/themes" that decodes to the default
theme, LoadTheme installs the theme with font size -1, from the first directory that
loads; with no file at all it installs the default theme. -/
theorem loadTheme_accepts_decoded_theme_witness :
    (loadThemeFromFile secondDirEnv "neg" = Except.ok negativeFontTheme ∧
      (Keyboard.LoadTheme secondDirEnv twoKeyKeyboard "neg").1.theme = some negativeFontTheme) ∧
    (∃ theme, (Keyboard.LoadTheme emptyEnv twoKeyKeyboard "glass").1.theme = some theme ∧
        theme = defaultTheme "glass" ∧ 0 < theme.FontSize ∧ 0 ≤ theme.BorderRadius) :=
  ⟨(loadTheme_accepts_decoded_theme secondDirEnv twoKeyKeyboard "neg").1 1 "themes"
      negativeFontTheme rfl ⟨by decide, "A", by decide, by decide⟩
      (fun j hj d hd => by
        have hj0 : j = 0 := by omega
        subst hj0
        simp only [List.getElem?_cons_zero, Option.some.injEq] at hd
        subst hd
        exact Or.inl (by decide)),
   (loadTheme_accepts_decoded_theme emptyEnv twoKeyKeyboard "glass").2.1
      (fun _ _ => Or.inl (by simp [emptyEnv]))⟩


/-! ## Event dispatcher -/

theorem sendEvent_pending (ed : EventDispatcher) (event : Event) :
    (ed.SendEvent event).eventCh.pending =
      (if ed.eventCh.pending.length < ed.eventCh.capacity then ed.eventCh.pending ++ [event]
       else ed.eventCh.pending) ∧
    (ed.SendEvent event).eventCh.capacity = ed.eventCh.capacity ∧
    (ed.SendEvent event).handlers = ed.handlers := by
  unfold EventDispatcher.SendEvent
  split <;> exact ⟨rfl, rfl, rfl⟩

theorem sendAll_pending (events : List Event) :
    ∀ ed : EventDispatcher,
      (ed.sendAll events).eventCh.pending =
        ed.eventCh.pending ++ events.take (ed.eventCh.capacity - ed.eventCh.pending.length) ∧
      (ed.sendAll events).eventCh.capacity = ed.eventCh.capacity := by
  induction events with
  | nil => intro ed; simp [EventDispatcher.sendAll]
  | cons e rest ih =>
    intro ed
    obtain ⟨h1, h2, _⟩ := sendEvent_pending ed e
    obtain ⟨ih1, ih2⟩ := ih (ed.SendEvent e)
    simp only [EventDispatcher.sendAll, List.foldl_cons] at ih1 ih2 ⊢
    rw [ih1, ih2, h1, h2]
    refine ⟨?_, rfl⟩
    by_cases hlt : ed.eventCh.pending.length < ed.eventCh.capacity
    · simp only [hlt, if_true, List.length_append, List.length_singleton, List.append_assoc,
        List.singleton_append]
      have : ed.eventCh.capacity - ed.eventCh.pending.length =
          (ed.eventCh.capacity - (ed.eventCh.pending.length + 1)) + 1 := by omega
      rw [this, List.take_succ_cons]
    · simp only [hlt, if_false]
      have : ed.eventCh.capacity - ed.eventCh.pending.length = 0 := by omega
      rw [this]
      simp

theorem receiveN_pending (n : Nat) :
    ∀ ed : EventDispatcher,
      (ed.receiveN n).1 = ed.eventCh.pending.take n ∧
      (ed.receiveN n).2.eventCh.pending = ed.eventCh.pending.drop n := by
  induction n with
  | zero => intro ed; simp [EventDispatcher.receiveN]
  | succ n ih =>
    intro ed
    cases hp : ed.eventCh.pending with
    | nil => simp [EventDispatcher.receiveN, EventDispatcher.receive, hp]
    | cons e rest =>
      simp only [EventDispatcher.receiveN, EventDispatcher.receive, hp]
      obtain ⟨ih1, ih2⟩ := ih { ed with eventCh := { ed.eventCh with pending := rest } }
      simp only at ih1 ih2
      simp [ih1, ih2]

/-- C14: with the dispatcher's event channel modelled as a FIFO queue of capacity 100,
SendEvent appends the event at the tail when fewer than 100 events are pending and
leaves the queue unchanged when 100 are pending; so the pending count never exceeds
100, after n sends on a new dispatcher the queue holds exactly the first min(n, 100)
events in send order, and receives deliver the admitted events oldest first. -/
theorem sendEvent_fifo_drop_on_full :
    NewEventDispatcher.eventCh = { pending := [], capacity := 100 } ∧
    (∀ (ed : EventDispatcher) (event : Event), ed.eventCh.capacity = 100 →
      (ed.eventCh.pending.length < 100 →
        (ed.SendEvent event).eventCh.pending = ed.eventCh.pending ++ [event]) ∧
      (ed.eventCh.pending.length = 100 → ed.SendEvent event = ed) ∧
      (ed.eventCh.pending.length ≤ 100 → (ed.SendEvent event).eventCh.pending.length ≤ 100) ∧
      (ed.eventCh.pending.length ≤ 100 → ed.receive.2.eventCh.pending.length ≤ 100) ∧
      (ed.SendEvent event).eventCh.capacity = 100 ∧ ed.receive.2.eventCh.capacity = 100) ∧
    (∀ events : List Event,
      (NewEventDispatcher.sendAll events).eventCh.pending = events.take (min events.length 100) ∧
      (NewEventDispatcher.sendAll events).eventCh.pending.length = min events.length 100) ∧
    (∀ (events : List Event) (n : Nat),
      ((NewEventDispatcher.sendAll events).receiveN n).1 = (events.take 100).take n ∧
      ((NewEventDispatcher.sendAll events).receiveN n).2.eventCh.pending =
        (events.take 100).drop n) := by
  have hall : ∀ events : List Event,
      (NewEventDispatcher.sendAll events).eventCh.pending = events.take 100 := by
    intro events
    have := (sendAll_pending events NewEventDispatcher).1
    simpa [NewEventDispatcher] using this
  refine ⟨rfl, ?_, ?_, ?_⟩
  · intro ed event hcap
    obtain ⟨h1, h2, _⟩ := sendEvent_pending ed event
    refine ⟨?_, ?_, ?_, ?_, by rw [h2, hcap], ?_⟩
    · intro hlt
      rw [h1, hcap, if_pos hlt]
    · intro hfull
      unfold EventDispatcher.SendEvent
      rw [hcap, hfull]
      simp
    · intro hle
      rw [h1, hcap]
      split
      · rw [List.length_append, List.length_singleton]; omega
      · exact hle
    · intro hle
      unfold EventDispatcher.receive
      split
      · exact hle
      · rename_i e rest hp
        simp only
        rw [hp] at hle
        simp only [List.length_cons] at hle
        omega
    · unfold EventDispatcher.receive
      split <;> exact hcap
  · intro events
    have h := hall events
    have hmin : events.take (min events.length 100) = events.take 100 := by
      rcases Nat.le_total events.length 100 with hle | hle
      · rw [Nat.min_eq_left hle, List.take_of_length_le (Nat.le_refl _),
          List.take_of_length_le hle]
      · rw [Nat.min_eq_right hle]
    refine ⟨by rw [h, hmin], ?_⟩
    rw [h, List.length_take, Nat.min_comm]
  · intro events n
    obtain ⟨h1, h2⟩ := receiveN_pending n (NewEventDispatcher.sendAll events)
    rw [h1, h2, hall events]
    exact ⟨rfl, rfl⟩

/-- C14 (witness): a dispatcher with capacity 100 and one pending event admits a second
event at the tail. -/
theorem sendEvent_fifo_drop_on_full_witness :
    (EventDispatcher.SendEvent (NewEventDispatcher.SendEvent (numberedEvent 0))
        (numberedEvent 1)).eventCh.pending =
      (NewEventDispatcher.SendEvent (numberedEvent 0)).eventCh.pending ++ [numberedEvent 1] :=
  (sendEvent_fifo_drop_on_full.2.1 (NewEventDispatcher.SendEvent (numberedEvent 0))
    (numberedEvent 1) rfl).1 (by decide)

/-- C15: DispatchEvent(event) invokes exactly once the handler most recently registered
for event.Type and returns that handler's result; when no handler is registered for
event.Type it invokes no handler and returns no error.  RegisterHandler(t, h) replaces
only the handler for type t and leaves the handlers of all other types, and the event
queue, unchanged. -/
theorem dispatchEvent_spec (ed : EventDispatcher) (event : Event) :
    (∀ handler, ed.handlers event.Typ = some handler →
      ed.DispatchEvent event =
        (handler.HandleEvent event, [{ handler := handler, event := event }])) ∧
    (ed.handlers event.Typ = none → ed.DispatchEvent event = (none, [])) ∧
    (∀ (t : Nat) (h : EventHandler),
      (ed.RegisterHandler t h).handlers t = some h ∧
      (∀ t2, t2 ≠ t → (ed.RegisterHandler t h).handlers t2 = ed.handlers t2) ∧
      (ed.RegisterHandler t h).eventCh = ed.eventCh) ∧
    (∀ h1 h2 : EventHandler,
      ((ed.RegisterHandler event.Typ h1).RegisterHandler event.Typ h2).DispatchEvent event =
        (h2.HandleEvent event, [{ handler := h2, event := event }])) := by
  refine ⟨?_, ?_, ?_, ?_⟩
  · intro handler h
    simp only [EventDispatcher.DispatchEvent, h]
  · intro h
    simp only [EventDispatcher.DispatchEvent, h]
  · intro t h
    refine ⟨by simp [EventDispatcher.RegisterHandler], ?_, rfl⟩
    intro t2 hne
    simp [EventDispatcher.RegisterHandler, hne]
  · intro h1 h2
    simp [EventDispatcher.DispatchEvent, EventDispatcher.RegisterHandler]

/-- C15 (witness): with the failing handler registered for type 6, dispatching an event
of type 6 invokes it once and returns its error, and dispatching an event of type 7
invokes nothing and returns no error. -/
theorem dispatchEvent_spec_witness :
    (NewEventDispatcher.RegisterHandler 6 failingHandler).DispatchEvent (numberedEvent 0) =
      (some "failed", [{ handler := failingHandler, event := numberedEvent 0 }]) ∧
    (NewEventDispatcher.RegisterHandler 6 failingHandler).DispatchEvent
      { Typ := 7, Data := EventData.other 0 } = (none, []) :=
  ⟨(dispatchEvent_spec (NewEventDispatcher.RegisterHandler 6 failingHandler)
      (numberedEvent 0)).1 failingHandler rfl,
   (dispatchEvent_spec (NewEventDispatcher.RegisterHandler 6 failingHandler)
      { Typ := 7, Data := EventData.other 0 }).2.1 rfl⟩


/-! ## Input translation -/

theorem pressKey_keeps_pressed_state (kb : Keyboard) (id id2 : String)
    (h : kb.GetKeyState id = KeyState.KeyStatePressed) :
    (kb.PressKey id2).kb.GetKeyState id = KeyState.KeyStatePressed := by
  simp only [Keyboard.GetKeyState, pressKey_keyStates, mapSet]
  by_cases hid : id = id2
  · simp [hid]
  · simpa [hid, Keyboard.GetKeyState] using h

theorem pressKey_keeps_pressed_key (kb : Keyboard) (layout : Layout) (id : String)
    (hlayout : kb.layout = some layout) (hkeys : KeysPresent layout.Keys) (i : Nat) (key : Key)
    (hkey : layout.Keys[i]? = some (some key)) (hstate : key.State = KeyState.KeyStatePressed) :
    ∃ l2 key2, (kb.PressKey id).kb.layout = some l2 ∧ l2.Keys[i]? = some (some key2) ∧
      key2.State = KeyState.KeyStatePressed ∧ key2.ID = key.ID := by
  by_cases hex : ∃ k, some k ∈ layout.Keys ∧ k.ID = id
  · obtain ⟨j, k, hfirst⟩ := exists_firstWithID layout.Keys hkeys id hex
    rw [pressKey_first kb layout id hlayout hkeys j k hfirst]
    have hi : i < layout.Keys.length := (List.getElem?_eq_some.mp hkey).1
    by_cases hji : j = i
    · subst hji
      have hk : k = key := by
        have := hfirst.1
        rw [hkey] at this
        simpa using this.symm
      subst hk
      exact ⟨_, { k with State := KeyState.KeyStatePressed }, rfl,
        by simp [List.getElem?_set_self hi], rfl, rfl⟩
    · exact ⟨_, key, rfl, by simp [List.getElem?_set_ne hji, hkey], hstate, rfl⟩
  · rw [pressKey_no_match kb layout id hlayout hkeys hex]
    exact ⟨layout, key, rfl, hkey, hstate, rfl⟩

/-- C20: touch translation is press-only.  If findKeyAtPosition yields a key k at the
touched position, HandleTouchEvent calls PressKey(k.ID) and GetKeyState(k.ID) is pressed
afterwards; if no key is hit the keyboard is unchanged and no error is returned; and no
touch event changes a key's state from pressed to another state, neither in the state
map nor in the State field of a key of the active layout. -/
theorem touch_is_press_only (kw : KeyboardWidget) (event : TouchEvent) :
    (∀ k, kw.findKeyAtPosition event.X event.Y = Run.ret (some k) →
      (kw.HandleTouchEvent event).kw = { kw with keyboard := (kw.keyboard.PressKey k.ID).kb } ∧
      (kw.HandleTouchEvent event).result = (kw.keyboard.PressKey k.ID).result ∧
      (kw.HandleTouchEvent event).calls = (kw.keyboard.PressKey k.ID).calls ∧
      (kw.HandleTouchEvent event).kw.keyboard.GetKeyState k.ID = KeyState.KeyStatePressed) ∧
    (kw.findKeyAtPosition event.X event.Y = Run.ret none →
      (kw.HandleTouchEvent event).kw = kw ∧
      (kw.HandleTouchEvent event).result = Run.ret none ∧
      (kw.HandleTouchEvent event).calls = []) ∧
    (∀ id, kw.keyboard.GetKeyState id = KeyState.KeyStatePressed →
      (kw.HandleTouchEvent event).kw.keyboard.GetKeyState id = KeyState.KeyStatePressed) ∧
    (∀ (layout : Layout) (i : Nat) (key : Key), kw.keyboard.layout = some layout →
      KeysPresent layout.Keys → layout.Keys[i]? = some (some key) →
      key.State = KeyState.KeyStatePressed →
      ∃ l2 key2, (kw.HandleTouchEvent event).kw.keyboard.layout = some l2 ∧
        l2.Keys[i]? = some (some key2) ∧ key2.State = KeyState.KeyStatePressed) := by
  refine ⟨?_, ?_, ?_, ?_⟩
  · intro k hk
    have h : kw.HandleTouchEvent event =
        { kw := { kw with keyboard := (kw.keyboard.PressKey k.ID).kb },
          result := (kw.keyboard.PressKey k.ID).result,
          calls := (kw.keyboard.PressKey k.ID).calls } := by
      simp only [KeyboardWidget.HandleTouchEvent, hk]
    rw [h]
    refine ⟨rfl, rfl, rfl, ?_⟩
    simp [Keyboard.GetKeyState, pressKey_keyStates, mapSet]
  · intro hk
    have h : kw.HandleTouchEvent event = { kw := kw, result := Run.ret none, calls := [] } := by
      simp only [KeyboardWidget.HandleTouchEvent, hk]
    rw [h]
    exact ⟨rfl, rfl, rfl⟩
  · intro id hid
    unfold KeyboardWidget.HandleTouchEvent
    split
    · exact hid
    · exact hid
    · exact pressKey_keeps_pressed_state kw.keyboard id _ hid
  · intro layout i key hlayout hkeys hkey hstate
    unfold KeyboardWidget.HandleTouchEvent
    split
    · exact ⟨layout, key, hlayout, hkey, hstate⟩
    · exact ⟨layout, key, hlayout, hkey, hstate⟩
    · rename_i k _
      obtain ⟨l2, key2, h1, h2, h3, _⟩ :=
        pressKey_keeps_pressed_key kw.keyboard layout k.ID hlayout hkeys i key hkey hstate
      exact ⟨l2, key2, h1, h2, h3⟩

/-- C20 (witness): on the two-key widget a touch at (60,10) hits key "b" and leaves its
state pressed; a touch at (60,60) hits no key and changes nothing. -/
theorem touch_is_press_only_witness :
    ((twoKeyWidget.HandleTouchEvent { Serial := 0, ID := 0, X := 60, Y := 10, Time := 0 }).kw =
        { twoKeyWidget with keyboard := (twoKeyWidget.keyboard.PressKey "b").kb } ∧
      (twoKeyWidget.HandleTouchEvent { Serial := 0, ID := 0, X := 60, Y := 10, Time := 0 }).result =
        (twoKeyWidget.keyboard.PressKey "b").result ∧
      (twoKeyWidget.HandleTouchEvent { Serial := 0, ID := 0, X := 60, Y := 10, Time := 0 }).calls =
        (twoKeyWidget.keyboard.PressKey "b").calls ∧
      (twoKeyWidget.HandleTouchEvent
          { Serial := 0, ID := 0, X := 60, Y := 10, Time := 0 }).kw.keyboard.GetKeyState "b" =
        KeyState.KeyStatePressed) ∧
    ((twoKeyWidget.HandleTouchEvent { Serial := 0, ID := 0, X := 60, Y := 60, Time := 0 }).kw =
        twoKeyWidget ∧
      (twoKeyWidget.HandleTouchEvent { Serial := 0, ID := 0, X := 60, Y := 60, Time := 0 }).result =
        Run.ret none ∧
      (twoKeyWidget.HandleTouchEvent { Serial := 0, ID := 0, X := 60, Y := 60, Time := 0 }).calls =
        []) :=
  ⟨(touch_is_press_only twoKeyWidget { Serial := 0, ID := 0, X := 60, Y := 10, Time := 0 }).1
      { ID := "b", Label := "B", Code := 48, X := 50, Y := 0, Width := 50, Height := 50 }
      (by decide),
   (touch_is_press_only twoKeyWidget { Serial := 0, ID := 0, X := 60, Y := 60, Time := 0 }).2.1
      (by decide)⟩


theorem centre_in_span (x w c : Int) (hx : IsInt64 x) (hw : IsInt64 w) (hpos : 0 < w)
    (hc : c = addInt x (divInt w 2)) (hc32 : IsInt32 c) :
    x ≤ subInt c 0 ∧ subInt c 0 < addInt x w := by
  have hdiv : divInt w 2 = w / 2 := Int.tdiv_eq_ediv (by omega) (by omega)
  rw [hdiv] at hc
  unfold IsInt64 at hx hw
  unfold IsInt32 at hc32
  unfold addInt wrapInt at hc
  unfold subInt addInt wrapInt
  omega

theorem keysPresent_of_noOverlap (keys : List (Option Key)) (h : NoOverlap keys) (i : Nat)
    (k : Key) (hk : keys[i]? = some (some k)) : KeysPresent keys := by
  intro key hkey
  obtain ⟨j, hj, hjk⟩ := List.getElem_of_mem hkey
  have hj2 : keys[j]? = some key := by rw [List.getElem?_eq_getElem hj, hjk]
  cases key with
  | some v => exact ⟨v, rfl⟩
  | none =>
    rcases Nat.lt_trichotomy i j with hlt | heq | hgt
    · have := h i j hlt _ _ hk hj2
      simp [keysOverlap] at this
    · subst heq
      rw [hk] at hj2
      cases hj2
    · have := h j i hgt _ _ hj2 hk
      simp [keysOverlap] at this

theorem noOverlap_set_state (keys : List (Option Key)) (h : NoOverlap keys) (j : Nat)
    (kj : Key) (hj : keys[j]? = some (some kj)) (v : KeyState) :
    NoOverlap (keys.set j (some { kj with State := v })) := by
  have hlen : j < keys.length := (List.getElem?_eq_some.mp hj).1
  intro i1 i2 hlt a b ha hb
  by_cases h1 : j = i1
  · subst h1
    have h2 : j ≠ i2 := by omega
    rw [List.getElem?_set_self hlen] at ha
    rw [List.getElem?_set_ne h2] at hb
    cases ha
    have := h j i2 hlt _ _ hj hb
    cases b with
    | none => simp [keysOverlap] at this
    | some b => simpa [keysOverlap] using this
  · rw [List.getElem?_set_ne h1] at ha
    by_cases h2 : j = i2
    · subst h2
      rw [List.getElem?_set_self hlen] at hb
      cases hb
      have := h i1 j hlt _ _ ha hj
      cases a with
      | none => simp [keysOverlap] at this
      | some a => simpa [keysOverlap] using this
    · rw [List.getElem?_set_ne h2] at hb
      exact h i1 i2 hlt _ _ ha hb

theorem handlePointerEvent_hit (kw : KeyboardWidget) (event : PointerEvent) (k : Key)
    (hbutton : event.Button = 1)
    (hfind : kw.findKeyAtPosition event.X event.Y = Run.ret (some k)) :
    (event.State = 1 → kw.HandlePointerEvent event =
      { kw := { kw with keyboard := (kw.keyboard.PressKey k.ID).kb },
        result := (kw.keyboard.PressKey k.ID).result,
        calls := (kw.keyboard.PressKey k.ID).calls }) ∧
    (event.State ≠ 1 → kw.HandlePointerEvent event =
      { kw := { kw with keyboard := (kw.keyboard.ReleaseKey k.ID).kb },
        result := (kw.keyboard.ReleaseKey k.ID).result,
        calls := (kw.keyboard.ReleaseKey k.ID).calls }) := by
  constructor
  · intro hs
    simp only [KeyboardWidget.HandlePointerEvent, hbutton, hfind, hs, if_true]
  · intro hs
    simp only [KeyboardWidget.HandlePointerEvent, hbutton, hfind, hs, if_true, if_false]

theorem handlePointerEvent_miss (kw : KeyboardWidget) (event : PointerEvent)
    (h : event.Button ≠ 1 ∨ kw.findKeyAtPosition event.X event.Y = Run.ret none) :
    kw.HandlePointerEvent event = { kw := kw, result := Run.ret none, calls := [] } := by
  by_cases hb : event.Button = 1
  · rcases h with h | h
    · exact absurd hb h
    · simp only [KeyboardWidget.HandlePointerEvent, hb, h, if_true]
  · simp only [KeyboardWidget.HandlePointerEvent, hb, if_false]


theorem click_at_centre (kw : KeyboardWidget) (layout : Layout) (i : Nat) (k : Key)
    (press release : PointerEvent)
    (hlayout : kw.keyboard.layout = some layout) (hx0 : kw.x = 0) (hy0 : kw.y = 0)
    (hno : NoOverlap layout.Keys) (hk : layout.Keys[i]? = some (some k))
    (hw : 0 < k.Width) (hh : 0 < k.Height)
    (hrange : IsInt64 k.X ∧ IsInt64 k.Y ∧ IsInt64 k.Width ∧ IsInt64 k.Height)
    (hpb : press.Button = 1) (hps : press.State = 1)
    (hpx : press.X = addInt k.X (divInt k.Width 2)) (hpy : press.Y = addInt k.Y (divInt k.Height 2))
    (hp32 : IsInt32 press.X ∧ IsInt32 press.Y)
    (hrb : release.Button = 1) (hrs : release.State ≠ 1)
    (hrx : release.X = press.X) (hry : release.Y = press.Y) :
    (kw.HandlePointerEvent press).result = Run.ret none ∧
    (kw.HandlePointerEvent press).kw.keyboard.GetKeyState k.ID = KeyState.KeyStatePressed ∧
    ((kw.HandlePointerEvent press).kw.HandlePointerEvent release).result = Run.ret none ∧
    ((kw.HandlePointerEvent press).kw.HandlePointerEvent release).kw.keyboard.GetKeyState k.ID =
      KeyState.KeyStateReleased := by
  have hkeys : KeysPresent layout.Keys := keysPresent_of_noOverlap layout.Keys hno i k hk
  have hi : i < layout.Keys.length := (List.getElem?_eq_some.mp hk).1
  have hmem : some k ∈ layout.Keys := by
    have := (List.getElem?_eq_some.mp hk).2
    rw [← this]; exact List.getElem_mem hi
  have hbox : InBox (subInt press.X 0) (subInt press.Y 0) k := by
    obtain ⟨a1, a2⟩ := centre_in_span k.X k.Width press.X hrange.1 hrange.2.2.1 hw hpx hp32.1
    obtain ⟨b1, b2⟩ := centre_in_span k.Y k.Height press.Y hrange.2.1 hrange.2.2.2 hh hpy hp32.2
    exact ⟨a1, a2, b1, b2⟩
  -- the press
  have hfind1 : kw.findKeyAtPosition press.X press.Y = Run.ret (some k) := by
    simp only [KeyboardWidget.findKeyAtPosition, Keyboard.GetLayout, hlayout, hx0, hy0]
    exact findKeyIn_of_mem _ _ layout.Keys hkeys ((noOverlap_iff_pairwise _).mp hno) k hmem hbox
  have hH1 := (handlePointerEvent_hit kw press k hpb hfind1).1 hps
  obtain ⟨j, kj, hfirst⟩ := exists_firstWithID layout.Keys hkeys k.ID ⟨k, hmem, rfl⟩
  have hP := pressKey_first kw.keyboard layout k.ID hlayout hkeys j kj hfirst
  have hno2 : NoOverlap (layout.Keys.set j (some { kj with State := KeyState.KeyStatePressed })) :=
    noOverlap_set_state layout.Keys hno j kj hfirst.1 _
  have hkeys2 : KeysPresent (layout.Keys.set j (some { kj with State := KeyState.KeyStatePressed })) :=
    keysPresent_set layout.Keys hkeys j _
  -- the key at position i after the press
  obtain ⟨k2, hk2, hid2, hbox2⟩ : ∃ k2,
      some k2 ∈ layout.Keys.set j (some { kj with State := KeyState.KeyStatePressed }) ∧
      k2.ID = k.ID ∧ InBox (subInt press.X 0) (subInt press.Y 0) k2 := by
    by_cases hji : j = i
    · subst hji
      have hkk : kj = k := by
        have := hfirst.1
        rw [hk] at this
        simpa using this.symm
      subst hkk
      exact ⟨{ kj with State := KeyState.KeyStatePressed }, List.mem_set _ _ hi _, rfl, hbox⟩
    · refine ⟨k, ?_, rfl, hbox⟩
      have hi2 : i < (layout.Keys.set j
          (some { kj with State := KeyState.KeyStatePressed })).length := by
        rw [List.length_set]; exact hi
      have hget : (layout.Keys.set j (some { kj with State := KeyState.KeyStatePressed }))[i] =
          some k := by
        rw [List.getElem_set_ne hji]
        exact (List.getElem?_eq_some.mp hk).2
      rw [← hget]
      exact List.getElem_mem hi2
  have hres1 : (kw.HandlePointerEvent press).result = Run.ret none := by rw [hH1, hP]
  have hstate1 : (kw.HandlePointerEvent press).kw.keyboard.GetKeyState k.ID =
      KeyState.KeyStatePressed := by
    rw [hH1]
    simp [Keyboard.GetKeyState, pressKey_keyStates, mapSet]
  -- the release
  have hlayout2 : (kw.HandlePointerEvent press).kw.keyboard.layout =
      some { layout with
        Keys := layout.Keys.set j (some { kj with State := KeyState.KeyStatePressed }) } := by
    rw [hH1, hP]
  have hx2 : (kw.HandlePointerEvent press).kw.x = 0 := by rw [hH1]; exact hx0
  have hy2 : (kw.HandlePointerEvent press).kw.y = 0 := by rw [hH1]; exact hy0
  have hfind2 : (kw.HandlePointerEvent press).kw.findKeyAtPosition release.X release.Y =
      Run.ret (some k2) := by
    simp only [KeyboardWidget.findKeyAtPosition, Keyboard.GetLayout, hlayout2, hx2, hy2, hrx, hry]
    exact findKeyIn_of_mem _ _ _ hkeys2 ((noOverlap_iff_pairwise _).mp hno2) k2 hk2 hbox2
  have hH2 := (handlePointerEvent_hit (kw.HandlePointerEvent press).kw release k2 hrb hfind2).2 hrs
  rw [hid2] at hH2
  have hspec := applyOp_spec (kw.HandlePointerEvent press).kw.keyboard _ hlayout2 hkeys2
    (KeyOp.release k.ID)
  refine ⟨hres1, hstate1, ?_, ?_⟩
  · rw [hH2]
    exact hspec.1
  · rw [hH2]
    simp [Keyboard.GetKeyState, releaseKey_keyStates, mapSet]

/-- C16: pointer translation.  HandlePointerEvent with button code 1 at a position where
findKeyAtPosition yields key k calls PressKey(k.ID) when the event state is 1 and
ReleaseKey(k.ID) otherwise; an event with another button, or at a position with no key,
leaves the keyboard unchanged and returns no error.  Consequently, for every key k with
positive width and height in a pairwise non-overlapping layout (widget at the origin, k
initially released), a button-1 press at k's centre (k.X + k.Width/2, k.Y + k.Height/2)
followed by a button-1 release at the same point drives GetKeyState(k.ID) through
released, pressed, released. -/
theorem pointer_translation :
    (∀ (kw : KeyboardWidget) (event : PointerEvent) (k : Key), event.Button = 1 →
      kw.findKeyAtPosition event.X event.Y = Run.ret (some k) →
      (event.State = 1 → kw.HandlePointerEvent event =
        { kw := { kw with keyboard := (kw.keyboard.PressKey k.ID).kb },
          result := (kw.keyboard.PressKey k.ID).result,
          calls := (kw.keyboard.PressKey k.ID).calls }) ∧
      (event.State ≠ 1 → kw.HandlePointerEvent event =
        { kw := { kw with keyboard := (kw.keyboard.ReleaseKey k.ID).kb },
          result := (kw.keyboard.ReleaseKey k.ID).result,
          calls := (kw.keyboard.ReleaseKey k.ID).calls })) ∧
    (∀ (kw : KeyboardWidget) (event : PointerEvent),
      event.Button ≠ 1 ∨ kw.findKeyAtPosition event.X event.Y = Run.ret none →
      kw.HandlePointerEvent event = { kw := kw, result := Run.ret none, calls := [] }) ∧
    (∀ (kw : KeyboardWidget) (layout : Layout) (i : Nat) (k : Key) (press release : PointerEvent),
      kw.keyboard.layout = some layout → kw.x = 0 → kw.y = 0 →
      NoOverlap layout.Keys → layout.Keys[i]? = some (some k) →
      0 < k.Width → 0 < k.Height →
      IsInt64 k.X ∧ IsInt64 k.Y ∧ IsInt64 k.Width ∧ IsInt64 k.Height →
      kw.keyboard.GetKeyState k.ID = KeyState.KeyStateReleased →
      press.Button = 1 → press.State = 1 →
      press.X = addInt k.X (divInt k.Width 2) → press.Y = addInt k.Y (divInt k.Height 2) →
      IsInt32 press.X ∧ IsInt32 press.Y →
      release.Button = 1 → release.State ≠ 1 → release.X = press.X → release.Y = press.Y →
      kw.keyboard.GetKeyState k.ID = KeyState.KeyStateReleased ∧
      (kw.HandlePointerEvent press).result = Run.ret none ∧
      (kw.HandlePointerEvent press).kw.keyboard.GetKeyState k.ID = KeyState.KeyStatePressed ∧
      ((kw.HandlePointerEvent press).kw.HandlePointerEvent release).result = Run.ret none ∧
      ((kw.HandlePointerEvent press).kw.HandlePointerEvent release).kw.keyboard.GetKeyState k.ID =
        KeyState.KeyStateReleased) := by
  refine ⟨handlePointerEvent_hit, handlePointerEvent_miss, ?_⟩
  intro kw layout i k press release hlayout hx0 hy0 hno hk hw hh hrange hinit hpb hps hpx hpy
    hp32 hrb hrs hrx hry
  exact ⟨hinit, click_at_centre kw layout i k press release hlayout hx0 hy0 hno hk hw hh hrange
    hpb hps hpx hpy hp32 hrb hrs hrx hry⟩

/-- C16 (witness): on the two-key widget, a button-1 press at the centre (75,25) of key
"b" and a button-1 release at the same point take the state of "b" from released to
pressed and back to released; a press with button 2 changes nothing. -/
theorem pointer_translation_witness :
    (twoKeyWidget.keyboard.GetKeyState "b" = KeyState.KeyStateReleased ∧
      (twoKeyWidget.HandlePointerEvent
        { Serial := 0, X := 75, Y := 25, Button := 1, State := 1, Time := 0 }).result =
          Run.ret none ∧
      (twoKeyWidget.HandlePointerEvent
        { Serial := 0, X := 75, Y := 25, Button := 1, State := 1, Time := 0 }
        ).kw.keyboard.GetKeyState "b" = KeyState.KeyStatePressed ∧
      (KeyboardWidget.HandlePointerEvent
        (twoKeyWidget.HandlePointerEvent
          { Serial := 0, X := 75, Y := 25, Button := 1, State := 1, Time := 0 }).kw
        { Serial := 1, X := 75, Y := 25, Button := 1, State := 0, Time := 1 }).result =
          Run.ret none ∧
      (KeyboardWidget.HandlePointerEvent
        (twoKeyWidget.HandlePointerEvent
          { Serial := 0, X := 75, Y := 25, Button := 1, State := 1, Time := 0 }).kw
        { Serial := 1, X := 75, Y := 25, Button := 1, State := 0, Time := 1 }
        ).kw.keyboard.GetKeyState "b" = KeyState.KeyStateReleased) ∧
    twoKeyWidget.HandlePointerEvent
        { Serial := 0, X := 75, Y := 25, Button := 2, State := 1, Time := 0 } =
      { kw := twoKeyWidget, result := Run.ret none, calls := [] } :=
  ⟨pointer_translation.2.2 twoKeyWidget twoKeyLayout 1
      { ID := "b", Label := "B", Code := 48, X := 50, Y := 0, Width := 50, Height := 50 }
      { Serial := 0, X := 75, Y := 25, Button := 1, State := 1, Time := 0 }
      { Serial := 1, X := 75, Y := 25, Button := 1, State := 0, Time := 1 }
      rfl rfl rfl conforming_twoKeyLayout.2.2 rfl (by decide) (by decide)
      ⟨by decide, by decide, by decide, by decide⟩ rfl rfl rfl (by decide) (by decide)
      ⟨by decide, by decide⟩ rfl (by decide) rfl rfl,
   pointer_translation.2.1 twoKeyWidget
      { Serial := 0, X := 75, Y := 25, Button := 2, State := 1, Time := 0 }
      (Or.inl (by decide))⟩


/-! ## Listing layouts -/

theorem jsonStem_eq_some_iff (name stem : String) :
    jsonStem name = some stem ↔ name = stem ++ ".json" ∧ 5 < name.length := by
  unfold jsonStem sliceFrom sliceTo
  constructor
  · intro h
    split at h
    · rename_i hc
      obtain ⟨hlen, hsuf⟩ := hc
      simp only [Option.some.injEq] at h
      refine ⟨?_, hlen⟩
      apply String.ext
      rw [String.data_append, ← h]
      have hd : List.drop (name.length - 5) name.data = ".json".data := by
        have := congrArg String.data hsuf
        simpa using this
      show name.data = List.take (name.length - 5) name.data ++ ".json".data
      rw [← hd, List.take_append_drop]
    · cases h
  · rintro ⟨hname, hlen⟩
    have hdata : name.data = stem.data ++ ".json".data := by
      rw [hname, String.data_append]
    have hl : name.length = stem.data.length + 5 := by
      show name.data.length = _
      rw [hdata, List.length_append]
      rfl
    have hsub : name.length - 5 = stem.data.length := by omega
    have hdrop : List.drop (name.length - 5) name.data = ".json".data := by
      rw [hsub, hdata, List.drop_left]
    have htake : List.take (name.length - 5) name.data = stem.data := by
      rw [hsub, hdata, List.take_left]
    have hsuf : String.mk (List.drop (name.length - 5) name.data) = ".json" := by
      rw [hdrop]
    rw [if_pos ⟨hlen, hsuf⟩, htake]

theorem listLayouts_names (files : List DirEntry) :
    (((files.filter (fun file => !file.IsDir && extIsJSON file.Name)).map
        (fun file => file.Name)).filter
      (fun layout =>
        decide (layout.length > 5) &&
          decide (sliceFrom layout (layout.length - 5) = ".json"))).map
      (fun layout => sliceTo layout (layout.length - 5)) = stemsOf files := by
  unfold stemsOf
  induction files with
  | nil => rfl
  | cons file rest ih =>
    by_cases hdir : file.IsDir = true
    · rw [List.filter_cons_of_neg (p := fun file : DirEntry => !file.IsDir && extIsJSON file.Name)
          (by simp [hdir]),
        List.filter_cons_of_neg (p := fun file : DirEntry => !file.IsDir) (by simp [hdir])]
      exact ih
    · have hdir2 : file.IsDir = false := by simpa using hdir
      rw [List.filter_cons_of_pos (p := fun file : DirEntry => !file.IsDir) (by simp [hdir2]),
        List.map_cons]
      by_cases hsuf : sliceFrom file.Name (file.Name.length - 5) = ".json"
      · rw [List.filter_cons_of_pos
            (p := fun file : DirEntry => !file.IsDir && extIsJSON file.Name)
            (by simp [hdir2, extIsJSON, hsuf]),
          List.map_cons]
        by_cases hlen : 5 < file.Name.length
        · have hstem : jsonStem file.Name = some (sliceTo file.Name (file.Name.length - 5)) := by
            simp [jsonStem, hlen, hsuf]
          rw [List.filter_cons_of_pos
              (p := fun layout : String => decide (layout.length > 5) &&
                decide (sliceFrom layout (layout.length - 5) = ".json"))
              (by simp [hlen, hsuf]),
            List.map_cons, List.filterMap_cons_some hstem, ih]
        · have hstem : jsonStem file.Name = none := by simp [jsonStem, hlen]
          rw [List.filter_cons_of_neg
              (p := fun layout : String => decide (layout.length > 5) &&
                decide (sliceFrom layout (layout.length - 5) = ".json"))
              (by simp [hlen]),
            List.filterMap_cons_none hstem, ih]
      · have hstem : jsonStem file.Name = none := by simp [jsonStem, hsuf]
        rw [List.filter_cons_of_neg
            (p := fun file : DirEntry => !file.IsDir && extIsJSON file.Name)
            (by simp [extIsJSON, hsuf]),
          List.filterMap_cons_none hstem, ih]

theorem addBuiltIn_eq (names : List String) :
    (["qwerty"].foldl
      (fun names builtIn =>
        if names.any (fun existing => decide (existing = builtIn)) then names
        else names ++ [builtIn])
      names) = names ++ (if "qwerty" ∈ names then [] else ["qwerty"]) := by
  simp only [List.foldl_cons, List.foldl_nil]
  by_cases h : "qwerty" ∈ names
  · have hany : names.any (fun existing => decide (existing = "qwerty")) = true := by
      rw [List.any_eq_true]
      exact ⟨"qwerty", h, by simp⟩
    simp [hany, h]
  · have hany : ¬ names.any (fun existing => decide (existing = "qwerty")) = true := by
      rw [List.any_eq_true]
      rintro ⟨x, hx, hxq⟩
      have : x = "qwerty" := by simpa using hxq
      exact h (this ▸ hx)
    simp [hany, h]

/-- C18: ListAvailableLayouts (when listing succeeds) returns, in directory order, each
file name of the layout directory longer than five characters that ends in ".json",
with that suffix removed, followed by the built-in name "qwerty" if and only if "qwerty"
is not already among them; hence the result is never empty and always contains
"qwerty", also when the directory is missing or empty. -/
theorem listAvailableLayouts_spec (env : Env) (kb : Keyboard) :
    (∀ name stem : String,
      jsonStem name = some stem ↔ name = stem ++ ".json" ∧ 5 < name.length) ∧
    (∀ files : List DirEntry, env.stat "assets/layouts" ≠ StatResult.notExist →
      env.readDir "assets/layouts" = some files →
      Keyboard.ListAvailableLayouts env kb =
        Except.ok (stemsOf files ++ (if "qwerty" ∈ stemsOf files then [] else ["qwerty"]))) ∧
    (env.stat "assets/layouts" = StatResult.notExist →
      Keyboard.ListAvailableLayouts env kb = Except.ok ["qwerty"]) ∧
    (env.stat "assets/layouts" ≠ StatResult.notExist → env.readDir "assets/layouts" = some [] →
      Keyboard.ListAvailableLayouts env kb = Except.ok ["qwerty"]) ∧
    (∀ names, Keyboard.ListAvailableLayouts env kb = Except.ok names →
      names ≠ [] ∧ "qwerty" ∈ names) := by
  have hdir : ∀ files : List DirEntry, env.stat "assets/layouts" ≠ StatResult.notExist →
      env.readDir "assets/layouts" = some files →
      Keyboard.ListAvailableLayouts env kb =
        Except.ok (stemsOf files ++ (if "qwerty" ∈ stemsOf files then [] else ["qwerty"])) := by
    intro files hstat hread
    simp only [Keyboard.ListAvailableLayouts, LayoutParser.ListLayouts, NewLayoutParser, hstat,
      if_false, hread]
    rw [listLayouts_names files, addBuiltIn_eq]
  have hmissing : env.stat "assets/layouts" = StatResult.notExist →
      Keyboard.ListAvailableLayouts env kb = Except.ok ["qwerty"] := by
    intro hstat
    simp only [Keyboard.ListAvailableLayouts, LayoutParser.ListLayouts, NewLayoutParser, hstat,
      if_true]
    rfl
  refine ⟨jsonStem_eq_some_iff, hdir, hmissing, ?_, ?_⟩
  · intro hstat hread
    rw [hdir [] hstat hread]
    rfl
  · intro names hnames
    have hq : ∀ l : List String, "qwerty" ∈ l ++ (if "qwerty" ∈ l then [] else ["qwerty"]) := by
      intro l
      by_cases h : "qwerty" ∈ l
      · simp [h]
      · simp [h]
    have hmem : "qwerty" ∈ names := by
      by_cases hstat : env.stat "assets/layouts" = StatResult.notExist
      · rw [hmissing hstat] at hnames
        cases hnames
        simp
      · cases hread : env.readDir "assets/layouts" with
        | none =>
          simp [Keyboard.ListAvailableLayouts, LayoutParser.ListLayouts, NewLayoutParser, hstat,
            hread] at hnames
        | some files =>
          rw [hdir files hstat hread] at hnames
          cases hnames
          exact hq _
    exact ⟨List.ne_nil_of_mem hmem, hmem⟩

/-- C18 (witness): for a directory holding "dvorak.json", a directory "old.json",
"notes.txt", ".json" and "azerty.json" the result is dvorak, azerty, qwerty; for a
missing directory it is qwerty alone. -/
theorem listAvailableLayouts_spec_witness :
    Keyboard.ListAvailableLayouts listingEnv twoKeyKeyboard =
      Except.ok ["dvorak", "azerty", "qwerty"] ∧
    Keyboard.ListAvailableLayouts emptyEnv twoKeyKeyboard = Except.ok ["qwerty"] :=
  ⟨((listAvailableLayouts_spec listingEnv twoKeyKeyboard).2.1 _ (by decide) rfl).trans
      (congrArg Except.ok (by decide)),
   (listAvailableLayouts_spec emptyEnv twoKeyKeyboard).2.2.1 rfl⟩


/-! ## Saving and parsing a layout -/

theorem key_toJSON_toKey (k : Key) :
    (Key.toJSON k).toKey = { k with State := KeyState.KeyStateReleased } := by
  cases k with
  | mk ID Label Code X Y Width Height State Modifier =>
    cases Modifier <;> rfl

theorem layout_toJSON_toLayout (layout : Layout) :
    (Layout.toJSON layout).toLayout = layout.withStatesReleased := by
  cases layout with
  | mk Name Keys Width Height Description =>
    simp only [Layout.toJSON, LayoutJSON.toLayout, Layout.withStatesReleased, List.map_map]
    congr 1
    · apply List.map_congr_left
      intro key _
      cases key with
      | none => rfl
      | some k => simp [key_toJSON_toKey]
    · by_cases h : Description = ""
      · simp [h]
      · simp [h]

theorem layout_toJSON_ignores_state (l1 l2 : Layout)
    (h : l1.withStatesReleased = l2.withStatesReleased) : Layout.toJSON l1 = Layout.toJSON l2 := by
  have key_eq : ∀ k : Key, Key.toJSON { k with State := KeyState.KeyStateReleased } =
      Key.toJSON k := fun _ => rfl
  have hrel : ∀ l : Layout, Layout.toJSON l.withStatesReleased = Layout.toJSON l := by
    intro l
    simp only [Layout.toJSON, Layout.withStatesReleased, List.map_map]
    congr 1
    apply List.map_congr_left
    intro key _
    cases key with
    | none => rfl
    | some k => simp [key_eq]
  rw [← hrel l1, ← hrel l2, h]

/-- C17: layout round trip.  For every valid layout L that SaveLayout saves without
error, ParseLayout of the same file name yields L field for field (name, width, height,
description, and for each key id, label, code, x, y, width, height, modifier), keys in
the same order, with the State of every key released; the serialized form does not
depend on any key's State.  The text layer of encoding/json is assumed to round-trip
the wire tree of L. -/
theorem save_then_parse_round_trip (p : LayoutParser) (env env2 : Env) (layout : Layout)
    (filename : String) (_hvalid : p.ValidateLayout layout = Run.ret none)
    (hjson : JSONTextRoundTrips env layout)
    (hsave : p.SaveLayout env layout filename = (env2, none)) :
    p.ParseLayout env2 filename = Except.ok layout.withStatesReleased ∧
    (∀ parsed, p.ParseLayout env2 filename = Except.ok parsed →
      parsed.Name = layout.Name ∧ parsed.Width = layout.Width ∧
      parsed.Height = layout.Height ∧ parsed.Description = layout.Description ∧
      parsed.Keys.length = layout.Keys.length ∧
      (∀ (i : Nat) (k : Key), layout.Keys[i]? = some (some k) →
        ∃ k2, parsed.Keys[i]? = some (some k2) ∧ k2.ID = k.ID ∧ k2.Label = k.Label ∧
          k2.Code = k.Code ∧ k2.X = k.X ∧ k2.Y = k.Y ∧ k2.Width = k.Width ∧
          k2.Height = k.Height ∧ k2.Modifier = k.Modifier ∧
          k2.State = KeyState.KeyStateReleased)) ∧
    (∀ other : Layout, other.withStatesReleased = layout.withStatesReleased →
      Layout.toJSON other = Layout.toJSON layout) := by
  obtain ⟨data, hm, hu⟩ := hjson
  have hparse : p.ParseLayout env2 filename = Except.ok layout.withStatesReleased := by
    unfold LayoutParser.SaveLayout at hsave
    dsimp only at hsave
    cases hmk : env.mkdirAll p.layoutDir with
    | false => simp [hmk] at hsave
    | true =>
      rw [hmk] at hsave
      simp only [Bool.true_eq_false, if_false, hm] at hsave
      cases hwr : env.writeFile (env.join p.layoutDir filename) with
      | false => simp [hwr] at hsave
      | true =>
        rw [hwr] at hsave
        simp only [Bool.true_eq_false, if_false, Prod.mk.injEq, and_true] at hsave
        subst hsave
        simp [LayoutParser.ParseLayout, hu, layout_toJSON_toLayout]
  refine ⟨hparse, ?_, fun other h => layout_toJSON_ignores_state other layout h⟩
  intro parsed hparsed
  rw [hparse] at hparsed
  cases hparsed
  refine ⟨rfl, rfl, rfl, rfl, by simp [Layout.withStatesReleased], ?_⟩
  intro i k hk
  exact ⟨{ k with State := KeyState.KeyStateReleased },
    by simp [Layout.withStatesReleased, hk], rfl, rfl, rfl, rfl, rfl, rfl, rfl, rfl, rfl⟩

/-- C17 (witness): saving the layout whose second key is pressed, then parsing the same
file, gives the same layout with that key released. -/
theorem save_then_parse_round_trip_witness :
    theParser.ParseLayout (theParser.SaveLayout codecEnv pressedLayout "two.json").1 "two.json" =
      Except.ok pressedLayout.withStatesReleased :=
  (save_then_parse_round_trip theParser codecEnv
    (theParser.SaveLayout codecEnv pressedLayout "two.json").1 pressedLayout "two.json"
    (by decide) ⟨"two", rfl, rfl⟩ rfl).1


/-! ## Nil keys -/

/-- C21 (code at the failing input): a layout document whose `keys` array holds a null
parses to a layout with a nil key pointer; on that layout the layout-level checks pass,
validateKey dereferences the nil key and ValidateLayout panics instead of returning
success or a validation error, and so does LoadLayout of that file, leaving the active
layout as it was. -/
theorem validateLayout_panics_on_nil_key :
    LayoutJSON.toLayout
      { name := "nil", keys := [none], width := 100, height := 50, description := none } =
      nilKeyLayout ∧
    theParser.validateKey none 0 = Run.panic ∧
    theParser.ValidateLayout nilKeyLayout = Run.panic ∧
    theParser.ParseLayout nilKeyEnv "nil.json" = Except.ok nilKeyLayout ∧
    (Keyboard.LoadLayout nilKeyEnv twoKeyKeyboard "nil").2 = Run.panic ∧
    (Keyboard.LoadLayout nilKeyEnv twoKeyKeyboard "nil").1.layout = some twoKeyLayout := by
  refine ⟨by decide, by decide, by decide, rfl, by decide, by decide⟩


/-! ## Reachable states -/

theorem fieldChecksPass_set_state (layout : Layout) (h : FieldChecksPass layout) (i : Nat)
    (k : Key) (hk : layout.Keys[i]? = some (some k)) (v : KeyState) :
    FieldChecksPass { layout with Keys := layout.Keys.set i (some { k with State := v }) } := by
  obtain ⟨h1, h2, h3, h4, h5⟩ := h
  refine ⟨h1, h2, h3, ?_, ?_⟩
  · intro hnil
    have := congrArg List.length hnil
    simp only [List.length_set, List.length_nil] at this
    exact h4 (List.length_eq_zero.mp this)
  · intro key hkey
    rcases List.mem_or_eq_of_mem_set hkey with hmem | heq
    · exact h5 key hmem
    · subst heq
      have hok : KeyFieldsOk (some k) := h5 (some k) (List.getElem?_mem hk)
      exact hok

theorem activeValid_of_layout (kb : Keyboard) (layout : Layout)
    (hlayout : kb.layout = some layout) (hfields : FieldChecksPass layout)
    (htheme : ∃ theme, kb.theme = some theme) : ActiveValid kb :=
  ⟨⟨layout, hlayout, (validateLayout_ret_none_iff _ layout).mpr hfields, hfields.1⟩, htheme⟩

theorem activeValid_pressKey (kb : Keyboard) (h : ActiveValid kb) (id : String) :
    ActiveValid (kb.PressKey id).kb ∧ (kb.PressKey id).result = Run.ret none := by
  obtain ⟨⟨layout, hlayout, hvalid, _⟩, htheme⟩ := h
  have hfields := (validateLayout_ret_none_iff _ layout).mp hvalid
  have hkeys : KeysPresent layout.Keys := validated_keys_present _ layout hvalid
  by_cases hex : ∃ k, some k ∈ layout.Keys ∧ k.ID = id
  · obtain ⟨i, k, hfirst⟩ := exists_firstWithID layout.Keys hkeys id hex
    rw [pressKey_first kb layout id hlayout hkeys i k hfirst]
    exact ⟨activeValid_of_layout _ _ rfl (fieldChecksPass_set_state layout hfields i k hfirst.1 _)
      htheme, rfl⟩
  · rw [pressKey_no_match kb layout id hlayout hkeys hex]
    exact ⟨activeValid_of_layout _ _ rfl hfields htheme, rfl⟩

theorem activeValid_releaseKey (kb : Keyboard) (h : ActiveValid kb) (id : String) :
    ActiveValid (kb.ReleaseKey id).kb ∧ (kb.ReleaseKey id).result = Run.ret none := by
  obtain ⟨⟨layout, hlayout, hvalid, _⟩, htheme⟩ := h
  have hfields := (validateLayout_ret_none_iff _ layout).mp hvalid
  have hkeys : KeysPresent layout.Keys := validated_keys_present _ layout hvalid
  by_cases hex : ∃ k, some k ∈ layout.Keys ∧ k.ID = id
  · obtain ⟨i, k, hfirst⟩ := exists_firstWithID layout.Keys hkeys id hex
    rw [releaseKey_first kb layout id hlayout hkeys i k hfirst]
    exact ⟨activeValid_of_layout _ _ rfl (fieldChecksPass_set_state layout hfields i k hfirst.1 _)
      htheme, rfl⟩
  · rw [releaseKey_no_match kb layout id hlayout hkeys hex]
    exact ⟨activeValid_of_layout _ _ rfl hfields htheme, rfl⟩

theorem activeValid_loadLayout (env : Env) (kb : Keyboard) (h : ActiveValid kb) (name : String) :
    ActiveValid (Keyboard.LoadLayout env kb name).1 := by
  rcases loadLayout_spec env kb name with ⟨_, layout, h1, hv, _⟩ | ⟨_, h1⟩
  · rw [h1]
    exact activeValid_of_layout _ layout rfl ((validateLayout_ret_none_iff _ layout).mp hv) h.2
  · rw [h1]; exact h

theorem loadLayout_never_noCurrentLayout (env : Env) (kb : Keyboard) (name : String) :
    (Keyboard.LoadLayout env kb name).2 ≠ Run.ret (some KbError.noCurrentLayout) := by
  dsimp only [Keyboard.LoadLayout]
  cases (NewLayoutParser "assets/layouts").ParseLayout env (name ++ ".json") with
  | ok layout =>
    dsimp only
    cases (NewLayoutParser "assets/layouts").ValidateLayout layout with
    | panic => simp
    | ret r => cases r <;> simp
  | error err =>
    dsimp only
    by_cases hq : name = "qwerty"
    · rw [if_pos hq]
      dsimp only
      cases (NewLayoutParser "assets/layouts").ValidateLayout
          { Name := name, Width := 900, Height := 400, Keys := createQWERTYLayout } with
      | panic => simp
      | ret r => cases r <;> simp
    · rw [if_neg hq]
      simp

theorem activeValid_step (env : Env) (kb : Keyboard) (h : ActiveValid kb) (op : KbOp) :
    ActiveValid (kb.step env op).kb := by
  cases op with
  | loadLayout name => exact activeValid_loadLayout env kb h name
  | switchLayout name => exact activeValid_loadLayout env kb h name
  | refreshLayout =>
    simp only [Keyboard.step, Keyboard.RefreshLayout]
    split
    · exact h
    · exact activeValid_loadLayout env kb h _
  | loadTheme name => exact ⟨h.1, _, rfl⟩
  | pressKey id => exact (activeValid_pressKey kb h id).1
  | releaseKey id => exact (activeValid_releaseKey kb h id).1
  | registerCallback id cb => exact h

theorem activeValid_of_reachable (kb : Keyboard) (h : Reachable kb) : ActiveValid kb := by
  induction h with
  | new env kb hnew =>
    obtain ⟨_, _, ⟨layout, hlayout, hvalid⟩, htheme⟩ := new_spec env kb hnew
    exact activeValid_of_layout kb layout hlayout
      ((validateLayout_ret_none_iff _ layout).mp hvalid) htheme
  | step env kb op _ ih => exact activeValid_step env kb ih op

theorem new_emptyEnv : New emptyEnv = Run.ret (Except.ok defaultKeyboard) := by
  simp only [New, Keyboard.LoadLayout, Keyboard.LoadTheme]
  rfl

/-- C22: in every state reachable from a successful New through any sequence of
LoadLayout, SwitchLayout, RefreshLayout, LoadTheme, PressKey, ReleaseKey and
RegisterCallback calls, successful or failed, the active layout and the active theme
are present and the active layout is accepted by ValidateLayout and has a non-empty
name; so PressKey and ReleaseKey return without error and RefreshLayout never reports
"no current layout to refresh". -/
theorem reachable_keyboard_has_valid_layout (kb : Keyboard) (h : Reachable kb) :
    ActiveValid kb ∧
    (∀ id, (kb.PressKey id).result = Run.ret none ∧ (kb.ReleaseKey id).result = Run.ret none) ∧
    (∀ env, (Keyboard.RefreshLayout env kb).2 ≠ Run.ret (some KbError.noCurrentLayout)) := by
  have hvalid := activeValid_of_reachable kb h
  refine ⟨hvalid, fun id => ⟨(activeValid_pressKey kb hvalid id).2,
    (activeValid_releaseKey kb hvalid id).2⟩, ?_⟩
  intro env
  obtain ⟨⟨layout, hlayout, _, hname⟩, _⟩ := hvalid
  simp only [Keyboard.RefreshLayout, Keyboard.GetCurrentLayoutName, hlayout, hname, if_false]
  exact loadLayout_never_noCurrentLayout env kb layout.Name

/-- C22 (witness): the keyboard reached from New (no files) by pressing "a", failing to
load "dvorak", loading the theme "dark", registering a callback for "a" and refreshing
the layout still has a valid active layout and theme. -/
theorem reachable_keyboard_has_valid_layout_witness :
    ActiveValid
      (Keyboard.step emptyEnv
        (Keyboard.step emptyEnv
          (Keyboard.step emptyEnv
            (Keyboard.step emptyEnv
              (Keyboard.step emptyEnv defaultKeyboard (KbOp.pressKey "a")).kb
              (KbOp.loadLayout "dvorak")).kb
            (KbOp.loadTheme "dark")).kb
          (KbOp.registerCallback "a" { tag := 3 })).kb
        KbOp.refreshLayout).kb :=
  (reachable_keyboard_has_valid_layout _
    (Reachable.step emptyEnv _ KbOp.refreshLayout
      (Reachable.step emptyEnv _ (KbOp.registerCallback "a" { tag := 3 })
        (Reachable.step emptyEnv _ (KbOp.loadTheme "dark")
          (Reachable.step emptyEnv _ (KbOp.loadLayout "dvorak")
            (Reachable.step emptyEnv _ (KbOp.pressKey "a")
              (Reachable.new emptyEnv defaultKeyboard new_emptyEnv))))))).1


/-! ## Switching layouts -/

theorem parseLayout_ok_decoded (p : LayoutParser) (env : Env) (filename : String)
    (layout : Layout) (h : p.ParseLayout env filename = Except.ok layout) :
    ∃ data, env.unmarshalLayout data = some layout := by
  unfold LayoutParser.ParseLayout at h
  dsimp only at h
  split at h
  · cases h
  · split at h
    · cases h
    · rename_i data _
      split at h
      · cases h
      · rename_i l hl
        cases h
        exact ⟨data, hl⟩

theorem createQWERTYLayout_released :
    ∀ k, some k ∈ createQWERTYLayout → k.State = KeyState.KeyStateReleased := by
  have h : ∀ key ∈ createQWERTYLayout,
      key.map (fun k => k.State) = some KeyState.KeyStateReleased := by decide
  intro k hk
  simpa using h (some k) hk

theorem loadLayout_only_layout (env : Env) (kb : Keyboard) (name : String)
    (hdec : DecoderLeavesState env) (hok : (Keyboard.LoadLayout env kb name).2 = Run.ret none) :
    OnlyLayoutReplaced kb (Keyboard.LoadLayout env kb name).1 := by
  rcases loadLayout_spec env kb name with ⟨_, layout, h1, _, h3⟩ | ⟨h, _⟩
  · rw [h1]
    refine ⟨fun id => ⟨rfl, rfl⟩, rfl, layout, rfl, ?_⟩
    rcases h3 with hparse | ⟨_, _, hbuiltin⟩
    · obtain ⟨data, hdata⟩ := parseLayout_ok_decoded _ env _ layout hparse
      exact hdec data layout hdata
    · rw [hbuiltin]
      exact createQWERTYLayout_released
  · exact absurd hok h

/-- C23: a successful LoadLayout, SwitchLayout or RefreshLayout replaces only the
layout: for every id, GetKeyState(id) and the registered callback are the same after
the switch as before it, and every key of the newly installed layout has State
released (a decoded layout never carries a State); so an id that was pressed before the
switch still reports pressed afterwards although the new layout's key with that id is
in State released. -/
theorem successful_switch_replaces_only_layout (env : Env) (kb : Keyboard) (name : String)
    (hdec : DecoderLeavesState env) :
    Keyboard.SwitchLayout env kb name = Keyboard.LoadLayout env kb name ∧
    ((Keyboard.LoadLayout env kb name).2 = Run.ret none →
      OnlyLayoutReplaced kb (Keyboard.LoadLayout env kb name).1) ∧
    ((Keyboard.RefreshLayout env kb).2 = Run.ret none →
      OnlyLayoutReplaced kb (Keyboard.RefreshLayout env kb).1) ∧
    (∀ id, kb.GetKeyState id = KeyState.KeyStatePressed →
      (Keyboard.LoadLayout env kb name).2 = Run.ret none →
      (Keyboard.LoadLayout env kb name).1.GetKeyState id = KeyState.KeyStatePressed ∧
      ∃ layout, (Keyboard.LoadLayout env kb name).1.layout = some layout ∧
        ∀ k, some k ∈ layout.Keys → k.ID = id → k.State = KeyState.KeyStateReleased) := by
  refine ⟨rfl, loadLayout_only_layout env kb name hdec, ?_, ?_⟩
  · intro hok
    unfold Keyboard.RefreshLayout at hok ⊢
    dsimp only at hok ⊢
    split at hok
    · cases hok
    · rename_i hname
      rw [if_neg hname]
      exact loadLayout_only_layout env kb _ hdec hok
  · intro id hpressed hok
    obtain ⟨hframe, _, layout, hlayout, hreleased⟩ := loadLayout_only_layout env kb name hdec hok
    exact ⟨by rw [(hframe id).1, hpressed], layout, hlayout, fun k hk _ => hreleased k hk⟩

/-- C23 (witness): on the two-key keyboard with "b" pressed, loading the layout "two"
from a file that decodes to the two-key layout succeeds; afterwards GetKeyState("b") is
still pressed while every key with id "b" of the installed layout is released. -/
theorem successful_switch_replaces_only_layout_witness :
    (Keyboard.LoadLayout twoKeyEnv (twoKeyKeyboard.PressKey "b").kb "two").1.GetKeyState "b" =
      KeyState.KeyStatePressed ∧
    ∃ layout,
      (Keyboard.LoadLayout twoKeyEnv (twoKeyKeyboard.PressKey "b").kb "two").1.layout =
        some layout ∧
      ∀ k, some k ∈ layout.Keys → k.ID = "b" → k.State = KeyState.KeyStateReleased :=
  (successful_switch_replaces_only_layout twoKeyEnv (twoKeyKeyboard.PressKey "b").kb "two"
    (fun data layout h k hk => by
      simp only [twoKeyEnv, Option.some.injEq] at h
      subst h
      simp only [twoKeyLayout, List.mem_cons, List.mem_singleton, List.not_mem_nil, or_false,
        Option.some.injEq] at hk
      rcases hk with rfl | rfl <;> rfl)).2.2.2 "b" (by decide) (by decide)


end OskIotcore
